import Mathlib

/-!
# Conntrack netlink attribute decoding

A shallow embedding of `netlink_attr.go` and of the decoders of `client.go`
(package `conntrack`), together with the properties of the decoding pipeline.

Go values are embedded as follows.

* A byte is a `Fin 256`.
* A byte slice is a `Slice`: the elements below `len`, and the elements of the
  backing array between `len` and `cap` (Go checks the upper bound of a slice
  expression `b[lo:hi]` against `cap`, and that of `b[lo:]` against `len`).
* A run-time panic (slice bounds or index out of range) is the outcome
  `Run.panic`; an `error` value is its message.
* Unsigned 16-bit arithmetic is arithmetic on `Nat` modulo `65536` (`subUint16`).
-/

namespace Conntrack

/-! ## Bytes, slices and outcomes -/

abbrev Byte := Fin 256

/-- Go byte slice: `elems` are the `len` visible elements, `spare` the elements of
the backing array that lie between `len` and `cap`. -/
structure Slice where
  elems : List Byte
  spare : List Byte
deriving DecidableEq, Repr

/-- Go `len(b)`. -/
def Slice.len (b : Slice) : Nat := b.elems.length

/-- Go `cap(b)`. -/
def Slice.cap (b : Slice) : Nat := b.elems.length + b.spare.length

/-- Go `b[lo:hi]` on a slice: requires `lo ≤ hi ≤ cap(b)`, panics (`none`) otherwise. -/
def Slice.slice (b : Slice) (lo hi : Nat) : Option Slice :=
  if lo ≤ hi ∧ hi ≤ b.cap then
    some ⟨((b.elems ++ b.spare).drop lo).take (hi - lo), (b.elems ++ b.spare).drop hi⟩
  else none

/-- Go `b[lo:]` on a slice: requires `lo ≤ len(b)`, panics (`none`) otherwise. -/
def Slice.sliceFrom (b : Slice) (lo : Nat) : Option Slice :=
  if lo ≤ b.len then some ⟨b.elems.drop lo, b.spare⟩ else none

/-- Go `binary.LittleEndian.Uint16(b)`: reads `b[0]` and `b[1]`, panics (`none`) when
`len(b) < 2`. -/
def Slice.leUint16 (b : Slice) : Option Nat :=
  match b.elems with
  | b0 :: b1 :: _ => some (b0.val + 256 * b1.val)
  | _ => none

/-- Go `binary.BigEndian.Uint16(b)`: reads `b[0]` and `b[1]`, panics (`none`) when
`len(b) < 2`. -/
def Slice.beUint16 (b : Slice) : Option Nat :=
  match b.elems with
  | b0 :: b1 :: _ => some (256 * b0.val + b1.val)
  | _ => none

/-- Outcome of a Go call that returns the values `r` and leaves the memory it was handed
in state `s`; `panic` is a run-time panic, `nofuel` is the embedding running out of loop
fuel (shown below never to happen for `parseAttrs`). -/
inductive Run (ρ σ : Type) where
  | ret (r : ρ) (s : σ)
  | panic
  | nofuel
deriving DecidableEq, Repr

/-! ## netlink_attr.go -/

def attrHdrLength : Nat := 4

/-- Go `a - b` on `uint16` operands (both below `65536`): the difference modulo `65536`,
that is `a - b` when `b ≤ a` and `a + 65536 - b` when the subtraction wraps around. -/
def subUint16 (a b : Nat) : Nat := if b ≤ a then a - b else a + 65536 - b

/-- Modelled from the spec: the flag constant `NLA_F_NESTED` is declared in a file that is
not part of the sources at hand; it is bit 15 of the type word. -/
def NLA_F_NESTED : Nat := 32768

/-- Modelled from the spec: the flag constant `NLA_F_NET_BYTEORDER` is declared in a file
that is not part of the sources at hand; it is bit 14 of the type word. -/
def NLA_F_NET_BYTEORDER : Nat := 16384

/-- Modelled from the spec: the constant `NLA_TYPE_MASK` is declared in a file that is not
part of the sources at hand; it keeps the low 14 bits of the type word (the two flag bits
are masked off). -/
def NLA_TYPE_MASK : Nat := 16383

/-- Modelled from the spec: the helper `rtaAlignOf` is declared in a file that is not part
of the sources at hand; it rounds a length up to the next multiple of 4. -/
def rtaAlignOf (attrlen : Nat) : Nat := (attrlen + 3) / 4 * 4

structure Attr where
  Msg : Slice
  Typ : Nat
  IsNested : Bool
  IsNetByteorder : Bool
deriving DecidableEq, Repr

/-- Go `parseAttr(b, attr)`: the returned triple is the `bool` result, the remaining buffer
and the value written to `*attr` (every field of `*attr` is overwritten); `none` is a panic
of one of the slice expressions. -/
def parseAttr (b : Slice) : Option (Bool × Slice × Attr) := do
  let l0 ← (← b.slice 0 2).leUint16
  -- length is header + payload
  let l := subUint16 l0 attrHdrLength
  let typ ← (← b.slice 2 4).leUint16
  let msg ← b.slice attrHdrLength (attrHdrLength + l)
  let rest ← b.sliceFrom (rtaAlignOf (attrHdrLength + l))
  pure (true, rest,
    { Msg := msg
      Typ := typ &&& NLA_TYPE_MASK
      IsNested := decide (typ &&& NLA_F_NESTED > 0)
      IsNetByteorder := decide (typ &&& NLA_F_NET_BYTEORDER > 0) })

/-- The `for len(b) >= attrHdrLength` loop of `parseAttrs` and the code after it, with the
loop bounded by `fuel` iterations. `attrs` is the caller's array, `idx` the loop
variable. -/
def parseAttrsLoop : Nat → Slice → List Attr → Nat → Run (Nat × Option String) (List Attr)
  | 0, _, _, _ => Run.nofuel
  | fuel + 1, b, attrs, idx =>
    if attrHdrLength ≤ b.len then
      if idx < attrs.length then
        match parseAttr b with
        | none => Run.panic
        | some (use, b', a) =>
          parseAttrsLoop fuel b' (attrs.set idx a) (if use then idx + 1 else idx)
      else Run.panic
    else if b.len ≠ 0 then Run.ret (0, some "leftover attr bytes") attrs
    else Run.ret (idx, none) attrs

/-- Go `parseAttrs(b, attrs)`: returns `(idx, err)`, and the array `attrs` as it was
filled. -/
def parseAttrs (b : Slice) (attrs : List Attr) : Run (Nat × Option String) (List Attr) :=
  parseAttrsLoop (b.len / 4 + 1) b attrs 0

/-- Go `make([]Attr, n)`: `n` zero-valued slots. -/
def makeAttrs (n : Nat) : List Attr := List.replicate n ⟨⟨[], []⟩, 0, false, false⟩

/-! ## client.go: the decoders -/

structure Tuple where
  Src : List Byte
  SrcPort : Nat
  Dst : List Byte
  DstPort : Nat
  Proto : Nat
deriving DecidableEq, Repr

structure Conn where
  MsgType : Nat
  Orig : Tuple
  Reply : Tuple
  TCPState : String
deriving DecidableEq, Repr

/-- Modelled from the spec: the attribute type enumerations (`CtattrType`, `CtattrTuple`,
`CtattrIp`, `CtattrL4proto`) are declared in a file that is not part of the sources at
hand. They are the integer enumerations of the kernel's conntrack netlink interface; within
one `switch` the codes are pairwise distinct. This is the top-level code of the
original-direction tuple. -/
def CtaTupleOrig : Nat := 1

/-- Modelled from the spec: top-level code of the reply-direction tuple (see
`CtaTupleOrig`). -/
def CtaTupleReply : Nat := 2

/-- Modelled from the spec: top-level code of the status attribute (see `CtaTupleOrig`). -/
def CtaStatus : Nat := 3

/-- Modelled from the spec: top-level code of the protocol-info attribute (see
`CtaTupleOrig`). -/
def CtaProtoinfo : Nat := 4

/-- Modelled from the spec: tuple-level code "unspecified" (see `CtaTupleOrig`). -/
def CtaTupleUnspec : Nat := 0

/-- Modelled from the spec: tuple-level code of the IP sub-group (see `CtaTupleOrig`). -/
def CtaTupleIp : Nat := 1

/-- Modelled from the spec: tuple-level code of the protocol sub-group (see
`CtaTupleOrig`). -/
def CtaTupleProto : Nat := 2

/-- Modelled from the spec: IP-level code of the v4 source address (see `CtaTupleOrig`). -/
def CtaIpV4Src : Nat := 1

/-- Modelled from the spec: IP-level code of the v4 destination address (see
`CtaTupleOrig`). -/
def CtaIpV4Dst : Nat := 2

/-- Modelled from the spec: IP-level code of the v6 source address (see `CtaTupleOrig`). -/
def CtaIpV6Src : Nat := 3

/-- Modelled from the spec: IP-level code of the v6 destination address (see
`CtaTupleOrig`). -/
def CtaIpV6Dst : Nat := 4

/-- Modelled from the spec: protocol-level code of the protocol number (see
`CtaTupleOrig`). -/
def CtaProtoNum : Nat := 1

/-- Modelled from the spec: protocol-level code of the source port (see `CtaTupleOrig`). -/
def CtaProtoSrcPort : Nat := 2

/-- Modelled from the spec: protocol-level code of the destination port (see
`CtaTupleOrig`). -/
def CtaProtoDstPort : Nat := 3

/-- What one pass through the body of a `range` loop does: go on with the next element,
`return` from the enclosing function, or panic. -/
inductive Step (σ : Type) where
  | next (s : σ)
  | stop (err : Option String) (s : σ)
  | panic
  | nofuel
deriving DecidableEq, Repr

/-- The loop `for i, attr := range attrs { if i == idx { break }; body }` followed by
`return nil`, started at index `i` on the remaining elements. -/
def forRange {σ : Type} (idx : Nat) (body : Attr → σ → Step σ) :
    Nat → List Attr → σ → Run (Option String) σ
  | _, [], s => Run.ret none s
  | i, attr :: rest, s =>
    if i = idx then Run.ret none s
    else
      match body attr s with
      | Step.next s' => forRange idx body (i + 1) rest s'
      | Step.stop err s' => Run.ret err s'
      | Step.panic => Run.panic
      | Step.nofuel => Run.nofuel

/-- The `switch CtattrL4proto(attr.Typ)` of `parseProto`. -/
def parseProtoBody (attr : Attr) (t : Tuple) : Step Tuple :=
  if attr.Typ = CtaProtoNum then
    match attr.Msg.elems with
    | [] => Step.panic
    | m0 :: _ => Step.next { t with Proto := m0.val }
  else if attr.Typ = CtaProtoSrcPort then
    match attr.Msg.beUint16 with
    | none => Step.panic
    | some v => Step.next { t with SrcPort := v }
  else if attr.Typ = CtaProtoDstPort then
    match attr.Msg.beUint16 with
    | none => Step.panic
    | some v => Step.next { t with DstPort := v }
  else Step.next t

def parseProto (b : Slice) (t : Tuple) : Run (Option String) Tuple :=
  match parseAttrs b (makeAttrs 20) with
  | Run.ret (idx, err) attrs =>
    match err with
    | some e => Run.ret (some ("invalid tuple attr: " ++ e)) t
    | none => forRange idx parseProtoBody 0 attrs t
  | Run.panic => Run.panic
  | Run.nofuel => Run.nofuel

/-- The `switch CtattrIp(attr.Typ)` of `parseIP`. -/
def parseIPBody (attr : Attr) (t : Tuple) : Step Tuple :=
  if attr.Typ = CtaIpV4Src then Step.next { t with Src := attr.Msg.elems }
  else if attr.Typ = CtaIpV4Dst then Step.next { t with Dst := attr.Msg.elems }
  else if attr.Typ = CtaIpV6Src then Step.stop (some "Not supported") t
  else if attr.Typ = CtaIpV6Dst then Step.stop (some "Not supported") t
  else Step.next t

def parseIP (b : Slice) (t : Tuple) : Run (Option String) Tuple :=
  match parseAttrs b (makeAttrs 20) with
  | Run.ret (idx, err) attrs =>
    match err with
    | some e => Run.ret (some ("invalid tuple attr: " ++ e)) t
    | none => forRange idx parseIPBody 0 attrs t
  | Run.panic => Run.panic
  | Run.nofuel => Run.nofuel

/-- The `switch CtattrTuple(attr.Typ)` of `parseTuple`; the error returned by
`parseProto` is discarded by the caller. -/
def parseTupleBody (attr : Attr) (t : Tuple) : Step Tuple :=
  if attr.Typ = CtaTupleUnspec then Step.next t
  else if attr.Typ = CtaTupleIp then
    match parseIP attr.Msg t with
    | Run.ret none t' => Step.next t'
    | Run.ret (some e) t' => Step.stop (some e) t'
    | Run.panic => Step.panic
    | Run.nofuel => Step.nofuel
  else if attr.Typ = CtaTupleProto then
    match parseProto attr.Msg t with
    | Run.ret _ t' => Step.next t'
    | Run.panic => Step.panic
    | Run.nofuel => Step.nofuel
  else Step.next t

def parseTuple (b : Slice) (t : Tuple) : Run (Option String) Tuple :=
  match parseAttrs b (makeAttrs 20) with
  | Run.ret (idx, err) attrs =>
    match err with
    | some e => Run.ret (some ("invalid tuple attr: " ++ e)) t
    | none => forRange idx parseTupleBody 0 attrs t
  | Run.panic => Run.panic
  | Run.nofuel => Run.nofuel

/-- The `switch CtattrType(attr.Typ)` of `parsePayload`. -/
def parsePayloadBody (attr : Attr) (conn : Conn) : Step Conn :=
  if attr.Typ = CtaTupleOrig then
    match parseTuple attr.Msg conn.Orig with
    | Run.ret none t' => Step.next { conn with Orig := t' }
    | Run.ret (some e) t' => Step.stop (some e) { conn with Orig := t' }
    | Run.panic => Step.panic
    | Run.nofuel => Step.nofuel
  else if attr.Typ = CtaTupleReply then
    match parseTuple attr.Msg conn.Reply with
    | Run.ret none t' => Step.next { conn with Reply := t' }
    | Run.ret (some e) t' => Step.stop (some e) { conn with Reply := t' }
    | Run.panic => Step.panic
    | Run.nofuel => Step.nofuel
  else if attr.Typ = CtaStatus then Step.next conn
  else if attr.Typ = CtaProtoinfo then Step.next conn
  else Step.next conn

def parsePayload (b : Slice) (conn : Conn) : Run (Option String) Conn :=
  match parseAttrs b (makeAttrs 20) with
  | Run.ret (idx, err) attrs =>
    match err with
    | some e => Run.ret (some e) conn
    | none => forRange idx parsePayloadBody 0 attrs conn
  | Run.panic => Run.panic
  | Run.nofuel => Run.nofuel

/-! ## client.go: the direction resolver -/

/-- Modelled from the spec: the type `ConnTCP` is declared in a file that is not part of
the sources at hand; it is the record of the four strings that `Conn.ConnTCP` fills. -/
structure ConnTCP where
  Local : String
  LocalPort : String
  Remote : String
  RemotePort : String
deriving DecidableEq, Repr

/-- Go `strconv.Itoa` on a non-negative integer: its decimal digits. -/
def itoa (n : Nat) : String := Nat.repr n

/-- The dotted-decimal text `a.b.c.d` of a 4-byte address. -/
def dottedDecimal (a b c d : Byte) : String :=
  itoa a.val ++ "." ++ itoa b.val ++ "." ++ itoa c.val ++ "." ++ itoa d.val

/-- Go `net.IP(s).String()` (standard library): a 4-byte address is printed in dotted
decimal; the text the library gives an address of any other length is the parameter
`other`. -/
def netIPString (other : List Byte → String) : List Byte → String
  | [a, b, c, d] => dottedDecimal a b c d
  | ip => other ip

/-- Go `c.ConnTCP(local)`; the map `local` is the list of its keys, `none` is the `nil`
result. -/
def Conn.ConnTCP (other : List Byte → String) (c : Conn) (localSet : List String) :
    Option ConnTCP :=
  let src := netIPString other c.Reply.Src
  let dst := netIPString other c.Reply.Dst
  let srcLocal := decide (src ∈ localSet)
  let dstLocal := decide (dst ∈ localSet)
  -- If both are local we must just order things predictably.
  let srcLocal := if srcLocal && dstLocal then decide (c.Reply.SrcPort < c.Reply.DstPort)
    else srcLocal
  if srcLocal then
    some { Local := src, LocalPort := itoa c.Reply.SrcPort,
           Remote := dst, RemotePort := itoa c.Reply.DstPort }
  else if dstLocal then
    some { Local := dst, LocalPort := itoa c.Reply.DstPort,
           Remote := src, RemotePort := itoa c.Reply.SrcPort }
  else none

/-! ## Well-formed attribute streams -/

/-- The byte `n mod 256`. -/
def byteOf (n : Nat) : Byte := ⟨n % 256, Nat.mod_lt n (by decide)⟩

/-- Two bytes, little-endian, of a 16-bit value. -/
def putUint16LE (n : Nat) : List Byte := [byteOf n, byteOf (n / 256)]

/-- One record of an attribute stream as it lies in a buffer: the 16-bit type word, the
payload bytes and the alignment bytes that follow the payload. -/
structure Rec where
  typ : Nat
  payload : List Byte
  pad : List Byte
deriving DecidableEq, Repr

/-- The declared length of a record: header plus payload. -/
def Rec.declLen (r : Rec) : Nat := attrHdrLength + r.payload.length

/-- The record fits the wire format: a 16-bit type word, a declared length that fits 16
bits, and exactly the padding that reaches the next multiple of 4. -/
def Rec.WF (r : Rec) : Prop :=
  r.typ < 65536 ∧ r.declLen < 65536 ∧ r.declLen + r.pad.length = rtaAlignOf r.declLen

instance (r : Rec) : Decidable r.WF :=
  inferInstanceAs (Decidable (r.typ < 65536 ∧ r.declLen < 65536 ∧
    r.declLen + r.pad.length = rtaAlignOf r.declLen))

/-- The bytes of a record: length, type word, payload, padding. -/
def Rec.bytes (r : Rec) : List Byte :=
  putUint16LE r.declLen ++ putUint16LE r.typ ++ r.payload ++ r.pad

/-- The buffer that is the concatenation of the records. -/
def encodeRecs : List Rec → List Byte
  | [] => []
  | r :: rs => r.bytes ++ encodeRecs rs

/-- The attribute that `parseAttr` fills for a record that is followed in the backing
array by the bytes `post` (after the record's padding). -/
def Rec.attr (r : Rec) (post : List Byte) : Attr :=
  { Msg := ⟨r.payload, r.pad ++ post⟩
    Typ := r.typ &&& NLA_TYPE_MASK
    IsNested := decide (r.typ &&& NLA_F_NESTED > 0)
    IsNetByteorder := decide (r.typ &&& NLA_F_NET_BYTEORDER > 0) }

/-- The attributes of a record stream that is followed in the backing array by `post`. -/
def attrsOf : List Rec → List Byte → List Attr
  | [], _ => []
  | r :: rs, post => r.attr (encodeRecs rs ++ post) :: attrsOf rs post

/-- The body of a `range` loop run over the elements of a list, then `return nil`. -/
def runBody {σ : Type} (body : Attr → σ → Step σ) : List Attr → σ → Run (Option String) σ
  | [], s => Run.ret none s
  | a :: rest, s =>
    match body a s with
    | Step.next s' => runBody body rest s'
    | Step.stop err s' => Run.ret err s'
    | Step.panic => Run.panic
    | Step.nofuel => Run.nofuel

/-- Two records: a nested one with a 4-byte payload, and one in network byte order with a
1-byte payload and 3 bytes of padding. -/
def sampleRecs : List Rec :=
  [⟨32768 + 1, [10, 0, 0, 5], []⟩, ⟨16384 + 2, [7], [0, 0, 0]⟩]

/-- The attribute's type word as the round-trip property describes it: `Typ` with bit 15
set when `IsNested` and bit 14 set when `IsNetByteorder`. -/
def Attr.typeWord (a : Attr) : Nat :=
  a.Typ ||| (if a.IsNested then NLA_F_NESTED else 0) |||
    (if a.IsNetByteorder then NLA_F_NET_BYTEORDER else 0)

/-- Re-encoding of one attribute as the round-trip property describes it: the length
`4 + len(Msg)` and the type word as 2 bytes little-endian each, then `Msg`, then zero bytes
up to the next multiple of 4. -/
def encodeAttr (a : Attr) : List Byte :=
  putUint16LE (attrHdrLength + a.Msg.len) ++ putUint16LE a.typeWord ++ a.Msg.elems ++
    List.replicate (rtaAlignOf (attrHdrLength + a.Msg.len) - (attrHdrLength + a.Msg.len)) 0

/-- Concatenation of the re-encoded attributes. -/
def encodeAttrs : List Attr → List Byte
  | [] => []
  | a :: rest => encodeAttr a ++ encodeAttrs rest

/-- Decode with `parseAttrs`, then re-encode the `idx` attributes it returned; `none` when
`parseAttrs` does not return `(idx, nil)`. -/
def reencode (b : Slice) : Option (List Byte) :=
  match parseAttrs b (makeAttrs 20) with
  | Run.ret (idx, none) attrs => some (encodeAttrs (attrs.take idx))
  | _ => none

/-- One record with a 1-byte payload whose 3 padding bytes are not zero:
`05 00 01 00 07 09 09 09`. -/
def paddedRecs : List Rec := [⟨1, [7], [9, 9, 9]⟩]

/-- The attribute with the spare capacity of its `Msg` slice forgotten. -/
def Attr.strip (a : Attr) : Attr := { a with Msg := ⟨a.Msg.elems, []⟩ }

/-- What a caller learns from `parseAttrs`: the `idx` attributes it returned, each with its
payload bytes, type code and flags (the spare capacity of `Msg` forgotten); `none` when
`parseAttrs` does not return `(idx, nil)`. -/
def decoded (b : Slice) : Option (List Attr) :=
  match parseAttrs b (makeAttrs 20) with
  | Run.ret (idx, none) attrs => some ((attrs.take idx).map Attr.strip)
  | _ => none

/-- The outcome of `parseAttrs` with the spare capacity of every `Msg` forgotten. -/
def stripRun : Run (Nat × Option String) (List Attr) → Run (Nat × Option String) (List Attr)
  | Run.ret r s => Run.ret r (s.map Attr.strip)
  | Run.panic => Run.panic
  | Run.nofuel => Run.nofuel

/-- The shape shared by `parsePayload`, `parseTuple`, `parseIP` and `parseProto`: decode the
group with `parseAttrs` into 20 fresh slots, return the error (through `wrap`) if there is
one, otherwise run the loop body over the filled slots. -/
def decodeGroup {σ : Type} (wrap : String → String) (body : Attr → σ → Step σ)
    (b : Slice) (s : σ) : Run (Option String) σ :=
  match parseAttrs b (makeAttrs 20) with
  | Run.ret (idx, err) attrs =>
    match err with
    | some e => Run.ret (some (wrap e)) s
    | none => forRange idx body 0 attrs s
  | Run.panic => Run.panic
  | Run.nofuel => Run.nofuel

/-- The error wrapping of `parseTuple`, `parseIP` and `parseProto`. -/
def wrapTupleErr (e : String) : String := "invalid tuple attr: " ++ e

/-- The type code of a record: its type word without the two flag bits. -/
def Rec.code (r : Rec) : Nat := r.typ &&& NLA_TYPE_MASK

/-- The attribute decoded from a record, without spare capacity. -/
def Rec.view (r : Rec) : Attr := (r.attr []).strip

/-- A group of 20 empty attributes of the unknown type code 9 (80 bytes). -/
def fullRecs : List Rec := List.replicate 20 ⟨9, [], []⟩

/-- One more empty attribute of the unknown type code 9. -/
def extraRec : Rec := ⟨9, [], []⟩

/-- An all-zero `Tuple`. -/
def zeroTuple : Tuple := ⟨[], 0, [], 0, 0⟩

/-- An all-zero `Conn`, as made by `&Conn{}`. -/
def zeroConn : Conn := ⟨0, zeroTuple, zeroTuple, ""⟩

/-- The type codes that the `switch` of `parsePayload` acts on (`CtaStatus` and
`CtaProtoinfo` are cases with an empty body). -/
def handledPayload : List Nat := [CtaTupleOrig, CtaTupleReply]

/-- The type codes that the `switch` of `parseTuple` acts on (`CtaTupleUnspec` is a case
with an empty body). -/
def handledTuple : List Nat := [CtaTupleIp, CtaTupleProto]

/-- The type codes that the `switch` of `parseIP` acts on. -/
def handledIP : List Nat := [CtaIpV4Src, CtaIpV4Dst, CtaIpV6Src, CtaIpV6Dst]

/-- The type codes that the `switch` of `parseProto` acts on. -/
def handledProto : List Nat := [CtaProtoNum, CtaProtoSrcPort, CtaProtoDstPort]

/-- An IPv4 tuple group: an IP sub-group with source 10.0.0.5 and destination
93.184.216.34, and a protocol sub-group with protocol 6, ports 40000 and 443. -/
def sampleTupleRecs : List Rec :=
  [⟨32768 + 1, encodeRecs [⟨1, [10, 0, 0, 5], []⟩, ⟨2, [93, 184, 216, 34], []⟩], []⟩,
   ⟨32768 + 2, encodeRecs [⟨1, [6], [0, 0, 0]⟩, ⟨2, [156, 64], [0, 0]⟩,
      ⟨3, [1, 187], [0, 0]⟩], []⟩]

/-- The payload of the last attribute of the list whose type code is `code`, if there is
one. -/
def lastPayload (code : Nat) : List Attr → Option (List Byte)
  | [] => none
  | a :: rest =>
    match lastPayload code rest with
    | some p => some p
    | none => if a.Typ = code then some a.Msg.elems else none

/-- The last record of the list whose type code is `code`, if there is one. -/
def lastRec (code : Nat) : List Rec → Option Rec
  | [] => none
  | r :: rest =>
    match lastRec code rest with
    | some q => some q
    | none => if r.code = code then some r else none

/-- The payloads of a protocol sub-group are long enough for what `parseProto` reads:
1 byte for a protocol number, 2 bytes for a port. -/
def ProtoSized (rs : List Rec) : Prop :=
  ∀ r ∈ rs, (r.code = CtaProtoNum → 1 ≤ r.payload.length) ∧
    (r.code = CtaProtoSrcPort → 2 ≤ r.payload.length) ∧
    (r.code = CtaProtoDstPort → 2 ≤ r.payload.length)

instance (rs : List Rec) : Decidable (ProtoSized rs) :=
  inferInstanceAs (Decidable (∀ r ∈ rs, (r.code = CtaProtoNum → 1 ≤ r.payload.length) ∧
    (r.code = CtaProtoSrcPort → 2 ≤ r.payload.length) ∧
    (r.code = CtaProtoDstPort → 2 ≤ r.payload.length)))

/-- The first payload byte as a number (0 for an empty payload). -/
def firstByte (p : List Byte) : Nat := (p.getD 0 0).val

/-- The first two payload bytes read as a big-endian number: `256 * p[0] + p[1]`. -/
def bigEndian16 (p : List Byte) : Nat := 256 * (p.getD 0 0).val + (p.getD 1 0).val

/-- A protocol sub-group: protocol 17, then source port 40000, protocol 6, destination
port 443 and an attribute of the unknown code 9. -/
def sampleProtoRecs : List Rec :=
  [⟨1, [17], [0, 0, 0]⟩, ⟨2, [156, 64], [0, 0]⟩, ⟨1, [6], [0, 0, 0]⟩, ⟨3, [1, 187], [0, 0]⟩,
   ⟨9, [], []⟩]

/-- The `Tuple` that `parseProto` leaves behind on a protocol sub-group made of the records
`rs`: each of `Proto`, `SrcPort`, `DstPort` is read from the last record of its type code,
or kept when there is none; `Src` and `Dst` are kept. -/
def protoResult (rs : List Rec) (t : Tuple) : Tuple :=
  { Src := t.Src
    Dst := t.Dst
    Proto := match lastRec CtaProtoNum rs with
      | some r => firstByte r.payload
      | none => t.Proto
    SrcPort := match lastRec CtaProtoSrcPort rs with
      | some r => bigEndian16 r.payload
      | none => t.SrcPort
    DstPort := match lastRec CtaProtoDstPort rs with
      | some r => bigEndian16 r.payload
      | none => t.DstPort }

/-- The buffer `b` is an attribute group that is well framed: the concatenation of the at
most 20 well-formed records `rs`. -/
def Framed (b : List Byte) (rs : List Rec) : Prop :=
  (∀ r ∈ rs, r.WF) ∧ rs.length ≤ 20 ∧ b = encodeRecs rs

/-- The record is a top-level tuple attribute (original or reply direction). -/
def Rec.isTuple (r : Rec) : Prop := r.code = CtaTupleOrig ∨ r.code = CtaTupleReply

instance (r : Rec) : Decidable r.isTuple :=
  inferInstanceAs (Decidable (r.code = CtaTupleOrig ∨ r.code = CtaTupleReply))

/-- The record is a v6 source or destination address attribute of an IP sub-group. -/
def Rec.isV6 (r : Rec) : Prop := r.code = CtaIpV6Src ∨ r.code = CtaIpV6Dst

instance (r : Rec) : Decidable r.isV6 :=
  inferInstanceAs (Decidable (r.code = CtaIpV6Src ∨ r.code = CtaIpV6Dst))

/-- In the tuple group `trs`, every IP sub-group and every protocol sub-group is well
framed. -/
def TupleGroupFramed (trs : List Rec) : Prop :=
  ∀ r ∈ trs, (r.code = CtaTupleIp → ∃ irs, Framed r.payload irs) ∧
    (r.code = CtaTupleProto → ∃ prs, Framed r.payload prs)

/-- In the tuple group `trs`, the attributes of every protocol sub-group have payloads long
enough for `parseProto`. -/
def TupleGroupSized (trs : List Rec) : Prop :=
  ∀ r ∈ trs, r.code = CtaTupleProto → ∀ prs, Framed r.payload prs → ProtoSized prs

/-- The tuple group `trs` has an IP sub-group that contains a v6 address attribute. -/
def TupleGroupHasV6 (trs : List Rec) : Prop :=
  ∃ r ∈ trs, r.code = CtaTupleIp ∧ ∃ irs, Framed r.payload irs ∧ ∃ a ∈ irs, a.isV6

/-- The message payload with top-level records `top` is well framed at the tuple, IP and
protocol levels. -/
def PayloadFramed (top : List Rec) : Prop :=
  ∀ r ∈ top, r.isTuple → ∃ trs, Framed r.payload trs ∧ TupleGroupFramed trs

/-- Every protocol sub-group of the message has payloads long enough for `parseProto`. -/
def PayloadSized (top : List Rec) : Prop :=
  ∀ r ∈ top, r.isTuple → ∀ trs, Framed r.payload trs → TupleGroupSized trs

/-- The original-tuple or reply-tuple attribute of the message has an IP sub-group that
contains a v6 address attribute. -/
def PayloadHasV6 (top : List Rec) : Prop :=
  ∃ r ∈ top, r.isTuple ∧ ∃ trs, Framed r.payload trs ∧ TupleGroupHasV6 trs

/-- An IP sub-group with one v6 source address (16 bytes). -/
def v6IPRecs : List Rec := [⟨3, [32, 1, 13, 184, 0, 0, 0, 0, 0, 0, 0, 0, 0, 0, 0, 1], []⟩]

/-- A tuple group: a protocol sub-group whose protocol-number attribute has an empty
payload, then an IP sub-group with a v6 source address. -/
def emptyProtoV6TupleRecs : List Rec :=
  [⟨32768 + 2, encodeRecs [⟨1, [], []⟩], []⟩, ⟨32768 + 1, encodeRecs v6IPRecs, []⟩]

/-- A message payload whose original tuple is `emptyProtoV6TupleRecs`. -/
def emptyProtoV6Recs : List Rec := [⟨32768 + 1, encodeRecs emptyProtoV6TupleRecs, []⟩]

/-- A tuple group: a protocol sub-group with protocol 6, then an IP sub-group with a v6
source address. -/
def v6TupleRecs : List Rec :=
  [⟨32768 + 2, encodeRecs [⟨1, [6], [0, 0, 0]⟩], []⟩, ⟨32768 + 1, encodeRecs v6IPRecs, []⟩]

/-- A message payload: a status attribute, then a reply tuple that is `v6TupleRecs`. -/
def v6Recs : List Rec := [⟨3, [0, 0, 0, 14], []⟩, ⟨32768 + 2, encodeRecs v6TupleRecs, []⟩]

/-- The buffer `b` is a group with corrupt framing: the at most 20 well-formed records `rs`
followed by 1 to 3 leftover bytes `tail` that cannot form a record. -/
def Leftover (b : List Byte) (rs : List Rec) (tail : List Byte) : Prop :=
  (∀ r ∈ rs, r.WF) ∧ rs.length ≤ 20 ∧ 1 ≤ tail.length ∧ tail.length ≤ 3 ∧
    b = encodeRecs rs ++ tail

/-- The `Tuple` of the `Conn` that the top-level tuple attribute `r` is decoded into. -/
def Conn.side (c : Conn) (r : Rec) : Tuple := if r.code = CtaTupleOrig then c.Orig else c.Reply

/-- The decoding of the payload `b`, started on `conn`, reaches a group with leftover
bytes: the top-level attribute stream itself; or a tuple group, the top-level attributes
before it being decoded without error; or an IP sub-group, the top-level attributes before
its tuple and the attributes before it inside the tuple group being decoded without
error. -/
def ReachesLeftover (b : List Byte) (conn : Conn) : Prop :=
  (∃ rs tail, Leftover b rs tail) ∨
  (∃ pre r post conn1 trs tail, Framed b (pre ++ r :: post) ∧ r.isTuple ∧
    parsePayload ⟨encodeRecs pre, []⟩ conn = Run.ret none conn1 ∧
    Leftover r.payload trs tail) ∨
  (∃ pre r post conn1 tpre q tpost t1 irs tail, Framed b (pre ++ r :: post) ∧ r.isTuple ∧
    parsePayload ⟨encodeRecs pre, []⟩ conn = Run.ret none conn1 ∧
    Framed r.payload (tpre ++ q :: tpost) ∧ q.code = CtaTupleIp ∧
    parseTuple ⟨encodeRecs tpre, []⟩ (conn1.side r) = Run.ret none t1 ∧
    Leftover q.payload irs tail)

/-- A message payload: an original tuple with a v6 source address (`v6TupleRecs`), then a
reply tuple whose group is one whole attribute followed by 2 leftover bytes. -/
def v6ThenCorruptRecs : List Rec :=
  [⟨32768 + 1, encodeRecs v6TupleRecs, []⟩,
   ⟨32768 + 2, encodeRecs [⟨9, [], []⟩] ++ [0, 0], [0, 0]⟩]

/-- A message payload: an original tuple whose only attribute is a protocol sub-group made
of the single leftover byte `01`; the bytes are `0c 00 01 80 05 00 02 80 01 00 00 00`. -/
def corruptProtoRecs : List Rec := [⟨32768 + 1, encodeRecs [⟨32768 + 2, [1], [0, 0, 0]⟩], []⟩]

/-- A message payload: a well-formed IPv4 original tuple (`sampleTupleRecs`), then a reply
tuple whose IP sub-group is one whole address attribute followed by 3 leftover bytes. -/
def corruptIPRecs : List Rec :=
  [⟨32768 + 1, encodeRecs sampleTupleRecs, []⟩,
   ⟨32768 + 2, encodeRecs [⟨32768 + 1, encodeRecs [⟨1, [10, 0, 0, 5], []⟩] ++ [7, 7, 7],
      [0]⟩], []⟩]

/-- A `Conn` whose reply tuple is 10.0.0.5:40000 -> 93.184.216.34:443. -/
def sampleConn : Conn :=
  ⟨0, zeroTuple, ⟨[10, 0, 0, 5], 40000, [93, 184, 216, 34], 443, 6⟩, ""⟩

/-- A `Conn` whose reply tuple is 10.0.0.5:5000 -> 10.0.0.6:6000. -/
def intraHostConn : Conn :=
  ⟨0, zeroTuple, ⟨[10, 0, 0, 5], 5000, [10, 0, 0, 6], 6000, 6⟩, ""⟩

/-- The same connection seen the other way round: reply tuple
10.0.0.6:6000 -> 10.0.0.5:5000. -/
def intraHostConnRev : Conn :=
  ⟨0, zeroTuple, ⟨[10, 0, 0, 6], 6000, [10, 0, 0, 5], 5000, 6⟩, ""⟩

/-- A buffer of 21 empty attributes, 21 repetitions of `04 00 00 00`. -/
def tooManyRecs : List Rec := List.replicate 21 ⟨0, [], []⟩

/-- The number of bytes a record takes in a buffer: its declared length rounded up to the
next multiple of 4. -/
def Rec.alignedLen (r : Rec) : Nat := rtaAlignOf r.declLen

/-! ## client.go: the dump request -/

/-- Go `syscall.NlMsghdr`: `Len`, `Seq`, `Pid` are `uint32`, `Type` (here `Typ`, `Type` being
reserved) and `Flags` are `uint16`. -/
structure NlMsghdr where
  Len : Nat
  Typ : Nat
  Flags : Nat
  Seq : Nat
  Pid : Nat
deriving DecidableEq, Repr

/-- The struct `nfgenmsg`: `Family` and `Version` are `uint8`, `ResID` is `uint16`. -/
structure nfgenmsg where
  Family : Nat
  Version : Nat
  ResID : Nat
deriving DecidableEq, Repr

structure ConntrackListReq where
  Header : NlMsghdr
  Body : nfgenmsg
deriving DecidableEq, Repr

/-- The fields of the request are within the ranges of their Go types. -/
def ConntrackListReq.InRange (c : ConntrackListReq) : Prop :=
  c.Header.Len < 4294967296 ∧ c.Header.Typ < 65536 ∧ c.Header.Flags < 65536 ∧
    c.Header.Seq < 4294967296 ∧ c.Header.Pid < 4294967296 ∧
    c.Body.Family < 256 ∧ c.Body.Version < 256 ∧ c.Body.ResID < 65536

instance (c : ConntrackListReq) : Decidable c.InRange :=
  inferInstanceAs (Decidable (c.Header.Len < 4294967296 ∧ c.Header.Typ < 65536 ∧
    c.Header.Flags < 65536 ∧ c.Header.Seq < 4294967296 ∧ c.Header.Pid < 4294967296 ∧
    c.Body.Family < 256 ∧ c.Body.Version < 256 ∧ c.Body.ResID < 65536))

/-- Go `syscall.NLMSG_HDRLEN`. -/
def NLMSG_HDRLEN : Nat := 16

/-- The constant `sizeofGenmsg`: `unsafe.Sizeof(nfgenmsg{})`, two bytes and a `uint16`. -/
def sizeofGenmsg : Nat := 4

/-- Modelled from the spec: the constant `NFNL_SUBSYS_CTNETLINK` is declared in a file that
is not part of the sources at hand; it is the conntrack subsystem id of nfnetlink, the high
byte `01` of the type word of the dump request. -/
def NFNL_SUBSYS_CTNETLINK : Nat := 1

/-- Modelled from the spec: the constant `IpctnlMsgCtGet` is declared in a file that is not
part of the sources at hand; it is the "get" message of the conntrack subsystem, the low
byte `01` of the type word of the dump request. -/
def IpctnlMsgCtGet : Nat := 1

/-- Modelled from the spec: the constant `NFNETLINK_V0` is declared in a file that is not
part of the sources at hand; it is version 0 of nfnetlink. -/
def NFNETLINK_V0 : Nat := 0

/-- Go `syscall.NLM_F_REQUEST`. -/
def NLM_F_REQUEST : Nat := 1

/-- Go `syscall.NLM_F_DUMP`. -/
def NLM_F_DUMP : Nat := 768

/-- Go `syscall.AF_INET`. -/
def AF_INET : Nat := 2

/-- Go `syscall.IPPROTO_TCP`. -/
def IPPROTO_TCP : Nat := 6

/-- Go `*(*uint32)(unsafe.Pointer(&b[lo:lo+4][0])) = v` on a little-endian machine: the
slice expression panics (`none`) unless `lo + 4 ≤ cap(b)`, and the store writes the four
bytes of `v`, least significant first, at offset `lo`. -/
def storeUint32 (b : List Byte) (lo v : Nat) : Option (List Byte) :=
  if lo + 4 ≤ b.length then
    some (b.take lo ++ [byteOf v, byteOf (v / 256), byteOf (v / 65536), byteOf (v / 16777216)] ++
      b.drop (lo + 4))
  else none

/-- Go `*(*uint16)(unsafe.Pointer(&b[lo:lo+2][0])) = v` on a little-endian machine. -/
def storeUint16 (b : List Byte) (lo v : Nat) : Option (List Byte) :=
  if lo + 2 ≤ b.length then
    some (b.take lo ++ [byteOf v, byteOf (v / 256)] ++ b.drop (lo + 2))
  else none

/-- Go `b[i] = byte(v)`: panics (`none`) unless `i < len(b)`. -/
def storeByte (b : List Byte) (i v : Nat) : Option (List Byte) :=
  if i < b.length then some (b.set i (byteOf v)) else none

/-- Go `c.toWireFormat()`; `none` is a panic of one of the slice or index expressions. -/
def ConntrackListReq.toWireFormat (c : ConntrackListReq) : Option (List Byte) := do
  let b := List.replicate c.Header.Len (0 : Byte)
  let b ← storeUint32 b 0 c.Header.Len
  let b ← storeUint16 b 4 c.Header.Typ
  let b ← storeUint16 b 6 c.Header.Flags
  let b ← storeUint32 b 8 c.Header.Seq
  let b ← storeUint32 b 12 c.Header.Pid
  let b ← storeByte b 16 c.Body.Family
  let b ← storeByte b 17 c.Body.Version
  let b ← storeUint16 b 18 c.Body.ResID
  pure b

/-- The request that `Established` sends. -/
def establishedReq : ConntrackListReq :=
  { Header :=
      { Len := NLMSG_HDRLEN + sizeofGenmsg
        Typ := (NFNL_SUBSYS_CTNETLINK <<< 8) ||| IpctnlMsgCtGet
        Flags := NLM_F_REQUEST ||| NLM_F_DUMP
        Pid := 0
        Seq := 0 }
    Body := { Family := AF_INET, Version := NFNETLINK_V0, ResID := 0 } }

/-- Four bytes, little-endian, of a 32-bit value. -/
def putUint32LE (n : Nat) : List Byte :=
  [byteOf n, byteOf (n / 256), byteOf (n / 65536), byteOf (n / 16777216)]

/-- The wire layout of a request: the five header fields and the three body fields in
little-endian order, then zero bytes up to `Header.Len`. -/
def wireBytes (c : ConntrackListReq) : List Byte :=
  putUint32LE c.Header.Len ++ putUint16LE c.Header.Typ ++ putUint16LE c.Header.Flags ++
    putUint32LE c.Header.Seq ++ putUint32LE c.Header.Pid ++
    [byteOf c.Body.Family, byteOf c.Body.Version] ++ putUint16LE c.Body.ResID ++
    List.replicate (c.Header.Len - 20) 0

/-- The little-endian 16-bit value at offset `i` of a buffer. -/
def uint16At (w : List Byte) (i : Nat) : Nat := (w.getD i 0).val + 256 * (w.getD (i + 1) 0).val

/-- The little-endian 32-bit value at offset `i` of a buffer. -/
def uint32At (w : List Byte) (i : Nat) : Nat :=
  (w.getD i 0).val + 256 * (w.getD (i + 1) 0).val + 65536 * (w.getD (i + 2) 0).val +
    16777216 * (w.getD (i + 3) 0).val

/-- The request read back from a buffer at the offsets of the wire layout. -/
def readReq (w : List Byte) : ConntrackListReq :=
  { Header :=
      { Len := uint32At w 0, Typ := uint16At w 4, Flags := uint16At w 6, Seq := uint32At w 8,
        Pid := uint32At w 12 }
    Body := { Family := (w.getD 16 0).val, Version := (w.getD 17 0).val, ResID := uint16At w 18 } }

/-! ## client.go: the session driver -/

/-- Go `error` values that `readMsgs` returns: an `Errno` of the system-call layer, or an
error made from a message text (`errors.New`, `fmt.Errorf`). -/
inductive GoError where
  | errno (e : Nat)
  | text (s : String)
deriving DecidableEq, Repr

/-- Go `syscall.ENOBUFS` (Linux). -/
def ENOBUFS : Nat := 105

/-- Go `syscall.EINVAL`. -/
def EINVAL : Nat := 22

/-- Go `syscall.EBADF`. -/
def EBADF : Nat := 9

/-- Go `syscall.NetlinkMessage`. -/
structure NetlinkMessage where
  Header : NlMsghdr
  Data : Slice
deriving DecidableEq, Repr

/-- One result of `syscall.Recvfrom(s, rb, 0)`, the transport being a sequence of such
results: `data b` is a read without error, `b` being `rb[:nr]` (its spare capacity is the
rest of the receive buffer); `errno e` is a read that fails with the error `e`. -/
inductive RecvResult where
  | data (b : Slice)
  | errno (e : Nat)
deriving DecidableEq, Repr

/-- The functions `readMsgs` calls that are not part of the sources at hand: the standard
library's `syscall.ParseNetlinkMessage`, and the helpers `nfnlIsError` (of which only the
text of the error is used, by `%s`) and `nflnSubsysID` (a `uint8`) of this package. The
properties proved of `readMsgs` hold for every choice of the three. -/
structure Netlink where
  ParseNetlinkMessage : Slice → Except GoError (List NetlinkMessage)
  nfnlIsError : NlMsghdr → Option String
  nflnSubsysID : Nat → Nat

/-- How the loop `for _, msg := range msgs` of `readMsgs` ends: `done` when the range is
exhausted (the outer loop goes on to the next receive), `returned` when `readMsgs` returns
from inside it. `conn` is the shared `Conn`, `k` the state of the callback. -/
inductive MsgsEnd (κ : Type) where
  | done (conn : Conn) (k : κ)
  | returned (err : GoError) (conn : Conn) (k : κ)
  | panic
  | nofuel
deriving DecidableEq, Repr

/-- How `readMsgs` ends: it returns an error, or it is `blocked` in `Recvfrom` once the
sequence of receive results is used up (the loop has no other exit), or it panics. -/
inductive ReadEnd (κ : Type) where
  | returned (err : GoError) (conn : Conn) (k : κ)
  | blocked (conn : Conn) (k : κ)
  | panic
  | nofuel
deriving DecidableEq, Repr

/-- The loop `for _, msg := range msgs` of `readMsgs`. The callback `cb` is handed the
pointer to the shared `Conn`: it maps the `Conn` and its own state `k` to the `Conn` it
leaves behind and its new state. -/
def handleMsgs {κ : Type} (nl : Netlink) (cb : Conn → κ → Conn × κ) :
    List NetlinkMessage → Conn → κ → MsgsEnd κ
  | [], conn, k => MsgsEnd.done conn k
  | msg :: rest, conn, k =>
    match nl.nfnlIsError msg.Header with
    | some e => MsgsEnd.returned (GoError.text ("msg is some error: " ++ e ++ "\n")) conn k
    | none =>
      if nl.nflnSubsysID msg.Header.Typ ≠ NFNL_SUBSYS_CTNETLINK then
        MsgsEnd.returned
          (GoError.text ("unexpected subsys_id: " ++ itoa (nl.nflnSubsysID msg.Header.Typ) ++ "\n"))
          conn k
      else
        match msg.Data.sliceFrom sizeofGenmsg with
        | none => MsgsEnd.panic
        | some p =>
          match parsePayload p conn with
          | Run.ret (some e) conn1 =>
            if e = "Not supported" then handleMsgs nl cb rest conn1 k
            else MsgsEnd.returned (GoError.text e) conn1 k
          | Run.ret none conn1 =>
            if conn1.Orig.Proto ≠ IPPROTO_TCP then handleMsgs nl cb rest conn1 k
            else handleMsgs nl cb rest (cb conn1 k).1 (cb conn1 k).2
          | Run.panic => MsgsEnd.panic
          | Run.nofuel => MsgsEnd.nofuel

/-- The loop `for { ... }` of `readMsgs` on the receive results still to come. -/
def readLoop {κ : Type} (nl : Netlink) (cb : Conn → κ → Conn × κ) :
    List RecvResult → Conn → κ → ReadEnd κ
  | [], conn, k => ReadEnd.blocked conn k
  | RecvResult.errno e :: rest, conn, k =>
    if e = ENOBUFS then readLoop nl cb rest conn k
    else ReadEnd.returned (GoError.errno e) conn k
  | RecvResult.data b :: rest, conn, k =>
    match nl.ParseNetlinkMessage b with
    | Except.error err => ReadEnd.returned err conn k
    | Except.ok msgs =>
      match handleMsgs nl cb msgs conn k with
      | MsgsEnd.done conn1 k1 => readLoop nl cb rest conn1 k1
      | MsgsEnd.returned err conn1 k1 => ReadEnd.returned err conn1 k1
      | MsgsEnd.panic => ReadEnd.panic
      | MsgsEnd.nofuel => ReadEnd.nofuel

/-- Go `readMsgs(s, cb)`: the receive results of the socket `s` are `recvs`, `k` is the
state of the callback when the call starts; `conn := &Conn{}` is the zero `Conn`. -/
def readMsgs {κ : Type} (nl : Netlink) (cb : Conn → κ → Conn × κ) (recvs : List RecvResult)
    (k : κ) : ReadEnd κ :=
  readLoop nl cb recvs zeroConn k

/-- A callback that only reads the `Conn` it is handed and appends a copy of it to the list
of the calls made. -/
def recordConn (c : Conn) (calls : List Conn) : Conn × List Conn := (c, calls ++ [c])

/-- The closure `next` of `Established`: it appends a copy of the `Conn` to `conns2` and,
when `ConnTCP` is not `nil`, the result to `conns`; the state is the pair
`(conns, conns2)`. -/
def establishedNext (other : List Byte → String) (localSet : List String) (c : Conn)
    (k : List ConnTCP × List Conn) : Conn × (List ConnTCP × List Conn) :=
  (c, (match Conn.ConnTCP other c localSet with
       | some tc => k.1 ++ [tc]
       | none => k.1,
       k.2 ++ [c]))

/-- How a call of `Established` ends: it returns `conns`, `conns2` and an error (`none` is
`nil`), or never returns, or panics. -/
inductive DumpEnd where
  | returned (conns : List ConnTCP) (conns2 : List Conn) (err : Option GoError)
  | blocked
  | panic
  | nofuel
deriving DecidableEq, Repr

/-- Go `Established()`. From outside: `connectErr` is the error of `connectNetfilter(0)`,
`sendErr wb` the error of `syscall.Sendto` on the request bytes, `localSet` the keys of
`localIPs()`, `recvs` the receive results of the socket. The value of `readMsgs(s, next)`
is not used. -/
def Established (nl : Netlink) (other : List Byte → String) (connectErr : Option GoError)
    (sendErr : List Byte → Option GoError) (localSet : List String)
    (recvs : List RecvResult) : DumpEnd :=
  match connectErr with
  | some err => DumpEnd.returned [] [] (some err)
  | none =>
    match establishedReq.toWireFormat with
    | none => DumpEnd.panic
    | some wb =>
      match sendErr wb with
      | some err => DumpEnd.returned [] [] (some err)
      | none =>
        match readMsgs nl (establishedNext other localSet) recvs ([], []) with
        | ReadEnd.returned _ _ k => DumpEnd.returned k.1 k.2 none
        | ReadEnd.blocked _ _ => DumpEnd.blocked
        | ReadEnd.panic => DumpEnd.panic
        | ReadEnd.nofuel => DumpEnd.nofuel

/-- The closure `next` that `Follow` returns: `err := readMsgs(s, cb); return err`. -/
def followNext {κ : Type} (nl : Netlink) (cb : Conn → κ → Conn × κ) (recvs : List RecvResult)
    (k : κ) : ReadEnd κ :=
  readMsgs nl cb recvs k

/-! ## A sample environment and sample messages -/

/-- Go `syscall.NLMSG_ERROR`. -/
def NLMSG_ERROR : Nat := 2

/-- Go `nlmAlignOf` of the standard library: the length rounded up to a multiple of 4. -/
def nlmAlignOf (msglen : Nat) : Nat := (msglen + 3) / 4 * 4

/-- The `NlMsghdr` that the first 16 bytes of a buffer hold (little-endian machine). -/
def headerOf (b : List Byte) : NlMsghdr :=
  { Len := uint32At b 0, Typ := uint16At b 4, Flags := uint16At b 6, Seq := uint32At b 8,
    Pid := uint32At b 12 }

/-- The loop of Go `syscall.ParseNetlinkMessage` (standard library): while at least 16 bytes
are left, read the header; fail with `EINVAL` when its length is below 16 or, rounded up to a
multiple of 4, beyond the buffer; else the message is the header and the `Len - 16` bytes
after it (`b[16:][:Len-16]`, whose capacity reaches to the end of the buffer), and the loop
goes on behind the rounded length. Each round drops at least 16 bytes, so the fuel
`len(b) + 1` is never used up. -/
def parseNetlinkLoop :
    Nat → Slice → List NetlinkMessage → Except GoError (List NetlinkMessage)
  | 0, _, _ => Except.error (GoError.text "out of fuel")
  | fuel + 1, b, msgs =>
    if b.len < NLMSG_HDRLEN then Except.ok msgs
    else
      let h := headerOf b.elems
      let l := nlmAlignOf h.Len
      if h.Len < NLMSG_HDRLEN ∨ b.len < l then Except.error (GoError.errno EINVAL)
      else
        parseNetlinkLoop fuel ⟨b.elems.drop l, b.spare⟩
          (msgs ++ [⟨h, ⟨(b.elems.drop NLMSG_HDRLEN).take (h.Len - NLMSG_HDRLEN),
            b.elems.drop h.Len ++ b.spare⟩⟩])

/-- Go `syscall.ParseNetlinkMessage` (standard library). -/
def ParseNetlinkMessage (b : Slice) : Except GoError (List NetlinkMessage) :=
  parseNetlinkLoop (b.len + 1) b []

/-- Modelled from the spec: the helper `nfnlIsError` is declared in a file that is not part
of the sources at hand; a message is an error frame when its type is `NLMSG_ERROR`. -/
def nfnlIsError (h : NlMsghdr) : Option String :=
  if h.Typ = NLMSG_ERROR then some "NLMSG_ERROR" else none

/-- Modelled from the spec: the helper `nflnSubsysID` is declared in a file that is not part
of the sources at hand; the subsystem id is the high byte of the 16-bit message type, as in
the type word `subsystem << 8 | message` of the dump request. -/
def nflnSubsysID (x : Nat) : Nat := x / 256 % 256

/-- A sample environment for `readMsgs`. -/
def sampleNetlink : Netlink :=
  { ParseNetlinkMessage := ParseNetlinkMessage
    nfnlIsError := nfnlIsError
    nflnSubsysID := nflnSubsysID }

/-- The bytes of one conntrack message of type `01 00` (subsystem 1, message 0): the
16-byte header, the 4-byte `nfgenmsg` (`AF_INET`, version 0, resource id 0) and the
attribute payload. -/
def frameMsg (payload : List Byte) : List Byte :=
  putUint32LE (20 + payload.length) ++ putUint16LE 256 ++ putUint16LE 0 ++ putUint32LE 0 ++
    putUint32LE 0 ++ [2, 0, 0, 0] ++ payload

/-- The header of the message `frameMsg payload`. -/
def frameHeader (payload : List Byte) : NlMsghdr :=
  { Len := 20 + payload.length, Typ := 256, Flags := 0, Seq := 0, Pid := 0 }

/-- The message passes the two header checks of `readMsgs` and the bytes behind its
`nfgenmsg` are the slice `p`. -/
def Netlink.Accepts (nl : Netlink) (m : NetlinkMessage) (p : Slice) : Prop :=
  nl.nfnlIsError m.Header = none ∧ nl.nflnSubsysID m.Header.Typ = NFNL_SUBSYS_CTNETLINK ∧
    m.Data.sliceFrom sizeofGenmsg = some p

instance (nl : Netlink) (m : NetlinkMessage) (p : Slice) : Decidable (nl.Accepts m p) :=
  inferInstanceAs (Decidable (nl.nfnlIsError m.Header = none ∧
    nl.nflnSubsysID m.Header.Typ = NFNL_SUBSYS_CTNETLINK ∧
    m.Data.sliceFrom sizeofGenmsg = some p))

/-- The `Conn` with its two tuples replaced. -/
def Conn.withTuples (c : Conn) (o r : Tuple) : Conn := { c with Orig := o, Reply := r }

/-- The payload `p` is a well-formed IPv4 TCP message with original tuple `o` and reply
tuple `r`: started on any `Conn`, `parsePayload` returns without error and leaves `Orig`
the tuple `o`, whose protocol is TCP, and `Reply` the tuple `r`. -/
def DecodesTCP (p : Slice) (o r : Tuple) : Prop :=
  o.Proto = IPPROTO_TCP ∧ ∀ c : Conn, parsePayload p c = Run.ret none (c.withTuples o r)

/-- The reply direction of `sampleTupleRecs`: 93.184.216.34:443 to 10.0.0.5:40000,
protocol 6. -/
def sampleReplyRecs : List Rec :=
  [⟨32768 + 1, encodeRecs [⟨1, [93, 184, 216, 34], []⟩, ⟨2, [10, 0, 0, 5], []⟩], []⟩,
   ⟨32768 + 2, encodeRecs [⟨1, [6], [0, 0, 0]⟩, ⟨2, [1, 187], [0, 0]⟩,
      ⟨3, [156, 64], [0, 0]⟩], []⟩]

/-- A well-formed IPv4 TCP message payload: original tuple `sampleTupleRecs`, reply tuple
`sampleReplyRecs`. -/
def sampleTCPRecs : List Rec :=
  [⟨32768 + 1, encodeRecs sampleTupleRecs, []⟩, ⟨32768 + 2, encodeRecs sampleReplyRecs, []⟩]

/-- The original tuple of `sampleTCPRecs`. -/
def sampleOrig : Tuple := ⟨[10, 0, 0, 5], 40000, [93, 184, 216, 34], 443, 6⟩

/-- The reply tuple of `sampleTCPRecs`. -/
def sampleReply : Tuple := ⟨[93, 184, 216, 34], 443, [10, 0, 0, 5], 40000, 6⟩

/-- A second well-formed IPv4 TCP message payload: 10.0.0.5:5000 to 10.0.0.6:6000 and
back. -/
def otherTCPRecs : List Rec :=
  [⟨32768 + 1, encodeRecs
      [⟨32768 + 1, encodeRecs [⟨1, [10, 0, 0, 5], []⟩, ⟨2, [10, 0, 0, 6], []⟩], []⟩,
       ⟨32768 + 2, encodeRecs [⟨1, [6], [0, 0, 0]⟩, ⟨2, [19, 136], [0, 0]⟩,
          ⟨3, [23, 112], [0, 0]⟩], []⟩], []⟩,
   ⟨32768 + 2, encodeRecs
      [⟨32768 + 1, encodeRecs [⟨1, [10, 0, 0, 6], []⟩, ⟨2, [10, 0, 0, 5], []⟩], []⟩,
       ⟨32768 + 2, encodeRecs [⟨1, [6], [0, 0, 0]⟩, ⟨2, [23, 112], [0, 0]⟩,
          ⟨3, [19, 136], [0, 0]⟩], []⟩], []⟩]

/-- The original tuple of `otherTCPRecs`. -/
def otherOrig : Tuple := ⟨[10, 0, 0, 5], 5000, [10, 0, 0, 6], 6000, 6⟩

/-- The reply tuple of `otherTCPRecs`. -/
def otherReply : Tuple := ⟨[10, 0, 0, 6], 6000, [10, 0, 0, 5], 5000, 6⟩

/-- A message payload with a reply tuple only: the reply tuple of `otherTCPRecs`. -/
def replyOnlyRecs : List Rec :=
  [⟨32768 + 2, encodeRecs
      [⟨32768 + 1, encodeRecs [⟨1, [10, 0, 0, 6], []⟩, ⟨2, [10, 0, 0, 5], []⟩], []⟩,
       ⟨32768 + 2, encodeRecs [⟨1, [6], [0, 0, 0]⟩, ⟨2, [23, 112], [0, 0]⟩,
          ⟨3, [19, 136], [0, 0]⟩], []⟩], []⟩]

/-- One read that carries two messages: the first has the payload `v6Recs`, the second the
payload `sampleTCPRecs`. -/
def v6ThenTCPRead : Slice :=
  ⟨frameMsg (encodeRecs v6Recs) ++ frameMsg (encodeRecs sampleTCPRecs), []⟩

/-- One read that carries two messages: the first has the payload `emptyProtoV6Recs`, the
second the payload `sampleTCPRecs`. -/
def emptyProtoV6ThenTCPRead : Slice :=
  ⟨frameMsg (encodeRecs emptyProtoV6Recs) ++ frameMsg (encodeRecs sampleTCPRecs), []⟩

/-- The message with payload `payload` as `ParseNetlinkMessage` cuts it out of a read whose
bytes behind the message are `post`. -/
def framedMsg (payload post : List Byte) : NetlinkMessage :=
  ⟨frameHeader payload, ⟨[2, 0, 0, 0] ++ payload, post⟩⟩

/-- One read that carries one message whose payload is the three leftover bytes `01 02 03`
(and one byte of padding up to a multiple of 4). -/
def corruptRead : Slice := ⟨frameMsg [1, 2, 3] ++ [0], []⟩

/-- One read that carries two messages: the first has the payload `sampleTCPRecs`, the second
the payload `replyOnlyRecs`, which has no original tuple. -/
def tcpThenReplyOnlyRead : Slice :=
  ⟨frameMsg (encodeRecs sampleTCPRecs) ++ frameMsg (encodeRecs replyOnlyRecs), []⟩

/-! ## Properties of the attribute decoder -/

theorem subUint16_eq_mod (a b : Nat) (ha : a < 65536) (hb : b < 65536) :
    subUint16 a b = (a + 65536 - b) % 65536 := by
  unfold subUint16; split <;> omega

theorem leUint16_putUint16LE (n : Nat) (h : n < 65536) :
    (byteOf n).val + 256 * (byteOf (n / 256)).val = n := by
  simp only [byteOf]
  omega

theorem Rec.bytes_length (r : Rec) : r.bytes.length = r.declLen + r.pad.length := by
  simp [Rec.bytes, putUint16LE, Rec.declLen, attrHdrLength]
  omega

theorem rtaAlignOf_ge (n : Nat) : n ≤ rtaAlignOf n := by
  unfold rtaAlignOf; omega

theorem Slice.slice_zero_two (x y : Byte) (tl sp : List Byte) :
    Slice.slice ⟨x :: y :: tl, sp⟩ 0 2 = some ⟨[x, y], tl ++ sp⟩ := by
  simp [Slice.slice, Slice.cap]
  omega

theorem Slice.slice_two_four (x y z w : Byte) (tl sp : List Byte) :
    Slice.slice ⟨x :: y :: z :: w :: tl, sp⟩ 2 4 = some ⟨[z, w], tl ++ sp⟩ := by
  simp [Slice.slice, Slice.cap]
  omega

theorem Slice.slice_payload (x y z w : Byte) (p q sp : List Byte) :
    Slice.slice ⟨x :: y :: z :: w :: (p ++ q), sp⟩ 4 (4 + p.length) = some ⟨p, q ++ sp⟩ := by
  have h : List.drop (4 + p.length) (x :: y :: z :: w :: (p ++ (q ++ sp))) = q ++ sp := by
    rw [Nat.add_comm]
    simp [List.drop_append]
  simp [Slice.slice, Slice.cap, h]
  omega

theorem Slice.sliceFrom_record (x y z w : Byte) (p q rest sp : List Byte) :
    Slice.sliceFrom ⟨x :: y :: z :: w :: (p ++ (q ++ rest)), sp⟩ (4 + p.length + q.length) =
      some ⟨rest, sp⟩ := by
  have h : 4 + p.length + q.length = (x :: y :: z :: w :: (p ++ q)).length := by
    simp; omega
  have e : x :: y :: z :: w :: (p ++ (q ++ rest)) = (x :: y :: z :: w :: (p ++ q)) ++ rest := by
    simp
  rw [Slice.sliceFrom, e, h]
  simp [Slice.len]

theorem parseAttr_bytes (r : Rec) (h : r.WF) (rest spare : List Byte) :
    parseAttr ⟨r.bytes ++ rest, spare⟩ =
      some (true, ⟨rest, spare⟩, r.attr (rest ++ spare)) := by
  obtain ⟨ht, hl, hp⟩ := h
  have e : r.bytes ++ rest = byteOf r.declLen :: byteOf (r.declLen / 256) :: byteOf r.typ ::
      byteOf (r.typ / 256) :: (r.payload ++ (r.pad ++ rest)) := by
    simp [Rec.bytes, putUint16LE]
  have hd : r.declLen = 4 + r.payload.length := rfl
  have hl0 : (byteOf r.declLen).val + 256 * (byteOf (r.declLen / 256)).val = r.declLen :=
    leUint16_putUint16LE _ hl
  have ht0 : (byteOf r.typ).val + 256 * (byteOf (r.typ / 256)).val = r.typ :=
    leUint16_putUint16LE _ ht
  have hsub : subUint16 r.declLen 4 = r.payload.length := by
    unfold subUint16; split <;> omega
  have hal : rtaAlignOf (4 + r.payload.length) = 4 + r.payload.length + r.pad.length := by
    rw [← hd]; omega
  rw [e]
  simp only [parseAttr, Slice.slice_zero_two, Slice.slice_two_four, Slice.leUint16,
    Option.bind_eq_bind, Option.some_bind, hl0, ht0, attrHdrLength, hsub, hal,
    Slice.slice_payload, Slice.sliceFrom_record, Rec.attr, pure, List.append_assoc]

theorem forRange_filled {σ : Type} (idx : Nat) (body : Attr → σ → Step σ) :
    ∀ (filled zs : List Attr) (i : Nat) (s : σ), i + filled.length = idx →
      forRange idx body i (filled ++ zs) s = runBody body filled s := by
  intro filled
  induction filled with
  | nil =>
    intro zs i s h
    cases zs with
    | nil => simp [forRange, runBody]
    | cons z zs =>
      have : i = idx := by simpa using h
      simp [forRange, runBody, this]
  | cons a rest ih =>
    intro zs i s h
    have hne : i ≠ idx := by simp at h; omega
    have hi : i + 1 + rest.length = idx := by simp at h; omega
    simp only [List.cons_append, forRange, runBody, if_neg hne]
    cases body a s with
    | next s' => exact ih zs (i + 1) s' hi
    | stop err s' => rfl
    | panic => rfl
    | nofuel => rfl

theorem encodeRecs_length_ge (rs : List Rec) : 4 * rs.length ≤ (encodeRecs rs).length := by
  induction rs with
  | nil => simp [encodeRecs]
  | cons r rs ih =>
    simp [encodeRecs, Rec.bytes_length, Rec.declLen, attrHdrLength]
    omega

theorem parseAttrsLoop_records :
    ∀ (rs : List Rec), (∀ r ∈ rs, r.WF) →
      ∀ (fuel : Nat) (rest spare : List Byte) (pre slots : List Attr),
        rs.length ≤ slots.length →
        parseAttrsLoop (fuel + rs.length) ⟨encodeRecs rs ++ rest, spare⟩ (pre ++ slots)
            pre.length =
          parseAttrsLoop fuel ⟨rest, spare⟩
            (pre ++ attrsOf rs (rest ++ spare) ++ slots.drop rs.length)
            (pre.length + rs.length) := by
  intro rs
  induction rs with
  | nil =>
    intro _ fuel rest spare pre slots _
    simp [encodeRecs, attrsOf]
  | cons r rs ih =>
    intro hwf fuel rest spare pre slots hs
    have hr : r.WF := hwf r (List.mem_cons_self _ _)
    have hrs : ∀ q ∈ rs, q.WF := fun q hq => hwf q (List.mem_cons_of_mem _ hq)
    obtain ⟨z, zs, rfl⟩ : ∃ z zs, slots = z :: zs := by
      cases slots with
      | nil => simp at hs
      | cons z zs => exact ⟨z, zs, rfl⟩
    have hlen : 4 ≤ (r.bytes ++ (encodeRecs rs ++ rest)).length := by
      simp [Rec.bytes_length, Rec.declLen, attrHdrLength]; omega
    have hidx : pre.length < (pre ++ z :: zs).length := by simp
    have hset : (pre ++ z :: zs).set pre.length (r.attr ((encodeRecs rs ++ rest) ++ spare)) =
        (pre ++ [r.attr ((encodeRecs rs ++ rest) ++ spare)]) ++ zs := by
      simp
    have hstep := ih hrs fuel rest spare (pre ++ [r.attr ((encodeRecs rs ++ rest) ++ spare)]) zs
      (by simp at hs; omega)
    simp only [List.length_append, List.length_singleton] at hstep
    have hfuel : fuel + (r :: rs).length = (fuel + rs.length) + 1 := by simp; omega
    simp only [encodeRecs, List.append_assoc] at hlen ⊢
    rw [hfuel, parseAttrsLoop]
    simp only [Slice.len, attrHdrLength, hlen, if_true]
    rw [if_pos hidx, parseAttr_bytes r hr]
    simp only [if_true]
    rw [hset, hstep]
    simp [attrsOf, Nat.add_assoc, Nat.add_comm 1]

theorem parseAttrsLoop_encodeRecs (rs : List Rec) (hwf : ∀ r ∈ rs, r.WF)
    (fuel : Nat) (tail spare : List Byte) (pre slots : List Attr)
    (hf : rs.length < fuel) (hs : rs.length ≤ slots.length) (ht : tail.length < 4) :
    parseAttrsLoop fuel ⟨encodeRecs rs ++ tail, spare⟩ (pre ++ slots) pre.length =
      Run.ret
        (if tail = [] then (pre.length + rs.length, none)
          else (0, some "leftover attr bytes"))
        (pre ++ attrsOf rs (tail ++ spare) ++ slots.drop rs.length) := by
  obtain ⟨f, rfl⟩ : ∃ f, fuel = (f + 1) + rs.length := ⟨fuel - rs.length - 1, by omega⟩
  rw [parseAttrsLoop_records rs hwf (f + 1) tail spare pre slots hs, parseAttrsLoop]
  have h4 : ¬ (4 ≤ tail.length) := by omega
  cases tail with
  | nil => simp [Slice.len, attrHdrLength]
  | cons x tl =>
    have h4b : ¬ (4 ≤ tl.length + 1) := by simpa using h4
    simp [Slice.len, attrHdrLength, h4b]

theorem parseAttrs_encodeRecs (rs : List Rec) (hwf : ∀ r ∈ rs, r.WF) (n : Nat)
    (hk : rs.length ≤ n) (tail spare : List Byte) (ht : tail.length < 4) :
    parseAttrs ⟨encodeRecs rs ++ tail, spare⟩ (makeAttrs n) =
      Run.ret
        (if tail = [] then (rs.length, none) else (0, some "leftover attr bytes"))
        (attrsOf rs (tail ++ spare) ++ (makeAttrs n).drop rs.length) := by
  have hfuel : rs.length < (encodeRecs rs ++ tail).length / 4 + 1 := by
    have := encodeRecs_length_ge rs
    simp only [List.length_append]
    omega
  have h := parseAttrsLoop_encodeRecs rs hwf _ tail spare [] (makeAttrs n) hfuel
    (by simpa [makeAttrs] using hk) ht
  simpa [parseAttrs, Slice.len] using h

theorem and_typeMask (t : Nat) : t &&& NLA_TYPE_MASK = t % 16384 :=
  Nat.and_pow_two_sub_one_eq_mod t 14

theorem and_two_pow_pos (t k : Nat) : decide (t &&& 2 ^ k > 0) = t.testBit k := by
  have h : t &&& 2 ^ k = if t.testBit k then 2 ^ k else 0 := by
    apply Nat.eq_of_testBit_eq
    intro i
    by_cases hb : t.testBit k = true
    · by_cases hi : k = i
      · subst hi; simp [hb]
      · simp [hb, Nat.testBit_two_pow, hi]
    · by_cases hi : k = i
      · subst hi; simp [hb]
      · simp [hb, Nat.testBit_two_pow, hi]
  rw [h]
  by_cases hb : t.testBit k = true
  · simp [hb, Nat.pos_pow_of_pos]
  · simp [hb]

theorem and_nested (t : Nat) : decide (t &&& NLA_F_NESTED > 0) = t.testBit 15 :=
  and_two_pow_pos t 15

theorem and_netByteorder (t : Nat) : decide (t &&& NLA_F_NET_BYTEORDER > 0) = t.testBit 14 :=
  and_two_pow_pos t 14

theorem attrsOf_length (rs : List Rec) (post : List Byte) :
    (attrsOf rs post).length = rs.length := by
  induction rs with
  | nil => rfl
  | cons r rs ih => simp [attrsOf, ih]

theorem attrsOf_getElem? (post : List Byte) :
    ∀ (rs : List Rec) (i : Nat) (hi : i < rs.length),
      ∃ sp, (attrsOf rs post)[i]? = some (rs[i].attr sp) := by
  intro rs
  induction rs with
  | nil => intro i hi; simp at hi
  | cons r rs ih =>
    intro i hi
    cases i with
    | zero => exact ⟨encodeRecs rs ++ post, by simp [attrsOf]⟩
    | succ j =>
      obtain ⟨sp, h⟩ := ih j (by simpa using hi)
      exact ⟨sp, by simpa [attrsOf] using h⟩

/-- C1: a buffer that is the concatenation of at most 20 well-formed records is decoded by
`parseAttrs` into `(k, nil)`, and the `i`-th filled slot carries the `i`-th record's
payload, its type word reduced to the low 14 bits, and the two flags read off bits 15
and 14 of the type word. -/
theorem parseAttrs_wellformed (rs : List Rec) (hwf : ∀ r ∈ rs, r.WF) (hk : rs.length ≤ 20)
    (spare : List Byte) :
    ∃ attrs : List Attr,
      parseAttrs ⟨encodeRecs rs, spare⟩ (makeAttrs 20) = Run.ret (rs.length, none) attrs ∧
      attrs.length = 20 ∧
      ∀ (i : Nat) (hi : i < rs.length), ∃ a : Attr, attrs[i]? = some a ∧
        a.Msg.elems = rs[i].payload ∧ a.Typ = rs[i].typ % 16384 ∧
        a.IsNested = rs[i].typ.testBit 15 ∧ a.IsNetByteorder = rs[i].typ.testBit 14 := by
  refine ⟨attrsOf rs spare ++ (makeAttrs 20).drop rs.length, ?_, ?_, ?_⟩
  · simpa using parseAttrs_encodeRecs rs hwf 20 hk [] spare (by simp)
  · simp [attrsOf_length, makeAttrs]; omega
  · intro i hi
    obtain ⟨sp, h⟩ := attrsOf_getElem? spare rs i hi
    refine ⟨rs[i].attr sp, ?_, rfl, and_typeMask _, and_nested _, and_netByteorder _⟩
    rw [List.getElem?_append_left (by simpa [attrsOf_length] using hi)]
    exact h

theorem parseAttrs_wellformed_witness :
    (∀ r ∈ sampleRecs, r.WF) ∧ sampleRecs.length ≤ 20 ∧
    ∃ attrs : List Attr,
      parseAttrs ⟨encodeRecs sampleRecs, [9]⟩ (makeAttrs 20) =
        Run.ret (sampleRecs.length, none) attrs ∧
      attrs.length = 20 ∧
      ∀ (i : Nat) (hi : i < sampleRecs.length), ∃ a : Attr, attrs[i]? = some a ∧
        a.Msg.elems = sampleRecs[i].payload ∧ a.Typ = sampleRecs[i].typ % 16384 ∧
        a.IsNested = sampleRecs[i].typ.testBit 15 ∧
        a.IsNetByteorder = sampleRecs[i].typ.testBit 14 :=
  ⟨by decide, by decide, parseAttrs_wellformed sampleRecs (by decide) (by decide) [9]⟩

/-- What `parseAttr` does on a buffer of at least 4 bytes, in terms of the visible bytes
only: it panics exactly when the aligned record length exceeds `len(b)`. -/
theorem parseAttr_cons (x y z w : Byte) (tl sp : List Byte) :
    parseAttr ⟨x :: y :: z :: w :: tl, sp⟩ =
      if rtaAlignOf (4 + subUint16 (x.val + 256 * y.val) 4) ≤ 4 + tl.length then
        some (true,
          ⟨tl.drop (rtaAlignOf (4 + subUint16 (x.val + 256 * y.val) 4) - 4), sp⟩,
          { Msg := ⟨tl.take (subUint16 (x.val + 256 * y.val) 4),
                    tl.drop (subUint16 (x.val + 256 * y.val) 4) ++ sp⟩
            Typ := (z.val + 256 * w.val) &&& NLA_TYPE_MASK
            IsNested := decide ((z.val + 256 * w.val) &&& NLA_F_NESTED > 0)
            IsNetByteorder := decide ((z.val + 256 * w.val) &&& NLA_F_NET_BYTEORDER > 0) })
      else none := by
  generalize hl : subUint16 (x.val + 256 * y.val) 4 = l
  have hge := rtaAlignOf_ge (4 + l)
  simp only [parseAttr, Slice.slice_zero_two, Slice.slice_two_four, Slice.leUint16,
    Option.bind_eq_bind, Option.some_bind, attrHdrLength, hl, pure]
  by_cases hfit : rtaAlignOf (4 + l) ≤ 4 + tl.length
  · have hl4 : l ≤ tl.length := by omega
    have h3 : Slice.slice ⟨x :: y :: z :: w :: tl, sp⟩ 4 (4 + l) =
        some ⟨tl.take l, tl.drop l ++ sp⟩ := by
      have h := Slice.slice_payload x y z w (tl.take l) (tl.drop l) sp
      rw [List.take_append_drop, List.length_take, Nat.min_eq_left hl4] at h
      exact h
    have h4 : Slice.sliceFrom ⟨x :: y :: z :: w :: tl, sp⟩ (rtaAlignOf (4 + l)) =
        some ⟨tl.drop (rtaAlignOf (4 + l) - 4), sp⟩ := by
      obtain ⟨m, hm⟩ : ∃ m, rtaAlignOf (4 + l) = m + 4 := ⟨rtaAlignOf (4 + l) - 4, by omega⟩
      rw [hm]
      simp [Slice.sliceFrom, Slice.len]
      omega
    simp only [h3, h4, Option.some_bind, if_pos hfit]
  · have h4 : Slice.sliceFrom ⟨x :: y :: z :: w :: tl, sp⟩ (rtaAlignOf (4 + l)) = none := by
      simp [Slice.sliceFrom, Slice.len]
      omega
    rw [if_neg hfit, h4]
    cases Slice.slice ⟨x :: y :: z :: w :: tl, sp⟩ 4 (4 + l) <;> rfl

/-- The loop of `parseAttrs` never runs out of fuel when it is given more than `len(b) / 4`
iterations: every iteration that does not panic consumes at least 4 bytes. -/
theorem parseAttrsLoop_ne_nofuel :
    ∀ (fuel : Nat) (b sp : List Byte) (attrs : List Attr) (idx : Nat), b.length / 4 < fuel →
      parseAttrsLoop fuel ⟨b, sp⟩ attrs idx ≠ Run.nofuel := by
  intro fuel
  induction fuel with
  | zero => intro b sp attrs idx h; omega
  | succ f ih =>
    intro b sp attrs idx h
    rw [parseAttrsLoop]
    simp only [Slice.len, attrHdrLength]
    by_cases h4 : 4 ≤ b.length
    · obtain ⟨x, y, z, w, tl, rfl⟩ : ∃ x y z w tl, b = x :: y :: z :: w :: tl := by
        match b, h4 with
        | x :: y :: z :: w :: tl, _ => exact ⟨x, y, z, w, tl, rfl⟩
      rw [if_pos h4]
      by_cases hidx : idx < attrs.length
      · rw [if_pos hidx, parseAttr_cons]
        by_cases hfit : rtaAlignOf (4 + subUint16 (x.val + 256 * y.val) 4) ≤ 4 + tl.length
        · rw [if_pos hfit]
          simp only [if_true]
          apply ih
          have hge := rtaAlignOf_ge (4 + subUint16 (x.val + 256 * y.val) 4)
          simp only [List.length_drop, List.length_cons] at h ⊢
          omega
        · rw [if_neg hfit]
          simp
      · rw [if_neg hidx]
        simp
    · rw [if_neg h4]
      split <;> simp

/-- The call `parseAttrs(b, attrs)` always terminates: the fuel of the embedding is never
used up. -/
theorem parseAttrs_ne_nofuel (b : Slice) (attrs : List Attr) :
    parseAttrs b attrs ≠ Run.nofuel :=
  parseAttrsLoop_ne_nofuel _ b.elems b.spare attrs 0 (Nat.lt_succ_self _)

/-- A record whose declared length exceeds the bytes that remain makes `parseAttrs` panic,
also after any number of whole records. -/
theorem parseAttrs_truncated_record (rs : List Rec) (hwf : ∀ r ∈ rs, r.WF)
    (hk : rs.length < 20) (x y z w : Byte) (tl spare : List Byte)
    (h : 4 + tl.length < x.val + 256 * y.val) :
    parseAttrs ⟨encodeRecs rs ++ x :: y :: z :: w :: tl, spare⟩ (makeAttrs 20) = Run.panic := by
  have hx := x.isLt
  have hy := y.isLt
  have hna : ¬ rtaAlignOf (4 + subUint16 (x.val + 256 * y.val) 4) ≤ 4 + tl.length := by
    have := rtaAlignOf_ge (4 + subUint16 (x.val + 256 * y.val) 4)
    have hs : subUint16 (x.val + 256 * y.val) 4 = x.val + 256 * y.val - 4 := by
      unfold subUint16; split <;> omega
    omega
  have hp : parseAttr ⟨x :: y :: z :: w :: tl, spare⟩ = none := by
    rw [parseAttr_cons, if_neg hna]
  have hlen := encodeRecs_length_ge rs
  obtain ⟨f, hf⟩ : ∃ f, (encodeRecs rs ++ x :: y :: z :: w :: tl).length / 4 + 1 =
      (f + 1) + rs.length := by
    refine ⟨(encodeRecs rs ++ x :: y :: z :: w :: tl).length / 4 - rs.length, ?_⟩
    simp only [List.length_append, List.length_cons]
    omega
  have h0 := parseAttrsLoop_records rs hwf (f + 1) (x :: y :: z :: w :: tl) spare []
    (makeAttrs 20) (by simp [makeAttrs]; omega)
  simp only [List.nil_append, List.length_nil, Nat.zero_add] at h0
  rw [parseAttrs, Slice.len, hf, h0, parseAttrsLoop,
    if_pos (by simp [Slice.len, attrHdrLength]),
    if_pos (by simp [attrsOf_length, makeAttrs]; omega), hp]

/-- C2 (code bug): on the 4-byte buffer `08 00 01 00`, whose only record declares a length
of 8, `parseAttrs` does not return a framing error: the slice expressions of `parseAttr`
go out of range and the call panics, whatever the capacity of the buffer. -/
theorem parseAttrs_declared_length_panics (spare : List Byte) :
    parseAttrs ⟨[8, 0, 1, 0], spare⟩ (makeAttrs 20) = Run.panic :=
  parseAttrs_truncated_record [] (by simp) (by simp) 8 0 1 0 [] spare (by decide)

theorem parseAttrs_leftover (rs : List Rec) (hwf : ∀ r ∈ rs, r.WF) (hk : rs.length ≤ 20)
    (tail : List Byte) (h1 : 1 ≤ tail.length) (h3 : tail.length ≤ 3) (spare : List Byte) :
    parseAttrs ⟨encodeRecs rs ++ tail, spare⟩ (makeAttrs 20) =
      Run.ret (0, some "leftover attr bytes")
        (attrsOf rs (tail ++ spare) ++ (makeAttrs 20).drop rs.length) := by
  have hne : tail ≠ [] := by
    intro h; simp [h] at h1
  rw [parseAttrs_encodeRecs rs hwf 20 hk tail spare (by omega), if_neg hne]

/-- C3: a buffer of at most 20 whole, padded records followed by 1 to 3 extra bytes makes
`parseAttrs` return the error `leftover attr bytes` with count 0, and `parsePayload`,
`parseTuple`, `parseIP` and `parseProto` return an error and leave the `Conn` or `Tuple`
as it was: none of the records is decoded. -/
theorem leftover_bytes_rejected (rs : List Rec) (hwf : ∀ r ∈ rs, r.WF) (hk : rs.length ≤ 20)
    (tail : List Byte) (h1 : 1 ≤ tail.length) (h3 : tail.length ≤ 3) (spare : List Byte) :
    (∃ attrs, parseAttrs ⟨encodeRecs rs ++ tail, spare⟩ (makeAttrs 20) =
        Run.ret (0, some "leftover attr bytes") attrs) ∧
    (∀ conn, parsePayload ⟨encodeRecs rs ++ tail, spare⟩ conn =
        Run.ret (some "leftover attr bytes") conn) ∧
    (∀ t, parseTuple ⟨encodeRecs rs ++ tail, spare⟩ t =
        Run.ret (some "invalid tuple attr: leftover attr bytes") t) ∧
    (∀ t, parseIP ⟨encodeRecs rs ++ tail, spare⟩ t =
        Run.ret (some "invalid tuple attr: leftover attr bytes") t) ∧
    (∀ t, parseProto ⟨encodeRecs rs ++ tail, spare⟩ t =
        Run.ret (some "invalid tuple attr: leftover attr bytes") t) := by
  have h := parseAttrs_leftover rs hwf hk tail h1 h3 spare
  have hs : "invalid tuple attr: " ++ "leftover attr bytes" =
      "invalid tuple attr: leftover attr bytes" := by decide
  refine ⟨⟨_, h⟩, ?_, ?_, ?_, ?_⟩
  · intro conn; simp only [parsePayload, h]
  · intro t; simp only [parseTuple, h, hs]
  · intro t; simp only [parseIP, h, hs]
  · intro t; simp only [parseProto, h, hs]

theorem leftover_bytes_rejected_witness :
    (∀ r ∈ sampleRecs, r.WF) ∧ sampleRecs.length ≤ 20 ∧ 1 ≤ [(5 : Byte), 0].length ∧
    [(5 : Byte), 0].length ≤ 3 ∧
    ((∃ attrs, parseAttrs ⟨encodeRecs sampleRecs ++ [5, 0], []⟩ (makeAttrs 20) =
        Run.ret (0, some "leftover attr bytes") attrs) ∧
    (∀ conn, parsePayload ⟨encodeRecs sampleRecs ++ [5, 0], []⟩ conn =
        Run.ret (some "leftover attr bytes") conn) ∧
    (∀ t, parseTuple ⟨encodeRecs sampleRecs ++ [5, 0], []⟩ t =
        Run.ret (some "invalid tuple attr: leftover attr bytes") t) ∧
    (∀ t, parseIP ⟨encodeRecs sampleRecs ++ [5, 0], []⟩ t =
        Run.ret (some "invalid tuple attr: leftover attr bytes") t) ∧
    (∀ t, parseProto ⟨encodeRecs sampleRecs ++ [5, 0], []⟩ t =
        Run.ret (some "invalid tuple attr: leftover attr bytes") t)) :=
  ⟨by decide, by decide, by decide, by decide,
    leftover_bytes_rejected sampleRecs (by decide) (by decide) [5, 0] (by decide) (by decide) []⟩

/-! ## Round trip -/

theorem typeWord_recompose (t : Nat) (h : t < 2 ^ 16) :
    (t &&& (2 ^ 14 - 1)) ||| (if t.testBit 15 then 2 ^ 15 else 0) |||
      (if t.testBit 14 then 2 ^ 14 else 0) = t := by
  apply Nat.eq_of_testBit_eq
  intro i
  by_cases h15 : t.testBit 15 = true <;> by_cases h14 : t.testBit 14 = true <;>
    simp only [h15, h14, if_true, if_false, Nat.testBit_or, Nat.testBit_and,
      Nat.testBit_two_pow_sub_one, Nat.testBit_two_pow, Nat.zero_testBit, Bool.or_false,
      Bool.false_eq_true]
  all_goals
    by_cases hi : i < 14
    · have e1 : ¬ (15 = i) := by omega
      have e2 : ¬ (14 = i) := by omega
      simp [hi, e1, e2]
    · by_cases hi14 : i = 14
      · subst hi14; simp_all
      · by_cases hi15 : i = 15
        · subst hi15; simp_all
        · have hge : 16 ≤ i := by omega
          have hlt : t < 2 ^ i := lt_of_lt_of_le h (Nat.pow_le_pow_right (by decide) hge)
          have e1 : ¬ (15 = i) := by omega
          have e2 : ¬ (14 = i) := by omega
          simp [hi, e1, e2, Nat.testBit_lt_two_pow hlt]

theorem Rec.attr_typeWord (r : Rec) (h : r.typ < 65536) (post : List Byte) :
    (r.attr post).typeWord = r.typ := by
  have h0 := typeWord_recompose r.typ h
  simp only [Attr.typeWord, Rec.attr, and_nested, and_netByteorder]
  exact h0

theorem encodeAttr_attr (r : Rec) (h : r.WF) (hz : ∀ x ∈ r.pad, x = 0) (post : List Byte) :
    encodeAttr (r.attr post) = r.bytes := by
  obtain ⟨ht, hl, hp⟩ := h
  have hpad : List.replicate (rtaAlignOf r.declLen - r.declLen) (0 : Byte) = r.pad := by
    symm
    rw [List.eq_replicate_iff]
    exact ⟨by omega, hz⟩
  have hlen : attrHdrLength + (r.attr post).Msg.len = r.declLen := rfl
  rw [encodeAttr, hlen, Rec.attr_typeWord r ht, hpad]
  rfl

theorem encodeAttrs_attrsOf (post : List Byte) :
    ∀ (rs : List Rec), (∀ r ∈ rs, r.WF) → (∀ r ∈ rs, ∀ x ∈ r.pad, x = 0) →
      encodeAttrs (attrsOf rs post) = encodeRecs rs := by
  intro rs
  induction rs with
  | nil => intro _ _; rfl
  | cons r rs ih =>
    intro hwf hz
    simp only [attrsOf, encodeAttrs, encodeRecs]
    rw [encodeAttr_attr r (hwf r (List.mem_cons_self _ _)) (hz r (List.mem_cons_self _ _)),
      ih (fun q hq => hwf q (List.mem_cons_of_mem _ hq))
        (fun q hq => hz q (List.mem_cons_of_mem _ hq))]

theorem take_attrsOf (rs : List Rec) (post : List Byte) (zs : List Attr) :
    (attrsOf rs post ++ zs).take rs.length = attrsOf rs post := by
  rw [← attrsOf_length rs post, List.take_left]

/-- C4, counterexample: the well-formed one-record buffer `05 00 01 00 07 09 09 09` is
decoded, but re-encoding the decoded attribute gives `05 00 01 00 07 00 00 00`: the
padding bytes are skipped by the decoder and cannot be reproduced. The two buffers are
decoded to the same attribute, so no re-encoding from type, flags and payload gives back
both. -/
theorem reencode_padding_counterexample :
    (∀ r ∈ paddedRecs, r.WF) ∧ paddedRecs.length ≤ 20 ∧
    encodeRecs paddedRecs = [5, 0, 1, 0, 7, 9, 9, 9] ∧
    reencode ⟨encodeRecs paddedRecs, []⟩ = some [5, 0, 1, 0, 7, 0, 0, 0] ∧
    reencode ⟨encodeRecs paddedRecs, []⟩ ≠ some (encodeRecs paddedRecs) ∧
    decoded ⟨[5, 0, 1, 0, 7, 9, 9, 9], []⟩ = decoded ⟨[5, 0, 1, 0, 7, 0, 0, 0], []⟩ ∧
    decoded ⟨[5, 0, 1, 0, 7, 9, 9, 9], []⟩ = some [⟨⟨[7], []⟩, 1, false, false⟩] := by
  decide

/-- C4, amended: for a buffer that is the concatenation of at most 20 well-formed records
whose padding bytes are all zero, re-encoding the attributes returned by `parseAttrs` one by
one reproduces the buffer byte for byte. -/
theorem reencode_zero_padded (rs : List Rec) (hwf : ∀ r ∈ rs, r.WF) (hk : rs.length ≤ 20)
    (hz : ∀ r ∈ rs, ∀ x ∈ r.pad, x = 0) (spare : List Byte) :
    reencode ⟨encodeRecs rs, spare⟩ = some (encodeRecs rs) := by
  have h := parseAttrs_encodeRecs rs hwf 20 hk [] spare (by simp)
  simp only [List.append_nil, if_true, List.nil_append] at h
  simp only [reencode, h, take_attrsOf, encodeAttrs_attrsOf spare rs hwf hz]

theorem reencode_zero_padded_witness :
    (∀ r ∈ sampleRecs, r.WF) ∧ sampleRecs.length ≤ 20 ∧
    (∀ r ∈ sampleRecs, ∀ x ∈ r.pad, x = 0) ∧
    reencode ⟨encodeRecs sampleRecs, [1, 2]⟩ = some (encodeRecs sampleRecs) :=
  ⟨by decide, by decide, by simp [sampleRecs],
    reencode_zero_padded sampleRecs (by decide) (by decide) (by simp [sampleRecs]) [1, 2]⟩

/-! ## Independence of the spare capacity, and the decoders on record streams -/

theorem Attr.strip_strip (a : Attr) : a.strip.strip = a.strip := rfl

theorem map_strip_makeAttrs (n : Nat) : (makeAttrs n).map Attr.strip = makeAttrs n := by
  simp [makeAttrs, Attr.strip]

theorem parseAttrsLoop_strip :
    ∀ (fuel : Nat) (b sp : List Byte) (attrs : List Attr) (idx : Nat),
      stripRun (parseAttrsLoop fuel ⟨b, sp⟩ attrs idx) =
        stripRun (parseAttrsLoop fuel ⟨b, []⟩ (attrs.map Attr.strip) idx) := by
  intro fuel
  induction fuel with
  | zero => intro b sp attrs idx; rfl
  | succ f ih =>
    intro b sp attrs idx
    rw [parseAttrsLoop, parseAttrsLoop]
    simp only [Slice.len, attrHdrLength, List.length_map]
    by_cases h4 : 4 ≤ b.length
    · obtain ⟨x, y, z, w, tl, rfl⟩ : ∃ x y z w tl, b = x :: y :: z :: w :: tl := by
        match b, h4 with
        | x :: y :: z :: w :: tl, _ => exact ⟨x, y, z, w, tl, rfl⟩
      rw [if_pos h4, if_pos h4]
      by_cases hidx : idx < attrs.length
      · rw [if_pos hidx, if_pos hidx, parseAttr_cons, parseAttr_cons]
        by_cases hfit :
            rtaAlignOf (4 + subUint16 (x.val + 256 * y.val) 4) ≤ 4 + tl.length
        · rw [if_pos hfit, if_pos hfit]
          simp only [if_true]
          rw [ih, ih _ [] ((attrs.map Attr.strip).set idx _)]
          have hcomp : Attr.strip ∘ Attr.strip = Attr.strip := funext Attr.strip_strip
          simp only [List.map_set, List.map_map, hcomp]
          simp [Attr.strip]
        · rw [if_neg hfit, if_neg hfit]
      · rw [if_neg hidx, if_neg hidx]
    · rw [if_neg h4, if_neg h4]
      by_cases h0 : b.length ≠ 0
      · have hcomp : Attr.strip ∘ Attr.strip = Attr.strip := funext Attr.strip_strip
        rw [if_pos h0, if_pos h0]
        simp only [stripRun, List.map_map, hcomp]
      · have hcomp : Attr.strip ∘ Attr.strip = Attr.strip := funext Attr.strip_strip
        rw [if_neg h0, if_neg h0]
        simp only [stripRun, List.map_map, hcomp]

theorem parseAttrs_strip (b sp : List Byte) :
    stripRun (parseAttrs ⟨b, sp⟩ (makeAttrs 20)) = stripRun (parseAttrs ⟨b, []⟩ (makeAttrs 20)) := by
  have h := parseAttrsLoop_strip (b.length / 4 + 1) b sp (makeAttrs 20) 0
  rw [map_strip_makeAttrs] at h
  exact h

theorem forRange_strip {σ : Type} (idx : Nat) (body : Attr → σ → Step σ)
    (hbody : ∀ a s, body a s = body a.strip s) :
    ∀ (attrs : List Attr) (i : Nat) (s : σ),
      forRange idx body i attrs s = forRange idx body i (attrs.map Attr.strip) s := by
  intro attrs
  induction attrs with
  | nil => intro i s; rfl
  | cons a rest ih =>
    intro i s
    simp only [List.map_cons, forRange]
    rw [← hbody a s]
    by_cases hi : i = idx
    · rw [if_pos hi, if_pos hi]
    · rw [if_neg hi, if_neg hi]
      cases body a s with
      | next s' => exact ih (i + 1) s'
      | stop err s' => rfl
      | panic => rfl
      | nofuel => rfl

theorem decodeGroup_spare {σ : Type} (wrap : String → String) (body : Attr → σ → Step σ)
    (hbody : ∀ a s, body a s = body a.strip s) (b sp : List Byte) (s : σ) :
    decodeGroup wrap body ⟨b, sp⟩ s = decodeGroup wrap body ⟨b, []⟩ s := by
  have h := parseAttrs_strip b sp
  unfold decodeGroup
  cases h1 : parseAttrs ⟨b, sp⟩ (makeAttrs 20) with
  | ret r attrs =>
    cases h2 : parseAttrs ⟨b, []⟩ (makeAttrs 20) with
    | ret r' attrs' =>
      rw [h1, h2] at h
      simp only [stripRun, Run.ret.injEq] at h
      obtain ⟨hr, ha⟩ := h
      subst hr
      obtain ⟨idx, err⟩ := r
      cases err with
      | some e => rfl
      | none =>
        simp only
        rw [forRange_strip idx body hbody attrs, forRange_strip idx body hbody attrs', ha]
    | panic => rw [h1, h2] at h; simp [stripRun] at h
    | nofuel => rw [h1, h2] at h; simp [stripRun] at h
  | panic =>
    cases h2 : parseAttrs ⟨b, []⟩ (makeAttrs 20) with
    | ret r' attrs' => rw [h1, h2] at h; simp [stripRun] at h
    | panic => rfl
    | nofuel => rw [h1, h2] at h; simp [stripRun] at h
  | nofuel =>
    cases h2 : parseAttrs ⟨b, []⟩ (makeAttrs 20) with
    | ret r' attrs' => rw [h1, h2] at h; simp [stripRun] at h
    | panic => rw [h1, h2] at h; simp [stripRun] at h
    | nofuel => rfl

theorem parsePayload_eq : parsePayload = decodeGroup id parsePayloadBody := rfl

theorem parseTuple_eq : parseTuple = decodeGroup wrapTupleErr parseTupleBody := rfl

theorem parseIP_eq : parseIP = decodeGroup wrapTupleErr parseIPBody := rfl

theorem parseProto_eq : parseProto = decodeGroup wrapTupleErr parseProtoBody := rfl

theorem forRange_ne_nofuel {σ : Type} (idx : Nat) (body : Attr → σ → Step σ)
    (hb : ∀ a s, body a s ≠ Step.nofuel) :
    ∀ (attrs : List Attr) (i : Nat) (s : σ), forRange idx body i attrs s ≠ Run.nofuel := by
  intro attrs
  induction attrs with
  | nil => intro i s; simp [forRange]
  | cons a rest ih =>
    intro i s
    simp only [forRange]
    split
    · simp
    · cases h : body a s with
      | next s' => exact ih (i + 1) s'
      | stop err s' => simp
      | panic => simp
      | nofuel => exact absurd h (hb a s)

theorem decodeGroup_ne_nofuel {σ : Type} (wrap : String → String) (body : Attr → σ → Step σ)
    (hb : ∀ a s, body a s ≠ Step.nofuel) (b : Slice) (s : σ) :
    decodeGroup wrap body b s ≠ Run.nofuel := by
  unfold decodeGroup
  cases h : parseAttrs b (makeAttrs 20) with
  | ret r attrs =>
    obtain ⟨idx, err⟩ := r
    cases err with
    | some e => simp
    | none => exact forRange_ne_nofuel idx body hb attrs 0 s
  | panic => simp
  | nofuel => exact absurd h (parseAttrs_ne_nofuel b _)

/-- The sub-group decoders `parseIP` and `parseProto` always terminate. -/
theorem parseIP_parseProto_ne_nofuel (b : Slice) (t : Tuple) :
    parseIP b t ≠ Run.nofuel ∧ parseProto b t ≠ Run.nofuel := by
  constructor
  · rw [parseIP_eq]
    apply decodeGroup_ne_nofuel
    intro a s
    unfold parseIPBody
    split_ifs <;> simp
  · rw [parseProto_eq]
    apply decodeGroup_ne_nofuel
    intro a s
    unfold parseProtoBody
    split_ifs <;> (try split) <;> simp

/-- The tuple decoder `parseTuple` always terminates. -/
theorem parseTuple_ne_nofuel (b : Slice) (t : Tuple) : parseTuple b t ≠ Run.nofuel := by
  rw [parseTuple_eq]
  apply decodeGroup_ne_nofuel
  intro a s
  unfold parseTupleBody
  split_ifs
  · simp
  · have h := (parseIP_parseProto_ne_nofuel a.Msg s).1
    split <;> simp_all
  · have h := (parseIP_parseProto_ne_nofuel a.Msg s).2
    split <;> simp_all
  · simp

/-- The connection decoder `parsePayload` always terminates. -/
theorem parsePayload_ne_nofuel (b : Slice) (c : Conn) : parsePayload b c ≠ Run.nofuel := by
  rw [parsePayload_eq]
  apply decodeGroup_ne_nofuel
  intro a s
  unfold parsePayloadBody
  split_ifs
  · have h := parseTuple_ne_nofuel a.Msg s.Orig
    split <;> simp_all
  · have h := parseTuple_ne_nofuel a.Msg s.Reply
    split <;> simp_all
  all_goals simp

theorem parseIPBody_strip (a : Attr) (t : Tuple) : parseIPBody a t = parseIPBody a.strip t := rfl

theorem parseProtoBody_strip (a : Attr) (t : Tuple) :
    parseProtoBody a t = parseProtoBody a.strip t := rfl

theorem parseIP_spare (b sp : List Byte) (t : Tuple) : parseIP ⟨b, sp⟩ t = parseIP ⟨b, []⟩ t := by
  rw [parseIP_eq]; exact decodeGroup_spare _ _ parseIPBody_strip b sp t

theorem parseProto_spare (b sp : List Byte) (t : Tuple) :
    parseProto ⟨b, sp⟩ t = parseProto ⟨b, []⟩ t := by
  rw [parseProto_eq]; exact decodeGroup_spare _ _ parseProtoBody_strip b sp t

theorem parseTupleBody_strip (a : Attr) (t : Tuple) :
    parseTupleBody a t = parseTupleBody a.strip t := by
  obtain ⟨⟨e, sp⟩, ty, n, o⟩ := a
  simp only [parseTupleBody, Attr.strip]
  rw [parseIP_spare e sp, parseProto_spare e sp]

theorem parseTuple_spare (b sp : List Byte) (t : Tuple) :
    parseTuple ⟨b, sp⟩ t = parseTuple ⟨b, []⟩ t := by
  rw [parseTuple_eq]; exact decodeGroup_spare _ _ parseTupleBody_strip b sp t

theorem parsePayloadBody_strip (a : Attr) (c : Conn) :
    parsePayloadBody a c = parsePayloadBody a.strip c := by
  obtain ⟨⟨e, sp⟩, ty, n, o⟩ := a
  simp only [parsePayloadBody, Attr.strip]
  rw [parseTuple_spare e sp c.Orig, parseTuple_spare e sp c.Reply]

theorem parsePayload_spare (b sp : List Byte) (c : Conn) :
    parsePayload ⟨b, sp⟩ c = parsePayload ⟨b, []⟩ c := by
  rw [parsePayload_eq]; exact decodeGroup_spare _ _ parsePayloadBody_strip b sp c

theorem runBody_strip {σ : Type} (body : Attr → σ → Step σ)
    (hbody : ∀ a s, body a s = body a.strip s) :
    ∀ (attrs : List Attr) (s : σ), runBody body attrs s = runBody body (attrs.map Attr.strip) s := by
  intro attrs
  induction attrs with
  | nil => intro s; rfl
  | cons a rest ih =>
    intro s
    simp only [List.map_cons, runBody]
    rw [← hbody a s]
    cases body a s with
    | next s' => exact ih s'
    | stop err s' => rfl
    | panic => rfl
    | nofuel => rfl

theorem map_strip_attrsOf (post : List Byte) :
    ∀ (rs : List Rec), (attrsOf rs post).map Attr.strip = rs.map Rec.view := by
  intro rs
  induction rs with
  | nil => rfl
  | cons r rs ih =>
    simp only [attrsOf, List.map_cons, ih]
    rfl

/-- A decoder of the common shape, run on a stream of at most 20 well-formed records
followed by fewer than 4 bytes: the loop body is run over the records in order, or the
leftover bytes are reported. -/
theorem decodeGroup_encodeRecs {σ : Type} (wrap : String → String) (body : Attr → σ → Step σ)
    (hbody : ∀ a s, body a s = body a.strip s)
    (rs : List Rec) (hwf : ∀ r ∈ rs, r.WF) (hk : rs.length ≤ 20)
    (tail sp : List Byte) (ht : tail.length < 4) (s : σ) :
    decodeGroup wrap body ⟨encodeRecs rs ++ tail, sp⟩ s =
      if tail = [] then runBody body (rs.map Rec.view) s
      else Run.ret (some (wrap "leftover attr bytes")) s := by
  have h := parseAttrs_encodeRecs rs hwf 20 hk tail sp ht
  unfold decodeGroup
  rw [h]
  by_cases he : tail = []
  · subst he
    simp only [if_true, List.nil_append]
    rw [forRange_filled rs.length body (attrsOf rs sp) _ 0 s (by simp [attrsOf_length]),
      runBody_strip body hbody, map_strip_attrsOf]
  · simp only [if_neg he]

theorem runBody_insert {σ : Type} (body : Attr → σ → Step σ) (a : Attr)
    (ha : ∀ s, body a s = Step.next s) :
    ∀ (pre post : List Attr) (s : σ),
      runBody body (pre ++ a :: post) s = runBody body (pre ++ post) s := by
  intro pre
  induction pre with
  | nil => intro post s; simp only [List.nil_append, runBody, ha]
  | cons p pre ih =>
    intro post s
    simp only [List.cons_append, runBody]
    cases body p s with
    | next s' => exact ih post s'
    | stop err s' => rfl
    | panic => rfl
    | nofuel => rfl

theorem decodeGroup_insert {σ : Type} (wrap : String → String) (body : Attr → σ → Step σ)
    (hbody : ∀ a s, body a s = body a.strip s)
    (rs1 rs2 : List Rec) (r : Rec) (h1 : ∀ q ∈ rs1, q.WF) (h2 : ∀ q ∈ rs2, q.WF) (hr : r.WF)
    (hk : rs1.length + rs2.length < 20) (hskip : ∀ s, body r.view s = Step.next s)
    (tail sp sp' : List Byte) (ht : tail.length < 4) (s : σ) :
    decodeGroup wrap body ⟨encodeRecs (rs1 ++ r :: rs2) ++ tail, sp⟩ s =
      decodeGroup wrap body ⟨encodeRecs (rs1 ++ rs2) ++ tail, sp'⟩ s := by
  have hwf1 : ∀ q ∈ rs1 ++ r :: rs2, q.WF := by
    intro q hq
    rcases List.mem_append.mp hq with hq | hq
    · exact h1 q hq
    · rcases List.mem_cons.mp hq with hq | hq
      · exact hq ▸ hr
      · exact h2 q hq
  have hwf2 : ∀ q ∈ rs1 ++ rs2, q.WF := by
    intro q hq
    rcases List.mem_append.mp hq with hq | hq
    · exact h1 q hq
    · exact h2 q hq
  rw [decodeGroup_encodeRecs wrap body hbody _ hwf1 (by simp; omega) tail sp ht,
    decodeGroup_encodeRecs wrap body hbody _ hwf2 (by simp; omega) tail sp' ht]
  simp only [List.map_append, List.map_cons]
  rw [runBody_insert body r.view hskip]

/-- More than 20 whole records: the record after the 20th indexes the 20-slot array out of
range and `parseAttrs` panics. -/
theorem parseAttrs_too_many (rs : List Rec) (hwf : ∀ r ∈ rs, r.WF) (hk : 20 < rs.length)
    (rest sp : List Byte) :
    parseAttrs ⟨encodeRecs rs ++ rest, sp⟩ (makeAttrs 20) = Run.panic := by
  have hsplit : rs = rs.take 20 ++ rs.drop 20 := (List.take_append_drop 20 rs).symm
  have hlen1 : (rs.take 20).length = 20 := by simp; omega
  have hwf1 : ∀ r ∈ rs.take 20, r.WF := fun r hr => hwf r (List.mem_of_mem_take hr)
  obtain ⟨q, qs, hq⟩ : ∃ q qs, rs.drop 20 = q :: qs := by
    cases hd : rs.drop 20 with
    | nil =>
      have : (rs.drop 20).length = 0 := by rw [hd]; rfl
      simp at this; omega
    | cons q qs => exact ⟨q, qs, rfl⟩
  have henc : ∀ (l1 l2 : List Rec), encodeRecs (l1 ++ l2) = encodeRecs l1 ++ encodeRecs l2 := by
    intro l1 l2
    induction l1 with
    | nil => rfl
    | cons a l1 ih => simp [encodeRecs, ih]
  have hbuf : encodeRecs rs ++ rest =
      encodeRecs (rs.take 20) ++ (q.bytes ++ (encodeRecs qs ++ rest)) := by
    conv_lhs => rw [hsplit, henc, hq]
    simp [encodeRecs]
  have hq4 : 4 ≤ (q.bytes ++ (encodeRecs qs ++ rest)).length := by
    simp [Rec.bytes_length, Rec.declLen, attrHdrLength]; omega
  have hge := encodeRecs_length_ge (rs.take 20)
  obtain ⟨f, hf⟩ : ∃ f, (encodeRecs rs ++ rest).length / 4 + 1 = (f + 1) + (rs.take 20).length := by
    refine ⟨(encodeRecs rs ++ rest).length / 4 - 20, ?_⟩
    rw [hbuf, List.length_append]
    omega
  have h0 := parseAttrsLoop_records (rs.take 20) hwf1 (f + 1) (q.bytes ++ (encodeRecs qs ++ rest))
    sp [] (makeAttrs 20) (by simp [makeAttrs])
  simp only [List.nil_append, List.length_nil, Nat.zero_add] at h0
  rw [parseAttrs, Slice.len, hf, hbuf, h0, parseAttrsLoop,
    if_pos (by simpa [Slice.len, attrHdrLength] using hq4),
    if_neg (by simp [attrsOf_length, makeAttrs]; omega)]

theorem runBody_all_skip {σ : Type} (body : Attr → σ → Step σ) :
    ∀ (attrs : List Attr) (s : σ), (∀ a ∈ attrs, ∀ s, body a s = Step.next s) →
      runBody body attrs s = Run.ret none s := by
  intro attrs
  induction attrs with
  | nil => intro s _; rfl
  | cons a rest ih =>
    intro s h
    simp only [runBody, h a (List.mem_cons_self _ _) s]
    exact ih s (fun b hb => h b (List.mem_cons_of_mem _ hb))

theorem parsePayloadBody_skip (r : Rec) (h : r.code ∉ handledPayload) (c : Conn) :
    parsePayloadBody r.view c = Step.next c := by
  have hT : r.view.Typ = r.code := rfl
  simp only [handledPayload, List.mem_cons, List.mem_singleton, List.not_mem_nil, or_false,
    not_or] at h
  simp only [parsePayloadBody, hT, if_neg h.1, if_neg h.2, ite_self]

theorem parseTupleBody_skip (r : Rec) (h : r.code ∉ handledTuple) (t : Tuple) :
    parseTupleBody r.view t = Step.next t := by
  have hT : r.view.Typ = r.code := rfl
  simp only [handledTuple, List.mem_cons, List.mem_singleton, List.not_mem_nil, or_false,
    not_or] at h
  simp only [parseTupleBody, hT, if_neg h.1, if_neg h.2, ite_self]

theorem parseIPBody_skip (r : Rec) (h : r.code ∉ handledIP) (t : Tuple) :
    parseIPBody r.view t = Step.next t := by
  have hT : r.view.Typ = r.code := rfl
  simp only [handledIP, List.mem_cons, List.mem_singleton, List.not_mem_nil, or_false,
    not_or] at h
  simp only [parseIPBody, hT, if_neg h.1, if_neg h.2.1, if_neg h.2.2.1, if_neg h.2.2.2]

theorem parseProtoBody_skip (r : Rec) (h : r.code ∉ handledProto) (t : Tuple) :
    parseProtoBody r.view t = Step.next t := by
  have hT : r.view.Typ = r.code := rfl
  simp only [handledProto, List.mem_cons, List.mem_singleton, List.not_mem_nil, or_false,
    not_or] at h
  simp only [parseProtoBody, hT, if_neg h.1, if_neg h.2.1, if_neg h.2.2]

/-- C9, counterexample: a group of 20 attributes of the unknown type code 9 is accepted by
`parsePayload` (no error, the `Conn` unchanged); with one more such attribute inserted the
call panics, because the 21st attribute indexes the 20-slot array out of range. -/
theorem insert_unknown_counterexample :
    (∀ r ∈ fullRecs, r.WF) ∧ extraRec.WF ∧
    extraRec.code ≠ CtaTupleOrig ∧ extraRec.code ≠ CtaTupleReply ∧
    parsePayload ⟨encodeRecs fullRecs, []⟩ zeroConn = Run.ret none zeroConn ∧
    parsePayload ⟨encodeRecs (fullRecs ++ [extraRec]), []⟩ zeroConn = Run.panic := by
  have hwf : ∀ r ∈ fullRecs, r.WF := by
    intro r hr
    rw [List.eq_of_mem_replicate hr]
    decide
  have hex : extraRec.WF := by decide
  refine ⟨hwf, hex, by decide, by decide, ?_, ?_⟩
  · have h := decodeGroup_encodeRecs id parsePayloadBody parsePayloadBody_strip fullRecs hwf
      (by simp [fullRecs]) [] [] (by simp) zeroConn
    simp only [List.append_nil, if_true] at h
    rw [parsePayload_eq, h]
    apply runBody_all_skip
    intro a ha c
    obtain ⟨r, hr, rfl⟩ := List.mem_map.mp ha
    rw [List.eq_of_mem_replicate hr]
    exact parsePayloadBody_skip _ (by decide) c
  · have h := parseAttrs_too_many (fullRecs ++ [extraRec])
      (by
        intro r hr
        rcases List.mem_append.mp hr with hr | hr
        · exact hwf r hr
        · rw [List.mem_singleton.mp hr]; exact hex)
      (by simp [fullRecs]) [] []
    rw [List.append_nil] at h
    simp only [parsePayload, h]

/-- C9, amended: in a group of at most 19 well-formed attributes, possibly followed by
leftover bytes, inserting at any position one more well-formed attribute whose type code the
level does not act on leaves the outcome of `parsePayload`, `parseTuple`, `parseIP` and
`parseProto` the same: the same error value (or panic inside a sibling) and the same final
`Conn` or `Tuple`. -/
theorem insert_unhandled_attr (rs1 rs2 : List Rec) (r : Rec)
    (h1 : ∀ q ∈ rs1, q.WF) (h2 : ∀ q ∈ rs2, q.WF) (hr : r.WF)
    (hk : rs1.length + rs2.length < 20) (tail sp sp' : List Byte) (ht : tail.length < 4) :
    (r.code ∉ handledPayload → ∀ c,
      parsePayload ⟨encodeRecs (rs1 ++ r :: rs2) ++ tail, sp⟩ c =
        parsePayload ⟨encodeRecs (rs1 ++ rs2) ++ tail, sp'⟩ c) ∧
    (r.code ∉ handledTuple → ∀ t,
      parseTuple ⟨encodeRecs (rs1 ++ r :: rs2) ++ tail, sp⟩ t =
        parseTuple ⟨encodeRecs (rs1 ++ rs2) ++ tail, sp'⟩ t) ∧
    (r.code ∉ handledIP → ∀ t,
      parseIP ⟨encodeRecs (rs1 ++ r :: rs2) ++ tail, sp⟩ t =
        parseIP ⟨encodeRecs (rs1 ++ rs2) ++ tail, sp'⟩ t) ∧
    (r.code ∉ handledProto → ∀ t,
      parseProto ⟨encodeRecs (rs1 ++ r :: rs2) ++ tail, sp⟩ t =
        parseProto ⟨encodeRecs (rs1 ++ rs2) ++ tail, sp'⟩ t) := by
  refine ⟨fun h c => ?_, fun h t => ?_, fun h t => ?_, fun h t => ?_⟩
  · rw [parsePayload_eq]
    exact decodeGroup_insert _ _ parsePayloadBody_strip rs1 rs2 r h1 h2 hr hk
      (parsePayloadBody_skip r h) tail sp sp' ht c
  · rw [parseTuple_eq]
    exact decodeGroup_insert _ _ parseTupleBody_strip rs1 rs2 r h1 h2 hr hk
      (parseTupleBody_skip r h) tail sp sp' ht t
  · rw [parseIP_eq]
    exact decodeGroup_insert _ _ parseIPBody_strip rs1 rs2 r h1 h2 hr hk
      (parseIPBody_skip r h) tail sp sp' ht t
  · rw [parseProto_eq]
    exact decodeGroup_insert _ _ parseProtoBody_strip rs1 rs2 r h1 h2 hr hk
      (parseProtoBody_skip r h) tail sp sp' ht t

theorem insert_unhandled_attr_witness :
    (∀ q ∈ sampleTupleRecs.take 1, q.WF) ∧ (∀ q ∈ sampleTupleRecs.drop 1, q.WF) ∧
    extraRec.WF ∧ (sampleTupleRecs.take 1).length + (sampleTupleRecs.drop 1).length < 20 ∧
    ([] : List Byte).length < 4 ∧
    extraRec.code ∉ handledPayload ∧ extraRec.code ∉ handledTuple ∧
    extraRec.code ∉ handledIP ∧ extraRec.code ∉ handledProto ∧
    (∀ t, parseTuple
        ⟨encodeRecs (sampleTupleRecs.take 1 ++ extraRec :: sampleTupleRecs.drop 1) ++ [], []⟩ t =
      parseTuple ⟨encodeRecs (sampleTupleRecs.take 1 ++ sampleTupleRecs.drop 1) ++ [], []⟩ t) ∧
    parseTuple
        ⟨encodeRecs (sampleTupleRecs.take 1 ++ extraRec :: sampleTupleRecs.drop 1) ++ [], []⟩
        zeroTuple =
      Run.ret none ⟨[10, 0, 0, 5], 40000, [93, 184, 216, 34], 443, 6⟩ :=
  ⟨by decide, by decide, by decide, by decide, by decide, by decide, by decide, by decide,
    by decide,
    (insert_unhandled_attr (sampleTupleRecs.take 1) (sampleTupleRecs.drop 1) extraRec
      (by decide) (by decide) (by decide) (by decide) [] [] [] (by decide)).2.1 (by decide),
    by decide⟩

/-! ## The IP and protocol sub-groups -/

theorem forRange_take {σ : Type} (idx : Nat) (body : Attr → σ → Step σ) :
    ∀ (attrs : List Attr) (i : Nat) (s : σ), i ≤ idx →
      forRange idx body i attrs s = runBody body (attrs.take (idx - i)) s := by
  intro attrs
  induction attrs with
  | nil => intro i s _; simp [forRange, runBody]
  | cons a rest ih =>
    intro i s hi
    by_cases he : i = idx
    · subst he
      simp [forRange, runBody]
    · obtain ⟨m, hm⟩ : ∃ m, idx - i = m + 1 := ⟨idx - i - 1, by omega⟩
      have hm2 : idx - (i + 1) = m := by omega
      simp only [forRange, if_neg he, hm, List.take_succ_cons, runBody]
      cases body a s with
      | next s' =>
        have h := ih (i + 1) s' (by omega)
        rw [hm2] at h
        exact h
      | stop err s' => rfl
      | panic => rfl
      | nofuel => rfl

theorem runBody_parseIPBody_fields :
    ∀ (attrs : List Attr) (t t' : Tuple), runBody parseIPBody attrs t = Run.ret none t' →
      t'.Src = (lastPayload CtaIpV4Src attrs).getD t.Src ∧
      t'.Dst = (lastPayload CtaIpV4Dst attrs).getD t.Dst ∧
      t'.SrcPort = t.SrcPort ∧ t'.DstPort = t.DstPort ∧ t'.Proto = t.Proto := by
  intro attrs
  induction attrs with
  | nil =>
    intro t t' h
    simp only [runBody, Run.ret.injEq, true_and] at h
    subst h
    simp [lastPayload]
  | cons a rest ih =>
    intro t t' h
    simp only [runBody, parseIPBody] at h
    by_cases h1 : a.Typ = CtaIpV4Src
    · have h2 : ¬ a.Typ = CtaIpV4Dst := by rw [h1]; decide
      rw [if_pos h1] at h
      obtain ⟨e1, e2, e3, e4, e5⟩ := ih _ t' h
      refine ⟨?_, ?_, e3, e4, e5⟩
      · rw [e1]; simp only [lastPayload, if_pos h1]
        cases lastPayload CtaIpV4Src rest <;> rfl
      · rw [e2]; simp only [lastPayload, if_neg h2]
        cases lastPayload CtaIpV4Dst rest <;> rfl
    · rw [if_neg h1] at h
      by_cases h2 : a.Typ = CtaIpV4Dst
      · rw [if_pos h2] at h
        obtain ⟨e1, e2, e3, e4, e5⟩ := ih _ t' h
        refine ⟨?_, ?_, e3, e4, e5⟩
        · rw [e1]; simp only [lastPayload, if_neg h1]
          cases lastPayload CtaIpV4Src rest <;> rfl
        · rw [e2]; simp only [lastPayload, if_pos h2]
          cases lastPayload CtaIpV4Dst rest <;> rfl
      · rw [if_neg h2] at h
        by_cases h3 : a.Typ = CtaIpV6Src
        · rw [if_pos h3] at h; simp at h
        · rw [if_neg h3] at h
          by_cases h4 : a.Typ = CtaIpV6Dst
          · rw [if_pos h4] at h; simp at h
          · rw [if_neg h4] at h
            obtain ⟨e1, e2, e3, e4, e5⟩ := ih _ t' h
            refine ⟨?_, ?_, e3, e4, e5⟩
            · rw [e1]; simp only [lastPayload, if_neg h1]
              cases lastPayload CtaIpV4Src rest <;> rfl
            · rw [e2]; simp only [lastPayload, if_neg h2]
              cases lastPayload CtaIpV4Dst rest <;> rfl

/-- C7, counterexample: on the buffer `05 00 01 00 07 00 00 00`, an IPv4-source attribute
with a 1-byte payload, `parseIP` returns without error and stores the 1-byte string as
`Src`. -/
theorem parseIP_short_address_counterexample :
    parseIP ⟨[5, 0, 1, 0, 7, 0, 0, 0], []⟩ zeroTuple =
        Run.ret none { zeroTuple with Src := [7] } ∧
    ({ zeroTuple with Src := [7] } : Tuple).Src.length ≠ 4 := by
  decide

/-- C7, amended: when `parseIP` returns without error, `Src` is the whole payload of the
last IPv4-source attribute that `parseAttrs` decoded from the buffer and `Dst` that of the
last IPv4-destination attribute, whatever the payload's length (so the field is 4 bytes long
exactly when that payload is), a field without such an attribute keeps its value, and the
ports and the protocol are unchanged. -/
theorem parseIP_stores_payload (b : Slice) (t t' : Tuple)
    (h : parseIP b t = Run.ret none t') :
    ∃ idx attrs, parseAttrs b (makeAttrs 20) = Run.ret (idx, none) attrs ∧
      t'.Src = (lastPayload CtaIpV4Src (attrs.take idx)).getD t.Src ∧
      t'.Dst = (lastPayload CtaIpV4Dst (attrs.take idx)).getD t.Dst ∧
      t'.SrcPort = t.SrcPort ∧ t'.DstPort = t.DstPort ∧ t'.Proto = t.Proto := by
  unfold parseIP at h
  cases hp : parseAttrs b (makeAttrs 20) with
  | ret r attrs =>
    obtain ⟨idx, err⟩ := r
    rw [hp] at h
    cases err with
    | some e => simp at h
    | none =>
      simp only at h
      rw [forRange_take idx parseIPBody attrs 0 t (Nat.zero_le _), Nat.sub_zero] at h
      exact ⟨idx, attrs, rfl, runBody_parseIPBody_fields _ t t' h⟩
  | panic => rw [hp] at h; simp at h
  | nofuel => rw [hp] at h; simp at h

theorem parseIP_stores_payload_witness :
    parseIP ⟨[5, 0, 1, 0, 7, 0, 0, 0], []⟩ zeroTuple = Run.ret none { zeroTuple with Src := [7] } ∧
    ∃ idx attrs, parseAttrs ⟨[5, 0, 1, 0, 7, 0, 0, 0], []⟩ (makeAttrs 20) =
        Run.ret (idx, none) attrs ∧
      ({ zeroTuple with Src := [7] } : Tuple).Src =
        (lastPayload CtaIpV4Src (attrs.take idx)).getD zeroTuple.Src ∧
      ({ zeroTuple with Src := [7] } : Tuple).Dst =
        (lastPayload CtaIpV4Dst (attrs.take idx)).getD zeroTuple.Dst ∧
      ({ zeroTuple with Src := [7] } : Tuple).SrcPort = zeroTuple.SrcPort ∧
      ({ zeroTuple with Src := [7] } : Tuple).DstPort = zeroTuple.DstPort ∧
      ({ zeroTuple with Src := [7] } : Tuple).Proto = zeroTuple.Proto :=
  ⟨by decide, parseIP_stores_payload ⟨[5, 0, 1, 0, 7, 0, 0, 0], []⟩ zeroTuple
    { zeroTuple with Src := [7] } (by decide)⟩

theorem parseProtoBody_view (r : Rec)
    (hs : (r.code = CtaProtoNum → 1 ≤ r.payload.length) ∧
      (r.code = CtaProtoSrcPort → 2 ≤ r.payload.length) ∧
      (r.code = CtaProtoDstPort → 2 ≤ r.payload.length)) (t : Tuple) :
    parseProtoBody r.view t = Step.next
      (if r.code = CtaProtoNum then { t with Proto := firstByte r.payload }
        else if r.code = CtaProtoSrcPort then { t with SrcPort := bigEndian16 r.payload }
        else if r.code = CtaProtoDstPort then { t with DstPort := bigEndian16 r.payload }
        else t) := by
  have hT : r.view.Typ = r.code := rfl
  have hM : r.view.Msg.elems = r.payload := rfl
  obtain ⟨h1, h2, h3⟩ := hs
  simp only [parseProtoBody, hT, hM, Slice.beUint16]
  by_cases c1 : r.code = CtaProtoNum
  · have := h1 c1
    rw [if_pos c1, if_pos c1]
    match hp : r.payload, this with
    | m0 :: _, _ => simp [firstByte]
  · rw [if_neg c1, if_neg c1]
    by_cases c2 : r.code = CtaProtoSrcPort
    · have := h2 c2
      rw [if_pos c2, if_pos c2]
      match hp : r.payload, this with
      | m0 :: m1 :: _, _ => simp [bigEndian16]
    · rw [if_neg c2, if_neg c2]
      by_cases c3 : r.code = CtaProtoDstPort
      · have := h3 c3
        rw [if_pos c3, if_pos c3]
        match hp : r.payload, this with
        | m0 :: m1 :: _, _ => simp [bigEndian16]
      · rw [if_neg c3, if_neg c3]

theorem runBody_parseProtoBody :
    ∀ (rs : List Rec), ProtoSized rs → ∀ (t : Tuple),
      runBody parseProtoBody (rs.map Rec.view) t = Run.ret none (protoResult rs t) := by
  intro rs
  induction rs with
  | nil => intro _ t; rfl
  | cons r rest ih =>
    intro hs t
    have hr := hs r (List.mem_cons_self _ _)
    have hrest : ProtoSized rest := fun q hq => hs q (List.mem_cons_of_mem _ hq)
    simp only [List.map_cons, runBody, parseProtoBody_view r hr t]
    rw [ih hrest]
    have d12 : CtaProtoNum ≠ CtaProtoSrcPort := by decide
    have d13 : CtaProtoNum ≠ CtaProtoDstPort := by decide
    have d23 : CtaProtoSrcPort ≠ CtaProtoDstPort := by decide
    by_cases c1 : r.code = CtaProtoNum
    · have c2 : ¬ r.code = CtaProtoSrcPort := by rw [c1]; exact d12
      have c3 : ¬ r.code = CtaProtoDstPort := by rw [c1]; exact d13
      simp only [protoResult, lastRec, if_pos c1, if_neg c2, if_neg c3]
      cases lastRec CtaProtoNum rest <;> cases lastRec CtaProtoSrcPort rest <;>
        cases lastRec CtaProtoDstPort rest <;> rfl
    · by_cases c2 : r.code = CtaProtoSrcPort
      · have c3 : ¬ r.code = CtaProtoDstPort := by rw [c2]; exact d23
        simp only [protoResult, lastRec, if_neg c1, if_pos c2, if_neg c3]
        cases lastRec CtaProtoNum rest <;> cases lastRec CtaProtoSrcPort rest <;>
          cases lastRec CtaProtoDstPort rest <;> rfl
      · by_cases c3 : r.code = CtaProtoDstPort
        · simp only [protoResult, lastRec, if_neg c1, if_neg c2, if_pos c3]
          cases lastRec CtaProtoNum rest <;> cases lastRec CtaProtoSrcPort rest <;>
            cases lastRec CtaProtoDstPort rest <;> rfl
        · simp only [protoResult, lastRec, if_neg c1, if_neg c2, if_neg c3]
          cases lastRec CtaProtoNum rest <;> cases lastRec CtaProtoSrcPort rest <;>
            cases lastRec CtaProtoDstPort rest <;> rfl

theorem parseProto_sized (rs : List Rec) (hwf : ∀ r ∈ rs, r.WF) (hk : rs.length ≤ 20)
    (hs : ProtoSized rs) (sp : List Byte) (t : Tuple) :
    parseProto ⟨encodeRecs rs, sp⟩ t = Run.ret none (protoResult rs t) := by
  have h := decodeGroup_encodeRecs wrapTupleErr parseProtoBody parseProtoBody_strip rs hwf hk
    [] sp (by simp) t
  simp only [List.append_nil, if_true] at h
  rw [parseProto_eq, h, runBody_parseProtoBody rs hs t]

theorem parseProtoBody_addr (a : Attr) (t : Tuple) :
    (∀ t1, parseProtoBody a t = Step.next t1 → t1.Src = t.Src ∧ t1.Dst = t.Dst) ∧
      (∀ e t1, parseProtoBody a t ≠ Step.stop e t1) := by
  unfold parseProtoBody
  split_ifs
  · split <;> simp
  · split <;> simp
  · split <;> simp
  · simp

theorem forRange_parseProtoBody_addr (idx : Nat) :
    ∀ (attrs : List Attr) (i : Nat) (t : Tuple) (e : Option String) (t' : Tuple),
      forRange idx parseProtoBody i attrs t = Run.ret e t' →
        t'.Src = t.Src ∧ t'.Dst = t.Dst := by
  intro attrs
  induction attrs with
  | nil =>
    intro i t e t' h
    simp only [forRange, Run.ret.injEq] at h
    obtain ⟨_, rfl⟩ := h
    exact ⟨rfl, rfl⟩
  | cons a rest ih =>
    intro i t e t' h
    simp only [forRange] at h
    split at h
    · simp only [Run.ret.injEq] at h
      obtain ⟨_, rfl⟩ := h
      exact ⟨rfl, rfl⟩
    · cases hb : parseProtoBody a t with
      | next t1 =>
        rw [hb] at h
        obtain ⟨h1, h2⟩ := ih (i + 1) t1 e t' h
        obtain ⟨h3, h4⟩ := (parseProtoBody_addr a t).1 t1 hb
        exact ⟨h1.trans h3, h2.trans h4⟩
      | stop err t1 => exact absurd hb ((parseProtoBody_addr a t).2 err t1)
      | panic => rw [hb] at h; simp at h
      | nofuel => rw [hb] at h; simp at h

theorem parseProto_addr (b : Slice) (t : Tuple) (e : Option String) (t' : Tuple)
    (h : parseProto b t = Run.ret e t') : t'.Src = t.Src ∧ t'.Dst = t.Dst := by
  unfold parseProto at h
  cases hp : parseAttrs b (makeAttrs 20) with
  | ret r attrs =>
    obtain ⟨idx, err⟩ := r
    rw [hp] at h
    cases err with
    | some msg =>
      simp only [Run.ret.injEq] at h
      obtain ⟨_, rfl⟩ := h
      exact ⟨rfl, rfl⟩
    | none => exact forRange_parseProtoBody_addr idx attrs 0 t e t' h
  | panic => rw [hp] at h; simp at h
  | nofuel => rw [hp] at h; simp at h

/-- C8: on a protocol sub-group of at most 20 well-formed attributes whose protocol-number
payloads have at least 1 byte and whose port payloads at least 2, `parseProto` returns
without error and leaves `Proto` the first payload byte (below 256) of the last
protocol-number attribute, `SrcPort` and `DstPort` the big-endian value `256 * p[0] + p[1]`
of the last source-port and destination-port payloads, each unchanged when the group has no
attribute of that type, and `Src` and `Dst` unchanged; on any buffer at all, a call of
`parseProto` that returns leaves `Src` and `Dst` as they were. -/
theorem parseProto_fields (rs : List Rec) (hwf : ∀ r ∈ rs, r.WF) (hk : rs.length ≤ 20)
    (hs : ProtoSized rs) (sp : List Byte) (t : Tuple) :
    parseProto ⟨encodeRecs rs, sp⟩ t = Run.ret none (protoResult rs t) ∧
    (protoResult rs t).Src = t.Src ∧ (protoResult rs t).Dst = t.Dst ∧
    (∀ r, lastRec CtaProtoNum rs = some r →
      (protoResult rs t).Proto = (r.payload.getD 0 0).val ∧ (protoResult rs t).Proto < 256) ∧
    (lastRec CtaProtoNum rs = none → (protoResult rs t).Proto = t.Proto) ∧
    (∀ r, lastRec CtaProtoSrcPort rs = some r →
      (protoResult rs t).SrcPort = 256 * (r.payload.getD 0 0).val + (r.payload.getD 1 0).val) ∧
    (lastRec CtaProtoSrcPort rs = none → (protoResult rs t).SrcPort = t.SrcPort) ∧
    (∀ r, lastRec CtaProtoDstPort rs = some r →
      (protoResult rs t).DstPort = 256 * (r.payload.getD 0 0).val + (r.payload.getD 1 0).val) ∧
    (lastRec CtaProtoDstPort rs = none → (protoResult rs t).DstPort = t.DstPort) ∧
    (∀ (b : Slice) (t0 : Tuple) (e : Option String) (t1 : Tuple),
      parseProto b t0 = Run.ret e t1 → t1.Src = t0.Src ∧ t1.Dst = t0.Dst) := by
  refine ⟨parseProto_sized rs hwf hk hs sp t, rfl, rfl, ?_, ?_, ?_, ?_, ?_, ?_, parseProto_addr⟩
  · intro r h
    simp only [protoResult, h]
    exact ⟨rfl, (r.payload.getD 0 0).isLt⟩
  · intro h; simp only [protoResult, h]
  · intro r h; simp only [protoResult, h]; rfl
  · intro h; simp only [protoResult, h]
  · intro r h; simp only [protoResult, h]; rfl
  · intro h; simp only [protoResult, h]

theorem parseProto_fields_witness :
    (∀ r ∈ sampleProtoRecs, r.WF) ∧ sampleProtoRecs.length ≤ 20 ∧ ProtoSized sampleProtoRecs ∧
    parseProto ⟨encodeRecs sampleProtoRecs, []⟩ zeroTuple =
      Run.ret none ⟨[], 40000, [], 443, 6⟩ :=
  ⟨by decide, by decide, by decide,
    (parseProto_fields sampleProtoRecs (by decide) (by decide) (by decide) [] zeroTuple).1⟩

/-! ## Unsupported address family -/

theorem runBody_total {σ : Type} (body : Attr → σ → Step σ) (msg : String) :
    ∀ (attrs : List Attr),
      (∀ a ∈ attrs, ∀ s, (∃ s', body a s = Step.next s') ∨
        (∃ s', body a s = Step.stop (some msg) s')) →
      ∀ s, ∃ e s', runBody body attrs s = Run.ret e s' ∧ (e = none ∨ e = some msg) := by
  intro attrs
  induction attrs with
  | nil => intro _ s; exact ⟨none, s, rfl, Or.inl rfl⟩
  | cons a rest ih =>
    intro h s
    rcases h a (List.mem_cons_self _ _) s with ⟨s', hs⟩ | ⟨s', hs⟩
    · simp only [runBody, hs]
      exact ih (fun b hb => h b (List.mem_cons_of_mem _ hb)) s'
    · exact ⟨some msg, s', by simp only [runBody, hs], Or.inr rfl⟩

theorem runBody_stops {σ : Type} (body : Attr → σ → Step σ) (msg : String) :
    ∀ (attrs : List Attr),
      (∀ a ∈ attrs, ∀ s, (∃ s', body a s = Step.next s') ∨
        (∃ s', body a s = Step.stop (some msg) s')) →
      (∃ a ∈ attrs, ∀ s, ∃ s', body a s = Step.stop (some msg) s') →
      ∀ s, ∃ s', runBody body attrs s = Run.ret (some msg) s' := by
  intro attrs
  induction attrs with
  | nil => intro _ h; obtain ⟨a, ha, _⟩ := h; simp at ha
  | cons a rest ih =>
    intro h hex s
    rcases h a (List.mem_cons_self _ _) s with ⟨s', hs⟩ | ⟨s', hs⟩
    · obtain ⟨x, hx, hxs⟩ := hex
      rcases List.mem_cons.mp hx with rfl | hx
      · obtain ⟨s2, h2⟩ := hxs s
        rw [hs] at h2
        simp at h2
      · simp only [runBody, hs]
        exact ih (fun b hb => h b (List.mem_cons_of_mem _ hb)) ⟨x, hx, hxs⟩ s'
    · exact ⟨s', by simp only [runBody, hs]⟩

theorem parseIPBody_view_cases (r : Rec) (t : Tuple) :
    (∃ t', parseIPBody r.view t = Step.next t') ∨
      (∃ t', parseIPBody r.view t = Step.stop (some "Not supported") t') := by
  unfold parseIPBody
  split
  · exact Or.inl ⟨_, rfl⟩
  · split
    · exact Or.inl ⟨_, rfl⟩
    · split
      · exact Or.inr ⟨_, rfl⟩
      · split
        · exact Or.inr ⟨_, rfl⟩
        · exact Or.inl ⟨_, rfl⟩

theorem parseIPBody_view_v6 (r : Rec) (h : r.isV6) (t : Tuple) :
    ∃ t', parseIPBody r.view t = Step.stop (some "Not supported") t' := by
  have hT : r.view.Typ = r.code := rfl
  have d1 : ¬ CtaIpV6Src = CtaIpV4Src := by decide
  have d2 : ¬ CtaIpV6Src = CtaIpV4Dst := by decide
  have d3 : ¬ CtaIpV6Dst = CtaIpV4Src := by decide
  have d4 : ¬ CtaIpV6Dst = CtaIpV4Dst := by decide
  have d5 : ¬ CtaIpV6Dst = CtaIpV6Src := by decide
  rcases h with h | h
  · refine ⟨t, ?_⟩
    simp only [parseIPBody, hT, h, if_neg d1, if_neg d2, if_true]
  · refine ⟨t, ?_⟩
    simp only [parseIPBody, hT, h, if_neg d3, if_neg d4, if_neg d5, if_true]

theorem parseIP_framed (b : List Byte) (irs : List Rec) (hf : Framed b irs) (sp : List Byte)
    (t : Tuple) : parseIP ⟨b, sp⟩ t = runBody parseIPBody (irs.map Rec.view) t := by
  obtain ⟨hwf, hk, rfl⟩ := hf
  have h := decodeGroup_encodeRecs wrapTupleErr parseIPBody parseIPBody_strip irs hwf hk
    [] sp (by simp) t
  simp only [List.append_nil, if_true] at h
  rw [parseIP_eq, h]

theorem parseIP_framed_cases (b : List Byte) (irs : List Rec) (hf : Framed b irs)
    (sp : List Byte) (t : Tuple) :
    ∃ e t', parseIP ⟨b, sp⟩ t = Run.ret e t' ∧ (e = none ∨ e = some "Not supported") := by
  rw [parseIP_framed b irs hf sp t]
  apply runBody_total
  intro a ha s
  obtain ⟨r, _, rfl⟩ := List.mem_map.mp ha
  exact parseIPBody_view_cases r s

/-- An IP sub-group that is well framed and contains a v6 address attribute makes `parseIP`
return the error `Not supported`. -/
theorem parseIP_v6 (b : List Byte) (irs : List Rec) (hf : Framed b irs)
    (hv : ∃ a ∈ irs, a.isV6) (sp : List Byte) (t : Tuple) :
    ∃ t', parseIP ⟨b, sp⟩ t = Run.ret (some "Not supported") t' := by
  rw [parseIP_framed b irs hf sp t]
  apply runBody_stops
  · intro a ha s
    obtain ⟨r, _, rfl⟩ := List.mem_map.mp ha
    exact parseIPBody_view_cases r s
  · obtain ⟨a, ha, hv6⟩ := hv
    exact ⟨a.view, List.mem_map.mpr ⟨a, ha, rfl⟩, fun s => parseIPBody_view_v6 a hv6 s⟩

theorem parseTupleBody_view_ip (r : Rec) (hc : r.code = CtaTupleIp) (t : Tuple) :
    parseTupleBody r.view t =
      match parseIP ⟨r.payload, []⟩ t with
      | Run.ret none t' => Step.next t'
      | Run.ret (some e) t' => Step.stop (some e) t'
      | Run.panic => Step.panic
      | Run.nofuel => Step.nofuel := by
  have hT : r.view.Typ = r.code := rfl
  have hM : r.view.Msg = ⟨r.payload, []⟩ := rfl
  have d : ¬ CtaTupleIp = CtaTupleUnspec := by decide
  simp only [parseTupleBody, hT, hM, hc, if_neg d, if_true]

theorem parseTupleBody_view_proto (r : Rec) (hc : r.code = CtaTupleProto) (t : Tuple) :
    parseTupleBody r.view t =
      match parseProto ⟨r.payload, []⟩ t with
      | Run.ret _ t' => Step.next t'
      | Run.panic => Step.panic
      | Run.nofuel => Step.nofuel := by
  have hT : r.view.Typ = r.code := rfl
  have hM : r.view.Msg = ⟨r.payload, []⟩ := rfl
  have d1 : ¬ CtaTupleProto = CtaTupleUnspec := by decide
  have d2 : ¬ CtaTupleProto = CtaTupleIp := by decide
  simp only [parseTupleBody, hT, hM, hc, if_neg d1, if_neg d2, if_true]

theorem parseTupleBody_view_cases (r : Rec)
    (hf : (r.code = CtaTupleIp → ∃ irs, Framed r.payload irs) ∧
      (r.code = CtaTupleProto → ∃ prs, Framed r.payload prs))
    (hs : r.code = CtaTupleProto → ∀ prs, Framed r.payload prs → ProtoSized prs) (t : Tuple) :
    (∃ t', parseTupleBody r.view t = Step.next t') ∨
      (∃ t', parseTupleBody r.view t = Step.stop (some "Not supported") t') := by
  by_cases c1 : r.code = CtaTupleIp
  · obtain ⟨irs, hirs⟩ := hf.1 c1
    obtain ⟨e, t', he, hcase⟩ := parseIP_framed_cases r.payload irs hirs [] t
    rw [parseTupleBody_view_ip r c1, he]
    rcases hcase with rfl | rfl
    · exact Or.inl ⟨t', rfl⟩
    · exact Or.inr ⟨t', rfl⟩
  · by_cases c2 : r.code = CtaTupleProto
    · obtain ⟨prs, hprs⟩ := hf.2 c2
      have hsz := hs c2 prs hprs
      obtain ⟨hwf, hk, hb⟩ := hprs
      have h := parseProto_sized prs hwf hk hsz [] t
      rw [← hb] at h
      rw [parseTupleBody_view_proto r c2, h]
      exact Or.inl ⟨_, rfl⟩
    · have h : r.code ∉ handledTuple := by
        simp only [handledTuple, List.mem_cons, List.mem_singleton, List.not_mem_nil, or_false,
          not_or]
        exact ⟨c1, c2⟩
      exact Or.inl ⟨t, parseTupleBody_skip r h t⟩

theorem parseTupleBody_view_v6 (r : Rec) (hc : r.code = CtaTupleIp) (irs : List Rec)
    (hf : Framed r.payload irs) (hv : ∃ a ∈ irs, a.isV6) (t : Tuple) :
    ∃ t', parseTupleBody r.view t = Step.stop (some "Not supported") t' := by
  obtain ⟨t', h⟩ := parseIP_v6 r.payload irs hf hv [] t
  exact ⟨t', by rw [parseTupleBody_view_ip r hc, h]⟩

theorem parseTuple_framed (b : List Byte) (trs : List Rec) (hf : Framed b trs)
    (sp : List Byte) (t : Tuple) :
    parseTuple ⟨b, sp⟩ t = runBody parseTupleBody (trs.map Rec.view) t := by
  obtain ⟨hwf, hk, rfl⟩ := hf
  have h := decodeGroup_encodeRecs wrapTupleErr parseTupleBody parseTupleBody_strip trs hwf hk
    [] sp (by simp) t
  simp only [List.append_nil, if_true] at h
  rw [parseTuple_eq, h]

theorem parseTuple_framed_cases (b : List Byte) (trs : List Rec) (hf : Framed b trs)
    (hg : TupleGroupFramed trs) (hs : TupleGroupSized trs) (sp : List Byte) (t : Tuple) :
    ∃ e t', parseTuple ⟨b, sp⟩ t = Run.ret e t' ∧ (e = none ∨ e = some "Not supported") := by
  rw [parseTuple_framed b trs hf sp t]
  apply runBody_total
  intro a ha s
  obtain ⟨r, hr, rfl⟩ := List.mem_map.mp ha
  exact parseTupleBody_view_cases r (hg r hr) (hs r hr) s

/-- A tuple group that is well framed down to its sub-groups, has protocol payloads of
sufficient length and an IP sub-group with a v6 address makes `parseTuple` return the error
of `parseIP`, `Not supported`, as it is. -/
theorem parseTuple_v6 (b : List Byte) (trs : List Rec) (hf : Framed b trs)
    (hg : TupleGroupFramed trs) (hs : TupleGroupSized trs) (hv : TupleGroupHasV6 trs)
    (sp : List Byte) (t : Tuple) :
    ∃ t', parseTuple ⟨b, sp⟩ t = Run.ret (some "Not supported") t' := by
  rw [parseTuple_framed b trs hf sp t]
  apply runBody_stops
  · intro a ha s
    obtain ⟨r, hr, rfl⟩ := List.mem_map.mp ha
    exact parseTupleBody_view_cases r (hg r hr) (hs r hr) s
  · obtain ⟨r, hr, hc, irs, hirs, hv6⟩ := hv
    exact ⟨r.view, List.mem_map.mpr ⟨r, hr, rfl⟩,
      fun s => parseTupleBody_view_v6 r hc irs hirs hv6 s⟩

theorem parsePayloadBody_view_orig (r : Rec) (hc : r.code = CtaTupleOrig) (c : Conn) :
    parsePayloadBody r.view c =
      match parseTuple ⟨r.payload, []⟩ c.Orig with
      | Run.ret none t' => Step.next { c with Orig := t' }
      | Run.ret (some e) t' => Step.stop (some e) { c with Orig := t' }
      | Run.panic => Step.panic
      | Run.nofuel => Step.nofuel := by
  have hT : r.view.Typ = r.code := rfl
  have hM : r.view.Msg = ⟨r.payload, []⟩ := rfl
  simp only [parsePayloadBody, hT, hM, hc, if_true]

theorem parsePayloadBody_view_reply (r : Rec) (hc : r.code = CtaTupleReply) (c : Conn) :
    parsePayloadBody r.view c =
      match parseTuple ⟨r.payload, []⟩ c.Reply with
      | Run.ret none t' => Step.next { c with Reply := t' }
      | Run.ret (some e) t' => Step.stop (some e) { c with Reply := t' }
      | Run.panic => Step.panic
      | Run.nofuel => Step.nofuel := by
  have hT : r.view.Typ = r.code := rfl
  have hM : r.view.Msg = ⟨r.payload, []⟩ := rfl
  have d : ¬ CtaTupleReply = CtaTupleOrig := by decide
  simp only [parsePayloadBody, hT, hM, hc, if_neg d, if_true]

theorem parsePayloadBody_view_cases (r : Rec)
    (hf : r.isTuple → ∃ trs, Framed r.payload trs ∧ TupleGroupFramed trs)
    (hs : r.isTuple → ∀ trs, Framed r.payload trs → TupleGroupSized trs) (c : Conn) :
    (∃ c', parsePayloadBody r.view c = Step.next c') ∨
      (∃ c', parsePayloadBody r.view c = Step.stop (some "Not supported") c') := by
  by_cases c1 : r.code = CtaTupleOrig
  · obtain ⟨trs, htrs, hg⟩ := hf (Or.inl c1)
    obtain ⟨e, t', he, hcase⟩ :=
      parseTuple_framed_cases r.payload trs htrs hg (hs (Or.inl c1) trs htrs) [] c.Orig
    rw [parsePayloadBody_view_orig r c1, he]
    rcases hcase with rfl | rfl
    · exact Or.inl ⟨_, rfl⟩
    · exact Or.inr ⟨_, rfl⟩
  · by_cases c2 : r.code = CtaTupleReply
    · obtain ⟨trs, htrs, hg⟩ := hf (Or.inr c2)
      obtain ⟨e, t', he, hcase⟩ :=
        parseTuple_framed_cases r.payload trs htrs hg (hs (Or.inr c2) trs htrs) [] c.Reply
      rw [parsePayloadBody_view_reply r c2, he]
      rcases hcase with rfl | rfl
      · exact Or.inl ⟨_, rfl⟩
      · exact Or.inr ⟨_, rfl⟩
    · have h : r.code ∉ handledPayload := by
        simp only [handledPayload, List.mem_cons, List.mem_singleton, List.not_mem_nil,
          or_false, not_or]
        exact ⟨c1, c2⟩
      exact Or.inl ⟨c, parsePayloadBody_skip r h c⟩

theorem parsePayloadBody_view_v6 (r : Rec) (hc : r.isTuple) (trs : List Rec)
    (hf : Framed r.payload trs) (hg : TupleGroupFramed trs) (hs : TupleGroupSized trs)
    (hv : TupleGroupHasV6 trs) (c : Conn) :
    ∃ c', parsePayloadBody r.view c = Step.stop (some "Not supported") c' := by
  rcases hc with hc | hc
  · obtain ⟨t', h⟩ := parseTuple_v6 r.payload trs hf hg hs hv [] c.Orig
    exact ⟨_, by rw [parsePayloadBody_view_orig r hc, h]⟩
  · obtain ⟨t', h⟩ := parseTuple_v6 r.payload trs hf hg hs hv [] c.Reply
    exact ⟨_, by rw [parsePayloadBody_view_reply r hc, h]⟩

theorem parsePayload_framed (b : List Byte) (top : List Rec) (hf : Framed b top)
    (sp : List Byte) (c : Conn) :
    parsePayload ⟨b, sp⟩ c = runBody parsePayloadBody (top.map Rec.view) c := by
  obtain ⟨hwf, hk, rfl⟩ := hf
  have h := decodeGroup_encodeRecs id parsePayloadBody parsePayloadBody_strip top hwf hk
    [] sp (by simp) c
  simp only [List.append_nil, if_true] at h
  rw [parsePayload_eq, h]

/-- The framing of a group is unambiguous: two lists of well-formed records with the same
bytes are equal. -/
theorem encodeRecs_injective :
    ∀ (rs rs' : List Rec), (∀ r ∈ rs, r.WF) → (∀ r ∈ rs', r.WF) →
      encodeRecs rs = encodeRecs rs' → rs = rs' := by
  intro rs
  induction rs with
  | nil =>
    intro rs' _ _ h
    have hl := encodeRecs_length_ge rs'
    rw [← h] at hl
    cases rs' with
    | nil => rfl
    | cons a l => simp [encodeRecs] at hl
  | cons r rs ih =>
    intro rs' hwf hwf' h
    cases rs' with
    | nil =>
      have hl := encodeRecs_length_ge (r :: rs)
      rw [h] at hl
      simp [encodeRecs] at hl
    | cons r' rs' =>
      have hr := hwf r (List.mem_cons_self _ _)
      have hr' := hwf' r' (List.mem_cons_self _ _)
      have p1 := parseAttr_bytes r hr (encodeRecs rs) []
      have p2 := parseAttr_bytes r' hr' (encodeRecs rs') []
      simp only [encodeRecs] at h
      rw [h, p2] at p1
      simp only [Option.some.injEq, Prod.mk.injEq, true_and, Slice.mk.injEq, and_true] at p1
      obtain ⟨hrest, hattr⟩ := p1
      have htyp : r'.typ = r.typ := by
        have := congrArg Attr.typeWord hattr
        rwa [Rec.attr_typeWord r' hr'.1, Rec.attr_typeWord r hr.1] at this
      have hpay : r'.payload = r.payload := congrArg (fun a => a.Msg.elems) hattr
      have hsp : r'.pad ++ (encodeRecs rs' ++ []) = r.pad ++ (encodeRecs rs ++ []) :=
        congrArg (fun a => a.Msg.spare) hattr
      rw [hrest] at hsp
      have hpad : r'.pad = r.pad := List.append_cancel_right hsp
      have hrr : r = r' := by
        cases r; cases r'
        simp only [Rec.mk.injEq]
        exact ⟨htyp.symm, hpay.symm, hpad.symm⟩
      have hrs := ih rs' (fun q hq => hwf q (List.mem_cons_of_mem _ hq))
        (fun q hq => hwf' q (List.mem_cons_of_mem _ hq)) hrest.symm
      rw [hrr, hrs]

theorem Framed.unique {b : List Byte} {rs rs' : List Rec} (h : Framed b rs)
    (h' : Framed b rs') : rs = rs' :=
  encodeRecs_injective rs rs' h.1 h'.1 (h.2.2.symm.trans h'.2.2)

/-- C5, counterexample: a payload that is well framed at every level and whose original
tuple has an IP sub-group with a v6 source address, but whose protocol sub-group, decoded
first, holds a protocol-number attribute with an empty payload: `parsePayload` panics at
`attr.Msg[0]` in `parseProto` and returns no error at all. -/
theorem v6_after_empty_proto_counterexample :
    Framed (encodeRecs emptyProtoV6Recs) emptyProtoV6Recs ∧ PayloadFramed emptyProtoV6Recs ∧
    PayloadHasV6 emptyProtoV6Recs ∧
    parsePayload ⟨encodeRecs emptyProtoV6Recs, []⟩ zeroConn = Run.panic := by
  have hwfIP : Framed (encodeRecs v6IPRecs) v6IPRecs := ⟨by decide, by decide, rfl⟩
  have hwfT : Framed (encodeRecs emptyProtoV6TupleRecs) emptyProtoV6TupleRecs :=
    ⟨by decide, by decide, rfl⟩
  have hT : TupleGroupFramed emptyProtoV6TupleRecs := by
    intro r hr
    simp only [emptyProtoV6TupleRecs, List.mem_cons, List.mem_singleton, List.not_mem_nil,
      or_false] at hr
    rcases hr with rfl | rfl
    · exact ⟨fun h => absurd h (by decide),
        fun _ => ⟨[⟨1, [], []⟩], by decide, by decide, rfl⟩⟩
    · exact ⟨fun _ => ⟨v6IPRecs, hwfIP⟩, fun h => absurd h (by decide)⟩
  refine ⟨⟨by decide, by decide, rfl⟩, ?_, ?_, by decide⟩
  · intro r hr _
    simp only [emptyProtoV6Recs, List.mem_singleton] at hr
    subst hr
    exact ⟨emptyProtoV6TupleRecs, hwfT, hT⟩
  · refine ⟨_, List.mem_singleton.mpr rfl, Or.inl (by decide), emptyProtoV6TupleRecs, hwfT, ?_⟩
    exact ⟨⟨32768 + 1, encodeRecs v6IPRecs, []⟩, by simp [emptyProtoV6TupleRecs], by decide,
      v6IPRecs, hwfIP, ⟨_, List.mem_singleton.mpr rfl, Or.inl (by decide)⟩⟩

/-- C5, amended: for a message payload that is well framed at every nesting level (at most
20 attributes per group), whose protocol-number attributes have at least 1 payload byte and
whose port attributes at least 2, and in which the original-tuple or reply-tuple attribute
has an IP sub-group containing a v6 source or destination address attribute, `parsePayload`
returns an error whose message is exactly `Not supported`, the error made by `parseIP`;
the loop bodies of `parseTuple` and `parsePayload` return the error of `parseIP` and of
`parseTuple` as it is, without wrapping it. -/
theorem v6_not_supported (b : List Byte) (top : List Rec) (hf : Framed b top)
    (hg : PayloadFramed top) (hs : PayloadSized top) (hv : PayloadHasV6 top)
    (sp : List Byte) (conn : Conn) :
    (∃ conn', parsePayload ⟨b, sp⟩ conn = Run.ret (some "Not supported") conn') ∧
    (∀ (a : Attr) (t : Tuple) (e : String) (t' : Tuple), a.Typ = CtaTupleIp →
      parseIP a.Msg t = Run.ret (some e) t' → parseTupleBody a t = Step.stop (some e) t') ∧
    (∀ (a : Attr) (c : Conn) (e : String) (t' : Tuple), a.Typ = CtaTupleOrig →
      parseTuple a.Msg c.Orig = Run.ret (some e) t' →
      parsePayloadBody a c = Step.stop (some e) { c with Orig := t' }) ∧
    (∀ (a : Attr) (c : Conn) (e : String) (t' : Tuple), a.Typ = CtaTupleReply →
      parseTuple a.Msg c.Reply = Run.ret (some e) t' →
      parsePayloadBody a c = Step.stop (some e) { c with Reply := t' }) := by
  refine ⟨?_, ?_, ?_, ?_⟩
  rotate_left
  · intro a t e t' ha h
    have d : ¬ CtaTupleIp = CtaTupleUnspec := by decide
    simp only [parseTupleBody, ha, if_neg d, if_true, h]
  · intro a c e t' ha h
    simp only [parsePayloadBody, ha, if_true, h]
  · intro a c e t' ha h
    have d : ¬ CtaTupleReply = CtaTupleOrig := by decide
    simp only [parsePayloadBody, ha, if_neg d, if_true, h]
  rw [parsePayload_framed b top hf sp conn]
  apply runBody_stops
  · intro a ha s
    obtain ⟨r, hr, rfl⟩ := List.mem_map.mp ha
    exact parsePayloadBody_view_cases r (hg r hr) (hs r hr) s
  · obtain ⟨r, hr, hc, trs, htrs, hv6⟩ := hv
    obtain ⟨trs2, htrs2, hg2⟩ := hg r hr hc
    refine ⟨r.view, List.mem_map.mpr ⟨r, hr, rfl⟩, fun s => ?_⟩
    have hgt : TupleGroupFramed trs := by
      have : trs2 = trs := Framed.unique htrs2 htrs
      exact this ▸ hg2
    exact parsePayloadBody_view_v6 r hc trs htrs hgt (hs r hr hc trs htrs) hv6 s

theorem v6_not_supported_witness :
    Framed (encodeRecs v6Recs) v6Recs ∧ PayloadFramed v6Recs ∧ PayloadSized v6Recs ∧
    PayloadHasV6 v6Recs ∧
    ∃ conn', parsePayload ⟨encodeRecs v6Recs, []⟩ zeroConn =
      Run.ret (some "Not supported") conn' := by
  have hwfIP : Framed (encodeRecs v6IPRecs) v6IPRecs := ⟨by decide, by decide, rfl⟩
  have hwfP : Framed (encodeRecs [(⟨1, [6], [0, 0, 0]⟩ : Rec)]) [⟨1, [6], [0, 0, 0]⟩] :=
    ⟨by decide, by decide, rfl⟩
  have hwfT : Framed (encodeRecs v6TupleRecs) v6TupleRecs := ⟨by decide, by decide, rfl⟩
  have hwf : Framed (encodeRecs v6Recs) v6Recs := ⟨by decide, by decide, rfl⟩
  have hT : TupleGroupFramed v6TupleRecs := by
    intro r hr
    simp only [v6TupleRecs, List.mem_cons, List.mem_singleton, List.not_mem_nil,
      or_false] at hr
    rcases hr with rfl | rfl
    · exact ⟨fun h => absurd h (by decide), fun _ => ⟨_, hwfP⟩⟩
    · exact ⟨fun _ => ⟨v6IPRecs, hwfIP⟩, fun h => absurd h (by decide)⟩
  have hS : TupleGroupSized v6TupleRecs := by
    intro r hr hc prs hprs
    simp only [v6TupleRecs, List.mem_cons, List.mem_singleton, List.not_mem_nil,
      or_false] at hr
    rcases hr with rfl | rfl
    · rw [← Framed.unique hwfP hprs]
      decide
    · exact absurd hc (by decide)
  have hg : PayloadFramed v6Recs := by
    intro r hr hc
    simp only [v6Recs, List.mem_cons, List.mem_singleton, List.not_mem_nil, or_false] at hr
    rcases hr with rfl | rfl
    · exact absurd hc (by decide)
    · exact ⟨v6TupleRecs, hwfT, hT⟩
  have hs : PayloadSized v6Recs := by
    intro r hr hc trs htrs
    simp only [v6Recs, List.mem_cons, List.mem_singleton, List.not_mem_nil, or_false] at hr
    rcases hr with rfl | rfl
    · exact absurd hc (by decide)
    · rw [← Framed.unique hwfT htrs]
      exact hS
  have hv : PayloadHasV6 v6Recs :=
    ⟨⟨32768 + 2, encodeRecs v6TupleRecs, []⟩, by simp [v6Recs], Or.inr (by decide),
      v6TupleRecs, hwfT, ⟨32768 + 1, encodeRecs v6IPRecs, []⟩, by simp [v6TupleRecs],
      by decide, v6IPRecs, hwfIP, ⟨_, List.mem_singleton.mpr rfl, Or.inl (by decide)⟩⟩
  exact ⟨hwf, hg, hs, hv,
    (v6_not_supported (encodeRecs v6Recs) v6Recs hwf hg hs hv [] zeroConn).1⟩

/-! ## Framing errors -/

theorem runBody_append {σ : Type} (body : Attr → σ → Step σ)
    (hns : ∀ a s s', body a s ≠ Step.stop none s') :
    ∀ (pre rest : List Attr) (s s1 : σ), runBody body pre s = Run.ret none s1 →
      runBody body (pre ++ rest) s = runBody body rest s1 := by
  intro pre
  induction pre with
  | nil =>
    intro rest s s1 h
    simp only [runBody, Run.ret.injEq, true_and] at h
    subst h
    rfl
  | cons a pre ih =>
    intro rest s s1 h
    simp only [runBody, List.cons_append] at h ⊢
    cases hb : body a s with
    | next s' =>
      rw [hb] at h
      exact ih rest s' s1 h
    | stop err s' =>
      rw [hb] at h
      simp only [Run.ret.injEq] at h
      obtain ⟨he, _⟩ := h
      subst he
      exact absurd hb (hns a s s')
    | panic => rw [hb] at h; simp at h
    | nofuel => rw [hb] at h; simp at h

theorem parsePayloadBody_ne_stop_none (a : Attr) (c c' : Conn) :
    parsePayloadBody a c ≠ Step.stop none c' := by
  unfold parsePayloadBody
  split_ifs
  · split <;> simp
  · split <;> simp
  all_goals simp

theorem parseTupleBody_ne_stop_none (a : Attr) (t t' : Tuple) :
    parseTupleBody a t ≠ Step.stop none t' := by
  unfold parseTupleBody
  split_ifs
  · simp
  · split <;> simp
  · split <;> simp
  · simp

theorem wrapTupleErr_leftover :
    wrapTupleErr "leftover attr bytes" = "invalid tuple attr: leftover attr bytes" := by
  decide

theorem parsePayload_leftover (b : List Byte) (rs : List Rec) (tail : List Byte)
    (h : Leftover b rs tail) (sp : List Byte) (c : Conn) :
    parsePayload ⟨b, sp⟩ c = Run.ret (some "leftover attr bytes") c := by
  obtain ⟨hwf, hk, h1, h3, rfl⟩ := h
  have hne : tail ≠ [] := by intro e; simp [e] at h1
  rw [parsePayload_eq, decodeGroup_encodeRecs id parsePayloadBody parsePayloadBody_strip rs hwf
    hk tail sp (by omega) c, if_neg hne]
  rfl

theorem parseTuple_leftover (b : List Byte) (rs : List Rec) (tail : List Byte)
    (h : Leftover b rs tail) (sp : List Byte) (t : Tuple) :
    parseTuple ⟨b, sp⟩ t = Run.ret (some "invalid tuple attr: leftover attr bytes") t := by
  obtain ⟨hwf, hk, h1, h3, rfl⟩ := h
  have hne : tail ≠ [] := by intro e; simp [e] at h1
  rw [parseTuple_eq, decodeGroup_encodeRecs wrapTupleErr parseTupleBody parseTupleBody_strip rs
    hwf hk tail sp (by omega) t, if_neg hne, wrapTupleErr_leftover]

theorem parseIP_leftover (b : List Byte) (rs : List Rec) (tail : List Byte)
    (h : Leftover b rs tail) (sp : List Byte) (t : Tuple) :
    parseIP ⟨b, sp⟩ t = Run.ret (some "invalid tuple attr: leftover attr bytes") t := by
  obtain ⟨hwf, hk, h1, h3, rfl⟩ := h
  have hne : tail ≠ [] := by intro e; simp [e] at h1
  rw [parseIP_eq, decodeGroup_encodeRecs wrapTupleErr parseIPBody parseIPBody_strip rs
    hwf hk tail sp (by omega) t, if_neg hne, wrapTupleErr_leftover]

theorem Framed.initial_framed {b : List Byte} {pre post : List Rec} {r : Rec}
    (h : Framed b (pre ++ r :: post)) : Framed (encodeRecs pre) pre := by
  obtain ⟨hwf, hk, _⟩ := h
  refine ⟨fun q hq => hwf q (List.mem_append_left _ hq), ?_, rfl⟩
  simp only [List.length_append, List.length_cons] at hk
  omega

/-- A top-level tuple attribute whose decoding by `parseTuple` fails with the error `e`,
reached after the attributes before it were decoded without error, makes `parsePayload`
return that error. -/
theorem parsePayload_tuple_error (b : List Byte) (pre post : List Rec) (r : Rec)
    (hf : Framed b (pre ++ r :: post)) (hr : r.isTuple) (conn conn1 : Conn)
    (hpre : parsePayload ⟨encodeRecs pre, []⟩ conn = Run.ret none conn1)
    (e : String) (t' : Tuple)
    (ht : parseTuple ⟨r.payload, []⟩ (conn1.side r) = Run.ret (some e) t') (sp : List Byte) :
    ∃ conn', parsePayload ⟨b, sp⟩ conn = Run.ret (some e) conn' := by
  rw [parsePayload_framed (encodeRecs pre) pre hf.initial_framed [] conn] at hpre
  rw [parsePayload_framed b _ hf sp conn, List.map_append,
    runBody_append parsePayloadBody parsePayloadBody_ne_stop_none _ _ conn conn1 hpre]
  simp only [List.map_cons, runBody]
  by_cases hc : r.code = CtaTupleOrig
  · simp only [Conn.side, if_pos hc] at ht
    rw [parsePayloadBody_view_orig r hc, ht]
    exact ⟨_, rfl⟩
  · have hc2 : r.code = CtaTupleReply := hr.resolve_left hc
    simp only [Conn.side, if_neg hc] at ht
    rw [parsePayloadBody_view_reply r hc2, ht]
    exact ⟨_, rfl⟩

/-- An IP sub-group whose decoding by `parseIP` fails with the error `e`, reached after the
attributes before it in the tuple group were decoded without error, makes `parseTuple`
return that error. -/
theorem parseTuple_ip_error (b : List Byte) (tpre tpost : List Rec) (q : Rec)
    (hf : Framed b (tpre ++ q :: tpost)) (hq : q.code = CtaTupleIp) (t t1 : Tuple)
    (hpre : parseTuple ⟨encodeRecs tpre, []⟩ t = Run.ret none t1)
    (e : String) (t' : Tuple) (hi : parseIP ⟨q.payload, []⟩ t1 = Run.ret (some e) t')
    (sp : List Byte) :
    parseTuple ⟨b, sp⟩ t = Run.ret (some e) t' := by
  rw [parseTuple_framed (encodeRecs tpre) tpre hf.initial_framed [] t] at hpre
  rw [parseTuple_framed b _ hf sp t, List.map_append,
    runBody_append parseTupleBody parseTupleBody_ne_stop_none _ _ t t1 hpre]
  simp only [List.map_cons, runBody]
  rw [parseTupleBody_view_ip q hq, hi]

/-- C6, counterexample: the original tuple has a v6 source address and the reply tuple's
group has leftover bytes; `parsePayload` returns at the original tuple with the error
`Not supported` and never reaches the corrupt group. -/
theorem corrupt_after_v6_counterexample :
    Framed (encodeRecs v6ThenCorruptRecs) v6ThenCorruptRecs ∧
    (∃ r ∈ v6ThenCorruptRecs, r.code = CtaTupleReply ∧ ∃ trs tail, Leftover r.payload trs tail) ∧
    ∃ conn', parsePayload ⟨encodeRecs v6ThenCorruptRecs, []⟩ zeroConn =
      Run.ret (some "Not supported") conn' := by
  refine ⟨⟨by decide, by decide, rfl⟩, ?_, ⟨⟨0, ⟨[], 0, [], 0, 6⟩, zeroTuple, ""⟩, by decide⟩⟩
  exact ⟨⟨32768 + 2, encodeRecs [⟨9, [], []⟩] ++ [0, 0], [0, 0]⟩, by simp [v6ThenCorruptRecs],
    by decide, [⟨9, [], []⟩], [0, 0], by decide, by decide, by decide, by decide, rfl⟩

/-- The error that `parseProto` returns for a protocol sub-group with leftover bytes is
discarded by `parseTuple`: on the payload `0c 00 01 80 05 00 02 80 01 00 00 00`
`parsePayload` returns no error. -/
theorem proto_leftover_discarded :
    Framed (encodeRecs corruptProtoRecs) corruptProtoRecs ∧
    encodeRecs corruptProtoRecs = [12, 0, 1, 128, 5, 0, 2, 128, 1, 0, 0, 0] ∧
    parseProto ⟨[1], []⟩ zeroTuple =
      Run.ret (some "invalid tuple attr: leftover attr bytes") zeroTuple ∧
    parsePayload ⟨encodeRecs corruptProtoRecs, []⟩ zeroConn = Run.ret none zeroConn := by
  refine ⟨⟨by decide, by decide, rfl⟩, by decide, by decide, by decide⟩

/-- C6, amended: when the decoding of a message payload reaches leftover bytes in the
top-level attribute stream, in a tuple group or in an IP sub-group (every attribute decoded
before that group being decoded without error), `parsePayload` returns a non-nil error
whose message is `leftover attr bytes` or `invalid tuple attr: leftover attr bytes`, not
`Not supported`. -/
theorem framing_error_fatal (b : List Byte) (conn : Conn) (h : ReachesLeftover b conn)
    (sp : List Byte) :
    ∃ e conn', parsePayload ⟨b, sp⟩ conn = Run.ret (some e) conn' ∧ e ≠ "Not supported" ∧
      (e = "leftover attr bytes" ∨ e = "invalid tuple attr: leftover attr bytes") := by
  rcases h with ⟨rs, tail, hl⟩ | ⟨pre, r, post, conn1, trs, tail, hf, hr, hpre, hl⟩ |
    ⟨pre, r, post, conn1, tpre, q, tpost, t1, irs, tail, hf, hr, hpre, hft, hq, htpre, hl⟩
  · exact ⟨_, conn, parsePayload_leftover b rs tail hl sp conn, by decide, Or.inl rfl⟩
  · obtain ⟨conn', hc⟩ := parsePayload_tuple_error b pre post r hf hr conn conn1 hpre _ _
      (parseTuple_leftover r.payload trs tail hl [] (conn1.side r)) sp
    exact ⟨_, conn', hc, by decide, Or.inr rfl⟩
  · have hi := parseIP_leftover q.payload irs tail hl [] t1
    have ht := parseTuple_ip_error r.payload tpre tpost q hft hq (conn1.side r) t1 htpre _ _ hi []
    obtain ⟨conn', hc⟩ := parsePayload_tuple_error b pre post r hf hr conn conn1 hpre _ _ ht sp
    exact ⟨_, conn', hc, by decide, Or.inr rfl⟩

theorem framing_error_fatal_witness :
    ReachesLeftover (encodeRecs corruptIPRecs) zeroConn ∧
    ∃ e conn', parsePayload ⟨encodeRecs corruptIPRecs, []⟩ zeroConn = Run.ret (some e) conn' ∧
      e ≠ "Not supported" ∧
      (e = "leftover attr bytes" ∨ e = "invalid tuple attr: leftover attr bytes") := by
  have h : ReachesLeftover (encodeRecs corruptIPRecs) zeroConn := by
    refine Or.inr (Or.inr ⟨[⟨32768 + 1, encodeRecs sampleTupleRecs, []⟩],
      ⟨32768 + 2, encodeRecs [⟨32768 + 1, encodeRecs [⟨1, [10, 0, 0, 5], []⟩] ++ [7, 7, 7],
        [0]⟩], []⟩, [],
      ⟨0, ⟨[10, 0, 0, 5], 40000, [93, 184, 216, 34], 443, 6⟩, zeroTuple, ""⟩,
      [], ⟨32768 + 1, encodeRecs [⟨1, [10, 0, 0, 5], []⟩] ++ [7, 7, 7], [0]⟩, [], zeroTuple,
      [⟨1, [10, 0, 0, 5], []⟩], [7, 7, 7], ?_, ?_, ?_, ?_, ?_, ?_, ?_⟩)
    · exact ⟨by decide, by decide, rfl⟩
    · exact Or.inr (by decide)
    · decide
    · exact ⟨by decide, by decide, rfl⟩
    · decide
    · decide
    · exact ⟨by decide, by decide, by decide, by decide, rfl⟩
  exact ⟨h, framing_error_fatal (encodeRecs corruptIPRecs) zeroConn h []⟩

/-! ## The direction resolver -/

/-- C10: when `Reply.Src` and `Reply.Dst` are 4-byte addresses and the local-address set
contains the dotted-decimal text of exactly one of them, `Conn.ConnTCP` returns a `ConnTCP`
whose `Local` and `LocalPort` are the dotted-decimal address and decimal port of the
endpoint in the set, and whose `Remote` and `RemotePort` are those of the other endpoint. -/
theorem ConnTCP_one_local (other : List Byte → String) (c : Conn) (localSet : List String)
    (s0 s1 s2 s3 d0 d1 d2 d3 : Byte)
    (hs : c.Reply.Src = [s0, s1, s2, s3]) (hd : c.Reply.Dst = [d0, d1, d2, d3])
    (h : (dottedDecimal s0 s1 s2 s3 ∈ localSet ∧ dottedDecimal d0 d1 d2 d3 ∉ localSet) ∨
      (dottedDecimal s0 s1 s2 s3 ∉ localSet ∧ dottedDecimal d0 d1 d2 d3 ∈ localSet)) :
    ∃ tc, Conn.ConnTCP other c localSet = some tc ∧
      (dottedDecimal s0 s1 s2 s3 ∈ localSet →
        tc.Local = dottedDecimal s0 s1 s2 s3 ∧ tc.LocalPort = itoa c.Reply.SrcPort ∧
        tc.Remote = dottedDecimal d0 d1 d2 d3 ∧ tc.RemotePort = itoa c.Reply.DstPort) ∧
      (dottedDecimal d0 d1 d2 d3 ∈ localSet →
        tc.Local = dottedDecimal d0 d1 d2 d3 ∧ tc.LocalPort = itoa c.Reply.DstPort ∧
        tc.Remote = dottedDecimal s0 s1 s2 s3 ∧ tc.RemotePort = itoa c.Reply.SrcPort) := by
  have es : netIPString other c.Reply.Src = dottedDecimal s0 s1 s2 s3 := by rw [hs]; rfl
  have ed : netIPString other c.Reply.Dst = dottedDecimal d0 d1 d2 d3 := by rw [hd]; rfl
  rcases h with ⟨h1, h2⟩ | ⟨h1, h2⟩
  · refine ⟨⟨dottedDecimal s0 s1 s2 s3, itoa c.Reply.SrcPort, dottedDecimal d0 d1 d2 d3,
      itoa c.Reply.DstPort⟩, ?_, fun _ => ⟨rfl, rfl, rfl, rfl⟩, fun hc => absurd hc h2⟩
    simp [Conn.ConnTCP, es, ed, h1, h2]
  · refine ⟨⟨dottedDecimal d0 d1 d2 d3, itoa c.Reply.DstPort, dottedDecimal s0 s1 s2 s3,
      itoa c.Reply.SrcPort⟩, ?_, fun hc => absurd hc h1, fun _ => ⟨rfl, rfl, rfl, rfl⟩⟩
    simp [Conn.ConnTCP, es, ed, h1, h2]

theorem ConnTCP_one_local_witness :
    sampleConn.Reply.Src = [10, 0, 0, 5] ∧ sampleConn.Reply.Dst = [93, 184, 216, 34] ∧
    ((dottedDecimal 10 0 0 5 ∈ ["10.0.0.5"] ∧ dottedDecimal 93 184 216 34 ∉ ["10.0.0.5"]) ∨
      (dottedDecimal 10 0 0 5 ∉ ["10.0.0.5"] ∧ dottedDecimal 93 184 216 34 ∈ ["10.0.0.5"])) ∧
    Conn.ConnTCP (fun _ => "") sampleConn ["10.0.0.5"] =
      some ⟨"10.0.0.5", "40000", "93.184.216.34", "443"⟩ ∧
    ∃ tc, Conn.ConnTCP (fun _ => "") sampleConn ["10.0.0.5"] = some tc ∧
      (dottedDecimal 10 0 0 5 ∈ ["10.0.0.5"] →
        tc.Local = dottedDecimal 10 0 0 5 ∧ tc.LocalPort = itoa sampleConn.Reply.SrcPort ∧
        tc.Remote = dottedDecimal 93 184 216 34 ∧
        tc.RemotePort = itoa sampleConn.Reply.DstPort) ∧
      (dottedDecimal 93 184 216 34 ∈ ["10.0.0.5"] →
        tc.Local = dottedDecimal 93 184 216 34 ∧ tc.LocalPort = itoa sampleConn.Reply.DstPort ∧
        tc.Remote = dottedDecimal 10 0 0 5 ∧ tc.RemotePort = itoa sampleConn.Reply.SrcPort) :=
  ⟨rfl, rfl, Or.inl (by decide), by decide,
    ConnTCP_one_local (fun _ => "") sampleConn ["10.0.0.5"] 10 0 0 5 93 184 216 34 rfl rfl
      (Or.inl (by decide))⟩

/-- C11: when the texts of both reply addresses are in the local-address set,
`Conn.ConnTCP` returns a `ConnTCP` whose local side is the reply source when
`SrcPort < DstPort` and the reply destination otherwise (so the side with the smaller port,
and the destination when the ports are equal), the other side being the remote one; the
result depends only on the reply tuple and on which texts belong to the set. -/
theorem ConnTCP_both_local (other : List Byte → String) (c : Conn) (localSet : List String)
    (hs : netIPString other c.Reply.Src ∈ localSet)
    (hd : netIPString other c.Reply.Dst ∈ localSet) :
    Conn.ConnTCP other c localSet =
      some (if c.Reply.SrcPort < c.Reply.DstPort then
          { Local := netIPString other c.Reply.Src, LocalPort := itoa c.Reply.SrcPort,
            Remote := netIPString other c.Reply.Dst, RemotePort := itoa c.Reply.DstPort }
        else
          { Local := netIPString other c.Reply.Dst, LocalPort := itoa c.Reply.DstPort,
            Remote := netIPString other c.Reply.Src, RemotePort := itoa c.Reply.SrcPort }) ∧
    (∀ (c' : Conn) (localSet' : List String), c'.Reply = c.Reply →
      (∀ s, s ∈ localSet' ↔ s ∈ localSet) →
      Conn.ConnTCP other c' localSet' = Conn.ConnTCP other c localSet) := by
  constructor
  · by_cases hp : c.Reply.SrcPort < c.Reply.DstPort
    · simp [Conn.ConnTCP, hs, hd, hp]
    · simp [Conn.ConnTCP, hs, hd, hp]
  · intro c' localSet' hc hl
    simp only [Conn.ConnTCP, hc, hl]

theorem ConnTCP_both_local_witness :
    netIPString (fun _ => "") intraHostConn.Reply.Src ∈ ["10.0.0.5", "10.0.0.6"] ∧
    netIPString (fun _ => "") intraHostConn.Reply.Dst ∈ ["10.0.0.5", "10.0.0.6"] ∧
    Conn.ConnTCP (fun _ => "") intraHostConn ["10.0.0.5", "10.0.0.6"] =
      some ⟨"10.0.0.5", "5000", "10.0.0.6", "6000"⟩ ∧
    Conn.ConnTCP (fun _ => "") intraHostConnRev ["10.0.0.5", "10.0.0.6"] =
      some ⟨"10.0.0.5", "5000", "10.0.0.6", "6000"⟩ ∧
    Conn.ConnTCP (fun _ => "") intraHostConn ["10.0.0.5", "10.0.0.6"] =
      some (if intraHostConn.Reply.SrcPort < intraHostConn.Reply.DstPort then
          { Local := netIPString (fun _ => "") intraHostConn.Reply.Src,
            LocalPort := itoa intraHostConn.Reply.SrcPort,
            Remote := netIPString (fun _ => "") intraHostConn.Reply.Dst,
            RemotePort := itoa intraHostConn.Reply.DstPort }
        else
          { Local := netIPString (fun _ => "") intraHostConn.Reply.Dst,
            LocalPort := itoa intraHostConn.Reply.DstPort,
            Remote := netIPString (fun _ => "") intraHostConn.Reply.Src,
            RemotePort := itoa intraHostConn.Reply.SrcPort }) :=
  ⟨by decide, by decide, by decide, by decide,
    (ConnTCP_both_local (fun _ => "") intraHostConn ["10.0.0.5", "10.0.0.6"]
      (by decide) (by decide)).1⟩

/-- C12: `Conn.ConnTCP` returns nil exactly when the local-address set contains neither the
text of `Reply.Src` nor that of `Reply.Dst`, whatever the ports and the `Orig` tuple; it
returns a `ConnTCP` whenever at least one of the two texts is in the set. -/
theorem ConnTCP_nil_iff (other : List Byte → String) (c : Conn) (localSet : List String) :
    (Conn.ConnTCP other c localSet = none ↔
      (netIPString other c.Reply.Src ∉ localSet ∧ netIPString other c.Reply.Dst ∉ localSet)) ∧
    ((netIPString other c.Reply.Src ∈ localSet ∨ netIPString other c.Reply.Dst ∈ localSet) →
      ∃ tc, Conn.ConnTCP other c localSet = some tc) := by
  by_cases hs : netIPString other c.Reply.Src ∈ localSet <;>
    by_cases hd : netIPString other c.Reply.Dst ∈ localSet <;>
    by_cases hp : c.Reply.SrcPort < c.Reply.DstPort <;>
    simp [Conn.ConnTCP, hs, hd, hp]

/-! ## The slot array, acceptance and termination of `parseAttrs` -/

theorem encodeRecs_append (l1 l2 : List Rec) :
    encodeRecs (l1 ++ l2) = encodeRecs l1 ++ encodeRecs l2 := by
  induction l1 with
  | nil => rfl
  | cons a l1 ih => simp [encodeRecs, ih]

/-- With an array of `n` slots, a stream of more than `n` whole records makes `parseAttrs`
panic at the slot index `n`. -/
theorem parseAttrs_slots_exceeded (n : Nat) (rs : List Rec) (hwf : ∀ r ∈ rs, r.WF)
    (hk : n < rs.length) (rest sp : List Byte) :
    parseAttrs ⟨encodeRecs rs ++ rest, sp⟩ (makeAttrs n) = Run.panic := by
  have hsplit : rs = rs.take n ++ rs.drop n := (List.take_append_drop n rs).symm
  have hlen1 : (rs.take n).length = n := by simp; omega
  have hwf1 : ∀ r ∈ rs.take n, r.WF := fun r hr => hwf r (List.mem_of_mem_take hr)
  obtain ⟨q, qs, hq⟩ : ∃ q qs, rs.drop n = q :: qs := by
    cases hd : rs.drop n with
    | nil =>
      have : (rs.drop n).length = 0 := by rw [hd]; rfl
      simp at this; omega
    | cons q qs => exact ⟨q, qs, rfl⟩
  have hbuf : encodeRecs rs ++ rest =
      encodeRecs (rs.take n) ++ (q.bytes ++ (encodeRecs qs ++ rest)) := by
    conv_lhs => rw [hsplit, encodeRecs_append, hq]
    simp [encodeRecs]
  have hq4 : 4 ≤ (q.bytes ++ (encodeRecs qs ++ rest)).length := by
    simp [Rec.bytes_length, Rec.declLen, attrHdrLength]; omega
  have hge := encodeRecs_length_ge (rs.take n)
  obtain ⟨f, hf⟩ : ∃ f, (encodeRecs rs ++ rest).length / 4 + 1 = (f + 1) + (rs.take n).length := by
    refine ⟨(encodeRecs rs ++ rest).length / 4 - n, ?_⟩
    rw [hbuf, List.length_append]
    omega
  have h0 := parseAttrsLoop_records (rs.take n) hwf1 (f + 1) (q.bytes ++ (encodeRecs qs ++ rest))
    sp [] (makeAttrs n) (by simp [makeAttrs])
  simp only [List.nil_append, List.length_nil, Nat.zero_add] at h0
  rw [parseAttrs, Slice.len, hf, hbuf, h0, parseAttrsLoop,
    if_pos (by simpa [Slice.len, attrHdrLength] using hq4),
    if_neg (by simp [attrsOf_length, makeAttrs]; omega)]

theorem decodeGroup_panic {σ : Type} (wrap : String → String) (body : Attr → σ → Step σ)
    (b : Slice) (s : σ) (h : parseAttrs b (makeAttrs 20) = Run.panic) :
    decodeGroup wrap body b s = Run.panic := by
  simp only [decodeGroup, h]

/-- C17: every decoder hands `parseAttrs` an array of 20 slots and the slot index is not
checked. For a well-formed buffer of at most 20 records (more generally of at most `n`
records with `n` slots) the index stays in range and the call returns `(k, nil)`; for a
well-formed buffer of 21 or more records the 21st record indexes `attrs[20]` out of range:
`parseAttrs` panics, and so do `parsePayload`, `parseTuple`, `parseIP` and `parseProto`,
which return neither a result nor an error. -/
theorem fixed_slot_array (rs : List Rec) (hwf : ∀ r ∈ rs, r.WF) (sp : List Byte) :
    (∀ n, rs.length ≤ n → ∃ attrs,
      parseAttrs ⟨encodeRecs rs, sp⟩ (makeAttrs n) = Run.ret (rs.length, none) attrs) ∧
    (∀ n, n < rs.length → parseAttrs ⟨encodeRecs rs, sp⟩ (makeAttrs n) = Run.panic) ∧
    (20 < rs.length →
      (∀ c, parsePayload ⟨encodeRecs rs, sp⟩ c = Run.panic) ∧
      (∀ t, parseTuple ⟨encodeRecs rs, sp⟩ t = Run.panic) ∧
      (∀ t, parseIP ⟨encodeRecs rs, sp⟩ t = Run.panic) ∧
      (∀ t, parseProto ⟨encodeRecs rs, sp⟩ t = Run.panic)) := by
  refine ⟨fun n hn => ?_, fun n hn => ?_, fun h20 => ?_⟩
  · have h := parseAttrs_encodeRecs rs hwf n hn [] sp (by simp)
    simp only [List.append_nil, if_true, List.nil_append] at h
    exact ⟨_, h⟩
  · have h := parseAttrs_slots_exceeded n rs hwf hn [] sp
    rwa [List.append_nil] at h
  · have h := parseAttrs_slots_exceeded 20 rs hwf h20 [] sp
    rw [List.append_nil] at h
    refine ⟨fun c => ?_, fun t => ?_, fun t => ?_, fun t => ?_⟩
    · rw [parsePayload_eq]; exact decodeGroup_panic _ _ _ c h
    · rw [parseTuple_eq]; exact decodeGroup_panic _ _ _ t h
    · rw [parseIP_eq]; exact decodeGroup_panic _ _ _ t h
    · rw [parseProto_eq]; exact decodeGroup_panic _ _ _ t h

theorem fixed_slot_array_witness :
    (∀ r ∈ tooManyRecs, r.WF) ∧ 20 < tooManyRecs.length ∧
    encodeRecs (tooManyRecs.take 2) = [4, 0, 0, 0, 4, 0, 0, 0] ∧
    parseAttrs ⟨encodeRecs tooManyRecs, []⟩ (makeAttrs 20) = Run.panic ∧
    (∃ attrs, parseAttrs ⟨encodeRecs tooManyRecs, []⟩ (makeAttrs 21) = Run.ret (21, none) attrs) ∧
    (∀ c, parsePayload ⟨encodeRecs tooManyRecs, []⟩ c = Run.panic) :=
  have hwf : ∀ r ∈ tooManyRecs, r.WF := fun r hr => by
    rw [List.eq_of_mem_replicate hr]; decide
  ⟨hwf, by decide, by decide,
    (fixed_slot_array tooManyRecs hwf []).2.1 20 (by decide),
    (fixed_slot_array tooManyRecs hwf []).1 21 (by decide),
    ((fixed_slot_array tooManyRecs hwf []).2.2 (by decide)).1⟩

theorem byteOf_lo (x y : Byte) : byteOf (x.val + 256 * y.val) = x := by
  apply Fin.ext
  have := x.isLt
  simp only [byteOf]
  omega

theorem byteOf_hi (x y : Byte) : byteOf ((x.val + 256 * y.val) / 256) = y := by
  apply Fin.ext
  have := x.isLt
  have := y.isLt
  simp only [byteOf]
  omega

theorem putUint16LE_leUint16 (x y : Byte) : putUint16LE (x.val + 256 * y.val) = [x, y] := by
  simp only [putUint16LE, byteOf_lo, byteOf_hi]

theorem encodeRecs_length (rs : List Rec) (hwf : ∀ r ∈ rs, r.WF) :
    (encodeRecs rs).length = (rs.map Rec.alignedLen).sum := by
  induction rs with
  | nil => rfl
  | cons r rs ih =>
    have hr := (hwf r (List.mem_cons_self _ _)).2.2
    simp only [encodeRecs, List.length_append, Rec.bytes_length, List.map_cons, List.sum_cons,
      ih (fun q hq => hwf q (List.mem_cons_of_mem _ hq)), Rec.alignedLen, hr]

theorem sum_alignedLen_mod (rs : List Rec) : (rs.map Rec.alignedLen).sum % 4 = 0 := by
  induction rs with
  | nil => rfl
  | cons r rs ih =>
    simp only [List.map_cons, List.sum_cons, Rec.alignedLen, rtaAlignOf] at ih ⊢
    omega

/-- One accepted step of `parseAttr` on a buffer shorter than 65536 bytes reads one
well-formed record: the buffer is the record's bytes followed by the remaining buffer. -/
theorem parseAttr_accepts (x y z w : Byte) (tl : List Byte)
    (hlen : 4 + tl.length < 65536)
    (hfit : rtaAlignOf (4 + subUint16 (x.val + 256 * y.val) 4) ≤ 4 + tl.length) :
    ∃ r : Rec, r.WF ∧
      x :: y :: z :: w :: tl =
        r.bytes ++ tl.drop (rtaAlignOf (4 + subUint16 (x.val + 256 * y.val) 4) - 4) := by
  have hx := x.isLt
  have hy := y.isLt
  have hz := z.isLt
  have hw := w.isLt
  have hge := rtaAlignOf_ge (4 + subUint16 (x.val + 256 * y.val) 4)
  have hL : 4 ≤ x.val + 256 * y.val := by
    by_contra hc
    have : subUint16 (x.val + 256 * y.val) 4 = x.val + 256 * y.val + 65536 - 4 := by
      unfold subUint16; rw [if_neg hc]
    omega
  have hl : subUint16 (x.val + 256 * y.val) 4 = x.val + 256 * y.val - 4 := by
    unfold subUint16; rw [if_pos hL]
  generalize hA : rtaAlignOf (4 + subUint16 (x.val + 256 * y.val) 4) = A at hfit hge ⊢
  generalize hl' : subUint16 (x.val + 256 * y.val) 4 = l at hl hge hA
  have hdecl : 4 + l = x.val + 256 * y.val := by omega
  refine ⟨⟨z.val + 256 * w.val, tl.take l, (tl.drop l).take (A - 4 - l)⟩, ⟨?_, ?_, ?_⟩, ?_⟩
  · show z.val + 256 * w.val < 65536
    omega
  · show attrHdrLength + (tl.take l).length < 65536
    simp only [attrHdrLength, List.length_take]
    omega
  · show attrHdrLength + (tl.take l).length + ((tl.drop l).take (A - 4 - l)).length =
      rtaAlignOf (attrHdrLength + (tl.take l).length)
    have e1 : (tl.take l).length = l := by simp only [List.length_take]; omega
    have e2 : ((tl.drop l).take (A - 4 - l)).length = A - 4 - l := by
      simp only [List.length_take, List.length_drop]; omega
    rw [e1, e2]
    simp only [attrHdrLength, hA]
    omega
  · have e1 : (tl.take l).length = l := by simp only [List.length_take]; omega
    have hbytes : (⟨z.val + 256 * w.val, tl.take l, (tl.drop l).take (A - 4 - l)⟩ : Rec).bytes =
        [x, y] ++ [z, w] ++ tl.take l ++ (tl.drop l).take (A - 4 - l) := by
      simp only [Rec.bytes, Rec.declLen, attrHdrLength, e1, hdecl, putUint16LE_leUint16]
    have hsplit : tl = tl.take l ++ ((tl.drop l).take (A - 4 - l) ++ tl.drop (A - 4)) := by
      have h1 : (tl.drop l).drop (A - 4 - l) = tl.drop (A - 4) := by
        rw [List.drop_drop]
        congr 1
        omega
      rw [← h1, List.take_append_drop, List.take_append_drop]
    rw [hbytes]
    simp only [List.append_assoc, List.cons_append, List.nil_append]
    rw [← hsplit]

theorem parseAttrsLoop_accepts :
    ∀ (fuel : Nat) (b sp : List Byte) (attrs : List Attr) (idx k : Nat) (attrs' : List Attr),
      b.length < 65536 →
      parseAttrsLoop fuel ⟨b, sp⟩ attrs idx = Run.ret (k, none) attrs' →
      ∃ rs : List Rec, (∀ r ∈ rs, r.WF) ∧ k = idx + rs.length ∧ b = encodeRecs rs := by
  intro fuel
  induction fuel with
  | zero => intro b sp attrs idx k attrs' _ h; simp [parseAttrsLoop] at h
  | succ f ih =>
    intro b sp attrs idx k attrs' hlen h
    rw [parseAttrsLoop] at h
    simp only [Slice.len, attrHdrLength] at h
    by_cases h4 : 4 ≤ b.length
    · obtain ⟨x, y, z, w, tl, rfl⟩ : ∃ x y z w tl, b = x :: y :: z :: w :: tl := by
        match b, h4 with
        | x :: y :: z :: w :: tl, _ => exact ⟨x, y, z, w, tl, rfl⟩
      rw [if_pos h4] at h
      by_cases hidx : idx < attrs.length
      · rw [if_pos hidx, parseAttr_cons] at h
        by_cases hfit : rtaAlignOf (4 + subUint16 (x.val + 256 * y.val) 4) ≤ 4 + tl.length
        · rw [if_pos hfit] at h
          simp only [if_true] at h
          have hlen2 : 4 + tl.length < 65536 := by
            simp only [List.length_cons] at hlen; omega
          obtain ⟨r, hr, hb⟩ := parseAttr_accepts x y z w tl hlen2 hfit
          obtain ⟨rs, hrs, hk, hrest⟩ := ih _ sp _ (idx + 1) k attrs'
            (by simp only [List.length_drop]; omega) h
          refine ⟨r :: rs, ?_, ?_, ?_⟩
          · intro q hq
            rcases List.mem_cons.mp hq with rfl | hq
            · exact hr
            · exact hrs q hq
          · simp only [List.length_cons]; omega
          · rw [hb, hrest]; rfl
        · rw [if_neg hfit] at h
          simp at h
      · rw [if_neg hidx] at h
        simp at h
    · rw [if_neg h4] at h
      by_cases h0 : b.length ≠ 0
      · rw [if_pos h0] at h
        simp at h
      · rw [if_neg h0] at h
        simp only [Run.ret.injEq, Prod.mk.injEq, and_true] at h
        have hb : b = [] := by
          cases b with
          | nil => rfl
          | cons a l => simp at h0
        exact ⟨[], by simp, by simp [h.1], by rw [hb]; rfl⟩

/-- C18: whenever `parseAttrs` returns `(k, nil)` on a buffer shorter than 65536 bytes, the
buffer is the concatenation of exactly `k` well-formed records, each with a declared length
of at least 4 and present in full together with its padding, so the length of the buffer is
the sum of the aligned record lengths and a multiple of 4. A declared length below 4 wraps
around to a payload length of at least 65532 and is never accepted on such a buffer. -/
theorem parseAttrs_accepts_wellformed (b : Slice) (attrs attrs' : List Attr) (k : Nat)
    (hlen : b.len < 65536) (h : parseAttrs b attrs = Run.ret (k, none) attrs') :
    (∃ rs : List Rec, (∀ r ∈ rs, r.WF) ∧ rs.length = k ∧ b.elems = encodeRecs rs ∧
      (∀ r ∈ rs, 4 ≤ r.declLen) ∧ (rs.map Rec.alignedLen).sum = b.len) ∧
    b.len % 4 = 0 ∧
    (∀ L, L < 4 → subUint16 L 4 = L + 65532) ∧
    (∀ (x y z w : Byte) (tl sp : List Byte), x.val + 256 * y.val < 4 →
      4 + tl.length < 65536 → parseAttr ⟨x :: y :: z :: w :: tl, sp⟩ = none) := by
  obtain ⟨rs, hwf, hk, hb⟩ := parseAttrsLoop_accepts _ b.elems b.spare attrs 0 k attrs' hlen h
  have hsum : (rs.map Rec.alignedLen).sum = b.len := by
    rw [Slice.len, hb, encodeRecs_length rs hwf]
  refine ⟨⟨rs, hwf, by omega, hb, ?_, hsum⟩, ?_, ?_, ?_⟩
  · intro r _
    simp only [Rec.declLen, attrHdrLength]
    omega
  · rw [← hsum]; exact sum_alignedLen_mod rs
  · intro L hL
    unfold subUint16
    rw [if_neg (by omega)]
    omega
  · intro x y z w tl sp hL hlen2
    rw [parseAttr_cons, if_neg]
    have hge := rtaAlignOf_ge (4 + subUint16 (x.val + 256 * y.val) 4)
    have : subUint16 (x.val + 256 * y.val) 4 = x.val + 256 * y.val + 65536 - 4 := by
      unfold subUint16; rw [if_neg (by omega)]
    omega

theorem parseAttrs_accepts_wellformed_witness :
    (⟨encodeRecs sampleRecs, [9]⟩ : Slice).len < 65536 ∧
    parseAttrs ⟨encodeRecs sampleRecs, [9]⟩ (makeAttrs 20) =
      Run.ret (2, none) (attrsOf sampleRecs [9] ++ (makeAttrs 20).drop 2) ∧
    (∃ rs : List Rec, (∀ r ∈ rs, r.WF) ∧ rs.length = 2 ∧
      (⟨encodeRecs sampleRecs, [9]⟩ : Slice).elems = encodeRecs rs ∧
      (∀ r ∈ rs, 4 ≤ r.declLen) ∧
      (rs.map Rec.alignedLen).sum = (⟨encodeRecs sampleRecs, [9]⟩ : Slice).len) ∧
    (⟨encodeRecs sampleRecs, [9]⟩ : Slice).len % 4 = 0 :=
  have h := parseAttrs_accepts_wellformed ⟨encodeRecs sampleRecs, [9]⟩ (makeAttrs 20)
    (attrsOf sampleRecs [9] ++ (makeAttrs 20).drop 2) 2 (by decide) (by decide)
  ⟨by decide, by decide, h.1, h.2.1⟩

theorem parseAttr_short (b : Slice) (h : b.len < 4) : parseAttr b = none := by
  have hsf : ∀ l, b.sliceFrom (rtaAlignOf (attrHdrLength + l)) = none := by
    intro l
    have hge := rtaAlignOf_ge (attrHdrLength + l)
    simp only [Slice.sliceFrom, attrHdrLength] at hge ⊢
    rw [if_neg (by omega)]
  simp only [parseAttr, Option.bind_eq_bind, hsf]
  cases b.slice 0 2 with
  | none => rfl
  | some s1 =>
    simp only [Option.some_bind]
    cases s1.leUint16 with
    | none => rfl
    | some l0 =>
      simp only [Option.some_bind]
      cases b.slice 2 4 with
      | none => rfl
      | some s2 =>
        simp only [Option.some_bind]
        cases s2.leUint16 with
        | none => rfl
        | some typ =>
          simp only [Option.some_bind]
          cases b.slice attrHdrLength (attrHdrLength + subUint16 l0 attrHdrLength) <;> rfl

/-- A call of `parseAttr` that does not panic consumes the aligned length of one record:
the payload length is below 65536 and the remaining buffer is shorter by
`rtaAlignOf (4 + payload length)`, which is at least 4. -/
theorem parseAttr_consumes (b : Slice) (use : Bool) (b' : Slice) (a : Attr)
    (h : parseAttr b = some (use, b', a)) :
    a.Msg.len < 65536 ∧ 4 ≤ rtaAlignOf (4 + a.Msg.len) ∧
      b'.len + rtaAlignOf (4 + a.Msg.len) = b.len := by
  by_cases h4 : b.len < 4
  · rw [parseAttr_short b h4] at h; simp at h
  · obtain ⟨e, sp⟩ := b
    obtain ⟨x, y, z, w, tl, rfl⟩ : ∃ x y z w tl, e = x :: y :: z :: w :: tl := by
      match e, h4 with
      | x :: y :: z :: w :: tl, _ => exact ⟨x, y, z, w, tl, rfl⟩
      | [], h4 => simp [Slice.len] at h4
      | [_], h4 => simp [Slice.len] at h4
      | [_, _], h4 => simp [Slice.len] at h4
      | [_, _, _], h4 => simp [Slice.len] at h4
    rw [parseAttr_cons] at h
    have hx := x.isLt
    have hy := y.isLt
    have hl : subUint16 (x.val + 256 * y.val) 4 < 65536 := by
      unfold subUint16; split <;> omega
    have hge := rtaAlignOf_ge (4 + subUint16 (x.val + 256 * y.val) 4)
    by_cases hfit : rtaAlignOf (4 + subUint16 (x.val + 256 * y.val) 4) ≤ 4 + tl.length
    · rw [if_pos hfit] at h
      simp only [Option.some.injEq, Prod.mk.injEq] at h
      obtain ⟨_, hb', ha⟩ := h
      subst hb' ha
      have hm : (tl.take (subUint16 (x.val + 256 * y.val) 4)).length =
          subUint16 (x.val + 256 * y.val) 4 := by
        simp only [List.length_take]; omega
      simp only [Slice.len, hm, List.length_drop, List.length_cons]
      omega
    · rw [if_neg hfit] at h; simp at h

theorem parseAttrsLoop_fuel :
    ∀ (f1 f2 : Nat) (b sp : List Byte) (attrs : List Attr) (idx : Nat),
      b.length / 4 < f1 → b.length / 4 < f2 →
      parseAttrsLoop f1 ⟨b, sp⟩ attrs idx = parseAttrsLoop f2 ⟨b, sp⟩ attrs idx := by
  intro f1
  induction f1 with
  | zero => intro f2 b sp attrs idx h; omega
  | succ f ih =>
    intro f2 b sp attrs idx h1 h2
    obtain ⟨g, rfl⟩ : ∃ g, f2 = g + 1 := ⟨f2 - 1, by omega⟩
    rw [parseAttrsLoop, parseAttrsLoop]
    simp only [Slice.len, attrHdrLength]
    by_cases h4 : 4 ≤ b.length
    · obtain ⟨x, y, z, w, tl, rfl⟩ : ∃ x y z w tl, b = x :: y :: z :: w :: tl := by
        match b, h4 with
        | x :: y :: z :: w :: tl, _ => exact ⟨x, y, z, w, tl, rfl⟩
      rw [if_pos h4, if_pos h4]
      by_cases hidx : idx < attrs.length
      · rw [if_pos hidx, if_pos hidx, parseAttr_cons]
        by_cases hfit : rtaAlignOf (4 + subUint16 (x.val + 256 * y.val) 4) ≤ 4 + tl.length
        · rw [if_pos hfit]
          simp only [if_true]
          have hge := rtaAlignOf_ge (4 + subUint16 (x.val + 256 * y.val) 4)
          apply ih
          · simp only [List.length_drop, List.length_cons] at h1 ⊢; omega
          · simp only [List.length_drop, List.length_cons] at h2 ⊢; omega
        · rw [if_neg hfit]
      · rw [if_neg hidx, if_neg hidx]
    · rw [if_neg h4, if_neg h4]

/-- C19: the loop of `parseAttrs` terminates on every input. A call of `parseAttr` that does
not panic leaves a buffer shorter by `rtaAlignOf (4 + payload length) ≥ 4` bytes, the payload
length being a 16-bit value; so `len(b) / 4 + 1` evaluations of the loop condition, that is
at most `len(b) / 4` iterations, always suffice: the result is the same for any larger
bound and the embedding never runs out of fuel. -/
theorem parseAttrs_terminates (b : Slice) (attrs : List Attr) :
    parseAttrs b attrs ≠ Run.nofuel ∧
    (∀ fuel idx, b.len / 4 < fuel →
      parseAttrsLoop fuel b attrs idx = parseAttrsLoop (b.len / 4 + 1) b attrs idx ∧
      parseAttrsLoop fuel b attrs idx ≠ Run.nofuel) ∧
    (∀ (use : Bool) (b' : Slice) (a : Attr), parseAttr b = some (use, b', a) →
      a.Msg.len < 65536 ∧ 4 ≤ rtaAlignOf (4 + a.Msg.len) ∧
      b'.len + rtaAlignOf (4 + a.Msg.len) = b.len ∧ b'.len < b.len) := by
  refine ⟨parseAttrs_ne_nofuel b attrs, fun fuel idx hf => ⟨?_, ?_⟩, fun use b' a h => ?_⟩
  · exact parseAttrsLoop_fuel fuel _ b.elems b.spare attrs idx hf (Nat.lt_succ_self _)
  · exact parseAttrsLoop_ne_nofuel fuel b.elems b.spare attrs idx hf
  · obtain ⟨h1, h2, h3⟩ := parseAttr_consumes b use b' a h
    exact ⟨h1, h2, h3, by omega⟩

/-! ## The dump request -/

theorem replicate_twenty (m : Nat) :
    List.replicate (20 + m) (0 : Byte) =
      [0, 0, 0, 0, 0, 0, 0, 0, 0, 0, 0, 0, 0, 0, 0, 0, 0, 0, 0, 0] ++ List.replicate m 0 := by
  rw [List.replicate_add]
  rfl

theorem toWireFormat_eq (c : ConntrackListReq) (hl : 20 ≤ c.Header.Len) :
    c.toWireFormat = some (wireBytes c) := by
  obtain ⟨m, hm⟩ : ∃ m, c.Header.Len = 20 + m := ⟨c.Header.Len - 20, by omega⟩
  have hsub : c.Header.Len - 20 = m := by omega
  simp only [ConntrackListReq.toWireFormat, wireBytes, hsub, Option.bind_eq_bind, pure]
  rw [hm, replicate_twenty]
  simp [storeUint32, storeUint16, storeByte, putUint32LE, putUint16LE]

theorem wireBytes_length (c : ConntrackListReq) (hl : 20 ≤ c.Header.Len) :
    (wireBytes c).length = c.Header.Len := by
  simp [wireBytes, putUint32LE, putUint16LE]
  omega

theorem wireBytes_tail_zero (c : ConntrackListReq) (i : Nat) (hi : 20 ≤ i) :
    (wireBytes c).getD i 0 = 0 := by
  obtain ⟨j, rfl⟩ : ∃ j, i = 20 + j := ⟨i - 20, by omega⟩
  simp only [wireBytes, putUint32LE, putUint16LE, List.cons_append, List.nil_append,
    List.append_assoc]
  simp only [List.getD_eq_getElem?_getD, Nat.add_comm 20 j, List.getElem?_cons_succ]
  rw [List.getElem?_replicate]
  split <;> rfl

theorem readReq_wireBytes (c : ConntrackListReq) (hr : c.InRange) : readReq (wireBytes c) = c := by
  obtain ⟨⟨len, typ, flags, seq, pid⟩, ⟨family, version, resid⟩⟩ := c
  obtain ⟨h1, h2, h3, h4, h5, h6, h7, h8⟩ := hr
  simp only at h1 h2 h3 h4 h5 h6 h7 h8
  simp only [readReq, wireBytes, putUint32LE, putUint16LE, uint32At, uint16At, byteOf,
    List.cons_append, List.nil_append, List.append_assoc, List.getD_eq_getElem?_getD,
    List.getElem?_cons_succ, List.getElem?_cons_zero, Option.getD_some]
  simp only [ConntrackListReq.mk.injEq, NlMsghdr.mk.injEq, nfgenmsg.mk.injEq]
  refine ⟨⟨?_, ?_, ?_, ?_, ?_⟩, ?_, ?_, ?_⟩ <;> omega

/-- C15: for every request whose `Header.Len` is at least 20 (fields within the ranges of their
Go types), `toWireFormat` returns, without panicking, exactly `Header.Len` bytes: the
little-endian `Len`, `Typ`, `Flags`, `Seq`, `Pid` at offsets 0, 4, 6, 8, 12, then `Family`,
`Version`, the little-endian `ResID`, and zero in every later byte; reading the fields back at
these offsets gives the request. -/
theorem toWireFormat_layout (c : ConntrackListReq) (hr : c.InRange) (hl : 20 ≤ c.Header.Len) :
    ∃ w, c.toWireFormat = some w ∧ w.length = c.Header.Len ∧
      w.take 4 = putUint32LE c.Header.Len ∧
      (w.drop 4).take 2 = putUint16LE c.Header.Typ ∧
      (w.drop 6).take 2 = putUint16LE c.Header.Flags ∧
      (w.drop 8).take 4 = putUint32LE c.Header.Seq ∧
      (w.drop 12).take 4 = putUint32LE c.Header.Pid ∧
      w.getD 16 0 = byteOf c.Body.Family ∧ (w.getD 16 0).val = c.Body.Family ∧
      w.getD 17 0 = byteOf c.Body.Version ∧ (w.getD 17 0).val = c.Body.Version ∧
      (w.drop 18).take 2 = putUint16LE c.Body.ResID ∧
      (∀ i, 20 ≤ i → w.getD i 0 = 0) ∧
      w.drop 20 = List.replicate (c.Header.Len - 20) 0 ∧
      readReq w = c := by
  refine ⟨wireBytes c, toWireFormat_eq c hl, wireBytes_length c hl, ?_, ?_, ?_, ?_, ?_, ?_, ?_,
    ?_, ?_, ?_, wireBytes_tail_zero c, ?_, readReq_wireBytes c hr⟩
  all_goals first
    | (simp [wireBytes, putUint32LE, putUint16LE]; done)
    | (obtain ⟨_, _, _, _, _, h6, h7, _⟩ := hr
       simp [wireBytes, putUint32LE, putUint16LE, byteOf, Nat.mod_eq_of_lt h6,
         Nat.mod_eq_of_lt h7])

/-- The request sent by `Established` has length 20 and serializes to the twenty bytes
`14 00 00 00 01 01 01 03 00 00 00 00 00 00 00 00 02 00 00 00`. -/
theorem toWireFormat_layout_witness :
    establishedReq.InRange ∧ 20 ≤ establishedReq.Header.Len ∧
    establishedReq.toWireFormat =
      some [20, 0, 0, 0, 1, 1, 1, 3, 0, 0, 0, 0, 0, 0, 0, 0, 2, 0, 0, 0] ∧
    ∃ w, establishedReq.toWireFormat = some w ∧ w.length = establishedReq.Header.Len ∧
      w.take 4 = putUint32LE establishedReq.Header.Len ∧
      (w.drop 4).take 2 = putUint16LE establishedReq.Header.Typ ∧
      (w.drop 6).take 2 = putUint16LE establishedReq.Header.Flags ∧
      (w.drop 8).take 4 = putUint32LE establishedReq.Header.Seq ∧
      (w.drop 12).take 4 = putUint32LE establishedReq.Header.Pid ∧
      w.getD 16 0 = byteOf establishedReq.Body.Family ∧
      (w.getD 16 0).val = establishedReq.Body.Family ∧
      w.getD 17 0 = byteOf establishedReq.Body.Version ∧
      (w.getD 17 0).val = establishedReq.Body.Version ∧
      (w.drop 18).take 2 = putUint16LE establishedReq.Body.ResID ∧
      (∀ i, 20 ≤ i → w.getD i 0 = 0) ∧
      w.drop 20 = List.replicate (establishedReq.Header.Len - 20) 0 ∧
      readReq w = establishedReq :=
  ⟨by decide, by decide, by decide, toWireFormat_layout establishedReq (by decide) (by decide)⟩

/-! ## The session driver -/

theorem sampleTCPRecs_decodes (sp : List Byte) :
    DecodesTCP ⟨encodeRecs sampleTCPRecs, sp⟩ sampleOrig sampleReply := by
  refine ⟨by decide, fun c => ?_⟩
  rw [parsePayload_spare]
  rfl

theorem otherTCPRecs_decodes (sp : List Byte) :
    DecodesTCP ⟨encodeRecs otherTCPRecs, sp⟩ otherOrig otherReply := by
  refine ⟨by decide, fun c => ?_⟩
  rw [parsePayload_spare]
  rfl

theorem handleMsgs_skip {κ : Type} (nl : Netlink) (cb : Conn → κ → Conn × κ)
    (m : NetlinkMessage) (rest : List NetlinkMessage) (p : Slice) (conn conn1 : Conn) (k : κ)
    (ha : nl.Accepts m p) (hp : parsePayload p conn = Run.ret (some "Not supported") conn1) :
    handleMsgs nl cb (m :: rest) conn k = handleMsgs nl cb rest conn1 k := by
  obtain ⟨h1, h2, h3⟩ := ha
  simp [handleMsgs, h1, h2, h3, hp]

theorem handleMsgs_dispatch {κ : Type} (nl : Netlink) (cb : Conn → κ → Conn × κ)
    (m : NetlinkMessage) (rest : List NetlinkMessage) (p : Slice) (conn conn1 : Conn) (k : κ)
    (ha : nl.Accepts m p) (hp : parsePayload p conn = Run.ret none conn1)
    (ht : conn1.Orig.Proto = IPPROTO_TCP) :
    handleMsgs nl cb (m :: rest) conn k =
      handleMsgs nl cb rest (cb conn1 k).1 (cb conn1 k).2 := by
  obtain ⟨h1, h2, h3⟩ := ha
  simp [handleMsgs, h1, h2, h3, hp, ht]

theorem handleMsgs_decodesTCP {κ : Type} (nl : Netlink) (cb : Conn → κ → Conn × κ)
    (m : NetlinkMessage) (rest : List NetlinkMessage) (p : Slice) (o r : Tuple) (conn : Conn)
    (k : κ) (ha : nl.Accepts m p) (hd : DecodesTCP p o r) :
    handleMsgs nl cb (m :: rest) conn k =
      handleMsgs nl cb rest (cb (conn.withTuples o r) k).1 (cb (conn.withTuples o r) k).2 :=
  handleMsgs_dispatch nl cb m rest p conn _ k ha (hd.2 conn) hd.1

theorem readLoop_data {κ : Type} (nl : Netlink) (cb : Conn → κ → Conn × κ) (b : Slice)
    (msgs : List NetlinkMessage) (rest : List RecvResult) (conn conn1 : Conn) (k k1 : κ)
    (hb : nl.ParseNetlinkMessage b = Except.ok msgs)
    (hm : handleMsgs nl cb msgs conn k = MsgsEnd.done conn1 k1) :
    readLoop nl cb (RecvResult.data b :: rest) conn k = readLoop nl cb rest conn1 k1 := by
  simp [readLoop, hb, hm]

theorem readLoop_enobufs {κ : Type} (nl : Netlink) (cb : Conn → κ → Conn × κ)
    (rest : List RecvResult) (conn : Conn) (k : κ) :
    readLoop nl cb (RecvResult.errno ENOBUFS :: rest) conn k = readLoop nl cb rest conn k := by
  simp [readLoop]

theorem handleMsgs_ne_nofuel {κ : Type} (nl : Netlink) (cb : Conn → κ → Conn × κ) :
    ∀ (msgs : List NetlinkMessage) (conn : Conn) (k : κ),
      handleMsgs nl cb msgs conn k ≠ MsgsEnd.nofuel := by
  intro msgs
  induction msgs with
  | nil => intro conn k; simp [handleMsgs]
  | cons m rest ih =>
    intro conn k
    unfold handleMsgs
    split
    · simp
    · split
      · simp
      · split
        · simp
        · split
          · split
            · exact ih _ _
            · simp
          · split
            · exact ih _ _
            · exact ih _ _
          · simp
          · rename_i h
            exact absurd h (parsePayload_ne_nofuel _ _)

theorem readLoop_ne_nofuel {κ : Type} (nl : Netlink) (cb : Conn → κ → Conn × κ) :
    ∀ (recvs : List RecvResult) (conn : Conn) (k : κ),
      readLoop nl cb recvs conn k ≠ ReadEnd.nofuel := by
  intro recvs
  induction recvs with
  | nil => intro conn k; simp [readLoop]
  | cons r rest ih =>
    intro conn k
    cases r with
    | errno e =>
      unfold readLoop
      split
      · exact ih _ _
      · simp
    | data b =>
      unfold readLoop
      split
      · simp
      · split
        · exact ih _ _
        · simp
        · simp
        · rename_i h
          exact absurd h (handleMsgs_ne_nofuel nl cb _ _ _)

/-! ## A message of an unsupported address family inside a read -/

theorem parsePayload_v6 (b : List Byte) (top : List Rec) (hf : Framed b top)
    (hg : PayloadFramed top) (hs : PayloadSized top) (hv : PayloadHasV6 top)
    (sp : List Byte) (conn : Conn) :
    ∃ conn1, parsePayload ⟨b, sp⟩ conn = Run.ret (some "Not supported") conn1 := by
  rw [parsePayload_framed b top hf sp conn]
  apply runBody_stops
  · intro a ha s
    obtain ⟨r, hr, rfl⟩ := List.mem_map.mp ha
    exact parsePayloadBody_view_cases r (hg r hr) (hs r hr) s
  · obtain ⟨r, hr, hc, trs, htrs, hv6⟩ := hv
    obtain ⟨trs2, htrs2, hg2⟩ := hg r hr hc
    refine ⟨r.view, List.mem_map.mpr ⟨r, hr, rfl⟩, fun s => ?_⟩
    have hgt : TupleGroupFramed trs := by
      have : trs2 = trs := Framed.unique htrs2 htrs
      exact this ▸ hg2
    exact parsePayloadBody_view_v6 r hc trs htrs hgt (hs r hr hc trs htrs) hv6 s

theorem v6Recs_shape :
    Framed (encodeRecs v6Recs) v6Recs ∧ PayloadFramed v6Recs ∧ PayloadSized v6Recs ∧
    PayloadHasV6 v6Recs := by
  have hwfIP : Framed (encodeRecs v6IPRecs) v6IPRecs := ⟨by decide, by decide, rfl⟩
  have hwfP : Framed (encodeRecs [(⟨1, [6], [0, 0, 0]⟩ : Rec)]) [⟨1, [6], [0, 0, 0]⟩] :=
    ⟨by decide, by decide, rfl⟩
  have hwfT : Framed (encodeRecs v6TupleRecs) v6TupleRecs := ⟨by decide, by decide, rfl⟩
  have hwf : Framed (encodeRecs v6Recs) v6Recs := ⟨by decide, by decide, rfl⟩
  have hT : TupleGroupFramed v6TupleRecs := by
    intro r hr
    simp only [v6TupleRecs, List.mem_cons, List.mem_singleton, List.not_mem_nil,
      or_false] at hr
    rcases hr with rfl | rfl
    · exact ⟨fun h => absurd h (by decide), fun _ => ⟨_, hwfP⟩⟩
    · exact ⟨fun _ => ⟨v6IPRecs, hwfIP⟩, fun h => absurd h (by decide)⟩
  have hS : TupleGroupSized v6TupleRecs := by
    intro r hr hc prs hprs
    simp only [v6TupleRecs, List.mem_cons, List.mem_singleton, List.not_mem_nil,
      or_false] at hr
    rcases hr with rfl | rfl
    · rw [← Framed.unique hwfP hprs]
      decide
    · exact absurd hc (by decide)
  refine ⟨hwf, ?_, ?_, ?_⟩
  · intro r hr hc
    simp only [v6Recs, List.mem_cons, List.mem_singleton, List.not_mem_nil, or_false] at hr
    rcases hr with rfl | rfl
    · exact absurd hc (by decide)
    · exact ⟨v6TupleRecs, hwfT, hT⟩
  · intro r hr hc trs htrs
    simp only [v6Recs, List.mem_cons, List.mem_singleton, List.not_mem_nil, or_false] at hr
    rcases hr with rfl | rfl
    · exact absurd hc (by decide)
    · rw [← Framed.unique hwfT htrs]
      exact hS
  · exact ⟨⟨32768 + 2, encodeRecs v6TupleRecs, []⟩, by simp [v6Recs], Or.inr (by decide),
      v6TupleRecs, hwfT, ⟨32768 + 1, encodeRecs v6IPRecs, []⟩, by simp [v6TupleRecs],
      by decide, v6IPRecs, hwfIP, ⟨_, List.mem_singleton.mpr rfl, Or.inl (by decide)⟩⟩

theorem emptyProtoV6Recs_shape :
    Framed (encodeRecs emptyProtoV6Recs) emptyProtoV6Recs ∧ PayloadFramed emptyProtoV6Recs ∧
    PayloadHasV6 emptyProtoV6Recs := by
  have hwfIP : Framed (encodeRecs v6IPRecs) v6IPRecs := ⟨by decide, by decide, rfl⟩
  have hwfT : Framed (encodeRecs emptyProtoV6TupleRecs) emptyProtoV6TupleRecs :=
    ⟨by decide, by decide, rfl⟩
  have hT : TupleGroupFramed emptyProtoV6TupleRecs := by
    intro r hr
    simp only [emptyProtoV6TupleRecs, List.mem_cons, List.mem_singleton, List.not_mem_nil,
      or_false] at hr
    rcases hr with rfl | rfl
    · exact ⟨fun h => absurd h (by decide),
        fun _ => ⟨[⟨1, [], []⟩], by decide, by decide, rfl⟩⟩
    · exact ⟨fun _ => ⟨v6IPRecs, hwfIP⟩, fun h => absurd h (by decide)⟩
  refine ⟨⟨by decide, by decide, rfl⟩, ?_, ?_⟩
  · intro r hr _
    simp only [emptyProtoV6Recs, List.mem_singleton] at hr
    subst hr
    exact ⟨emptyProtoV6TupleRecs, hwfT, hT⟩
  · refine ⟨_, List.mem_singleton.mpr rfl, Or.inl (by decide), emptyProtoV6TupleRecs, hwfT, ?_⟩
    exact ⟨⟨32768 + 1, encodeRecs v6IPRecs, []⟩, by simp [emptyProtoV6TupleRecs], by decide,
      v6IPRecs, hwfIP, ⟨_, List.mem_singleton.mpr rfl, Or.inl (by decide)⟩⟩

set_option maxRecDepth 20000 in
/-- C13, as the claim has it, fails: one read of two messages, the first well framed at
every level with a v6 source address in the IP sub-group of its original tuple but, in front
of it, a protocol-number attribute with an empty payload (`emptyProtoV6Recs`), the second a
well-formed IPv4 TCP message. `readMsgs` panics at `attr.Msg[0]` while it decodes the first
message, and the callback is never invoked for the second. -/
theorem v6_message_panics_counterexample :
    sampleNetlink.ParseNetlinkMessage emptyProtoV6ThenTCPRead =
      Except.ok [framedMsg (encodeRecs emptyProtoV6Recs) (frameMsg (encodeRecs sampleTCPRecs)),
        framedMsg (encodeRecs sampleTCPRecs) []] ∧
    sampleNetlink.Accepts
      (framedMsg (encodeRecs emptyProtoV6Recs) (frameMsg (encodeRecs sampleTCPRecs)))
      ⟨encodeRecs emptyProtoV6Recs, frameMsg (encodeRecs sampleTCPRecs)⟩ ∧
    Framed (encodeRecs emptyProtoV6Recs) emptyProtoV6Recs ∧ PayloadFramed emptyProtoV6Recs ∧
    PayloadHasV6 emptyProtoV6Recs ∧
    sampleNetlink.Accepts (framedMsg (encodeRecs sampleTCPRecs) [])
      ⟨encodeRecs sampleTCPRecs, []⟩ ∧
    DecodesTCP ⟨encodeRecs sampleTCPRecs, []⟩ sampleOrig sampleReply ∧
    readMsgs sampleNetlink recordConn [RecvResult.data emptyProtoV6ThenTCPRead] [] =
      ReadEnd.panic :=
  ⟨rfl, by decide, emptyProtoV6Recs_shape.1, emptyProtoV6Recs_shape.2.1,
    emptyProtoV6Recs_shape.2.2, by decide, sampleTCPRecs_decodes [], rfl⟩

/-- C13, amended: a read of two messages that both pass the header checks, the first with a
payload that is well framed at every nesting level (at most 20 attributes per group,
protocol-number payloads of at least 1 byte and port payloads of at least 2) and has a v6
address attribute in the IP sub-group of a tuple, the second a well-formed IPv4 TCP message
with tuples `o` and `r`. Wherever in the loop the read arrives (`conn`, `k` are the shared
`Conn` and the state of the callback before it), `parsePayload` returns `Not supported` on
the first message, `readMsgs` goes past it without returning and without invoking the
callback, invokes the callback exactly once, on the `Conn` whose `Orig` and `Reply` are `o`
and `r`, and goes on to the next receive. -/
theorem v6_message_skipped {κ : Type} (nl : Netlink) (cb : Conn → κ → Conn × κ) (b : Slice)
    (m1 m2 : NetlinkMessage) (p1 p2 : Slice) (top : List Rec) (o r : Tuple)
    (rest : List RecvResult) (conn : Conn) (k : κ)
    (hb : nl.ParseNetlinkMessage b = Except.ok [m1, m2])
    (h1 : nl.Accepts m1 p1) (hf : Framed p1.elems top) (hg : PayloadFramed top)
    (hs : PayloadSized top) (hv : PayloadHasV6 top)
    (h2 : nl.Accepts m2 p2) (hd : DecodesTCP p2 o r) :
    ∃ conn1, parsePayload p1 conn = Run.ret (some "Not supported") conn1 ∧
      handleMsgs nl cb [m1] conn k = MsgsEnd.done conn1 k ∧
      handleMsgs nl cb [m1, m2] conn k =
        MsgsEnd.done (cb (conn1.withTuples o r) k).1 (cb (conn1.withTuples o r) k).2 ∧
      (conn1.withTuples o r).Orig = o ∧ (conn1.withTuples o r).Reply = r ∧
      readLoop nl cb (RecvResult.data b :: rest) conn k =
        readLoop nl cb rest (cb (conn1.withTuples o r) k).1 (cb (conn1.withTuples o r) k).2 := by
  obtain ⟨conn1, hc1⟩ := parsePayload_v6 p1.elems top hf hg hs hv p1.spare conn
  have hm1 : ∀ tl, handleMsgs nl cb (m1 :: tl) conn k = handleMsgs nl cb tl conn1 k :=
    fun tl => handleMsgs_skip nl cb m1 tl p1 conn conn1 k h1 hc1
  have hm2 : handleMsgs nl cb [m1, m2] conn k =
      MsgsEnd.done (cb (conn1.withTuples o r) k).1 (cb (conn1.withTuples o r) k).2 := by
    rw [hm1, handleMsgs_decodesTCP nl cb m2 [] p2 o r conn1 k h2 hd]
    rfl
  refine ⟨conn1, hc1, ?_, hm2, rfl, rfl, readLoop_data nl cb b _ rest conn _ k _ hb hm2⟩
  rw [hm1]
  rfl

set_option maxRecDepth 20000 in
theorem v6_message_skipped_witness :
    sampleNetlink.ParseNetlinkMessage v6ThenTCPRead =
      Except.ok [framedMsg (encodeRecs v6Recs) (frameMsg (encodeRecs sampleTCPRecs)),
        framedMsg (encodeRecs sampleTCPRecs) []] ∧
    readMsgs sampleNetlink recordConn [RecvResult.data v6ThenTCPRead] [] =
      ReadEnd.blocked ⟨0, sampleOrig, sampleReply, ""⟩ [⟨0, sampleOrig, sampleReply, ""⟩] ∧
    ∃ conn1, parsePayload ⟨encodeRecs v6Recs, frameMsg (encodeRecs sampleTCPRecs)⟩ zeroConn =
        Run.ret (some "Not supported") conn1 ∧
      handleMsgs sampleNetlink recordConn
        [framedMsg (encodeRecs v6Recs) (frameMsg (encodeRecs sampleTCPRecs))] zeroConn [] =
          MsgsEnd.done conn1 [] ∧
      handleMsgs sampleNetlink recordConn
        [framedMsg (encodeRecs v6Recs) (frameMsg (encodeRecs sampleTCPRecs)),
          framedMsg (encodeRecs sampleTCPRecs) []] zeroConn [] =
        MsgsEnd.done (recordConn (conn1.withTuples sampleOrig sampleReply) []).1
          (recordConn (conn1.withTuples sampleOrig sampleReply) []).2 ∧
      (conn1.withTuples sampleOrig sampleReply).Orig = sampleOrig ∧
      (conn1.withTuples sampleOrig sampleReply).Reply = sampleReply ∧
      readLoop sampleNetlink recordConn [RecvResult.data v6ThenTCPRead] zeroConn [] =
        readLoop sampleNetlink recordConn []
          (recordConn (conn1.withTuples sampleOrig sampleReply) []).1
          (recordConn (conn1.withTuples sampleOrig sampleReply) []).2 :=
  ⟨rfl, rfl,
    v6_message_skipped sampleNetlink recordConn v6ThenTCPRead
      (framedMsg (encodeRecs v6Recs) (frameMsg (encodeRecs sampleTCPRecs)))
      (framedMsg (encodeRecs sampleTCPRecs) [])
      ⟨encodeRecs v6Recs, frameMsg (encodeRecs sampleTCPRecs)⟩ ⟨encodeRecs sampleTCPRecs, []⟩
      v6Recs sampleOrig sampleReply [] zeroConn [] rfl (by decide) v6Recs_shape.1
      v6Recs_shape.2.1 v6Recs_shape.2.2.1 v6Recs_shape.2.2.2 (by decide)
      (sampleTCPRecs_decodes [])⟩

/-! ## Loss signals -/

/-- C14: a receive that fails with `ENOBUFS` changes neither the shared `Conn` nor the state
of the callback, and the loop goes on to the next receive. For the receive results 'a read
with one valid IPv4 TCP message (tuples `o1`, `r1`), `ENOBUFS`, a read with one valid IPv4 TCP
message (tuples `o2`, `r2`)', `readMsgs` does not return at the loss signal: it invokes the
callback on the first message, then on the second, and goes on to the next receive; with the
callback that records its calls, the calls made are the two decoded connections, in that
order, and `readMsgs` is then blocked in the next receive. -/
theorem enobufs_tolerated {κ : Type} (nl : Netlink) (cb : Conn → κ → Conn × κ)
    (b1 b2 : Slice) (m1 m2 : NetlinkMessage) (p1 p2 : Slice) (o1 r1 o2 r2 : Tuple)
    (rest : List RecvResult) (k : κ)
    (hb1 : nl.ParseNetlinkMessage b1 = Except.ok [m1]) (h1 : nl.Accepts m1 p1)
    (hd1 : DecodesTCP p1 o1 r1)
    (hb2 : nl.ParseNetlinkMessage b2 = Except.ok [m2]) (h2 : nl.Accepts m2 p2)
    (hd2 : DecodesTCP p2 o2 r2) :
    (∀ (recvs : List RecvResult) (conn : Conn) (k0 : κ),
      readLoop nl cb (RecvResult.errno ENOBUFS :: recvs) conn k0 = readLoop nl cb recvs conn k0) ∧
    readMsgs nl cb (RecvResult.data b1 :: RecvResult.errno ENOBUFS :: RecvResult.data b2 :: rest)
        k =
      readLoop nl cb rest
        (cb ((cb (zeroConn.withTuples o1 r1) k).1.withTuples o2 r2)
          (cb (zeroConn.withTuples o1 r1) k).2).1
        (cb ((cb (zeroConn.withTuples o1 r1) k).1.withTuples o2 r2)
          (cb (zeroConn.withTuples o1 r1) k).2).2 ∧
    (∀ calls : List Conn,
      readMsgs nl recordConn
          [RecvResult.data b1, RecvResult.errno ENOBUFS, RecvResult.data b2] calls =
        ReadEnd.blocked (zeroConn.withTuples o2 r2)
          (calls ++ [zeroConn.withTuples o1 r1, zeroConn.withTuples o2 r2])) := by
  have step : ∀ (κ1 : Type) (f : Conn → κ1 → Conn × κ1) (b : Slice) (m : NetlinkMessage)
      (p : Slice) (o r : Tuple) (tl : List RecvResult) (conn : Conn) (k1 : κ1),
      nl.ParseNetlinkMessage b = Except.ok [m] → nl.Accepts m p → DecodesTCP p o r →
      readLoop nl f (RecvResult.data b :: tl) conn k1 =
        readLoop nl f tl (f (conn.withTuples o r) k1).1 (f (conn.withTuples o r) k1).2 := by
    intro κ1 f b m p o r tl conn k1 hb ha hd
    refine readLoop_data nl f b [m] tl conn _ k1 _ hb ?_
    rw [handleMsgs_decodesTCP nl f m [] p o r conn k1 ha hd]
    rfl
  refine ⟨fun recvs conn k0 => readLoop_enobufs nl cb recvs conn k0, ?_, fun calls => ?_⟩
  · unfold readMsgs
    rw [step κ cb b1 m1 p1 o1 r1 _ _ _ hb1 h1 hd1, readLoop_enobufs,
      step κ cb b2 m2 p2 o2 r2 _ _ _ hb2 h2 hd2]
  · unfold readMsgs
    rw [step _ recordConn b1 m1 p1 o1 r1 _ _ _ hb1 h1 hd1, readLoop_enobufs,
      step _ recordConn b2 m2 p2 o2 r2 _ _ _ hb2 h2 hd2]
    simp [readLoop, recordConn, Conn.withTuples]

set_option maxRecDepth 20000 in
theorem enobufs_tolerated_witness :
    sampleNetlink.ParseNetlinkMessage ⟨frameMsg (encodeRecs sampleTCPRecs), []⟩ =
      Except.ok [framedMsg (encodeRecs sampleTCPRecs) []] ∧
    sampleNetlink.ParseNetlinkMessage ⟨frameMsg (encodeRecs otherTCPRecs), []⟩ =
      Except.ok [framedMsg (encodeRecs otherTCPRecs) []] ∧
    readMsgs sampleNetlink recordConn
        [RecvResult.data ⟨frameMsg (encodeRecs sampleTCPRecs), []⟩, RecvResult.errno ENOBUFS,
          RecvResult.data ⟨frameMsg (encodeRecs otherTCPRecs), []⟩] [] =
      ReadEnd.blocked ⟨0, otherOrig, otherReply, ""⟩
        [⟨0, sampleOrig, sampleReply, ""⟩, ⟨0, otherOrig, otherReply, ""⟩] :=
  ⟨rfl, rfl,
    (enobufs_tolerated sampleNetlink recordConn ⟨frameMsg (encodeRecs sampleTCPRecs), []⟩
      ⟨frameMsg (encodeRecs otherTCPRecs), []⟩ (framedMsg (encodeRecs sampleTCPRecs) [])
      (framedMsg (encodeRecs otherTCPRecs) []) ⟨encodeRecs sampleTCPRecs, []⟩
      ⟨encodeRecs otherTCPRecs, []⟩ sampleOrig sampleReply otherOrig otherReply [] [] rfl
      (by decide) (sampleTCPRecs_decodes []) rfl (by decide)
      (otherTCPRecs_decodes [])).2.2 []⟩

/-! ## The error of the read loop in the one-shot dump -/

theorem establishedReq_toWireFormat :
    establishedReq.toWireFormat =
      some [20, 0, 0, 0, 1, 1, 1, 3, 0, 0, 0, 0, 0, 0, 0, 0, 2, 0, 0, 0] := by
  decide

/-- C16 does not hold of the code: `Established` calls `readMsgs(s, next)` and drops its
result, then returns a `nil` error. Once the request is sent, no receive results at all make
`Established` return a non-nil error. On a transport whose first receive fails with `EBADF`,
and on a read whose message has leftover attribute bytes, `readMsgs` (and with it the `next`
of `Follow`) returns the error, `Established` returns `nil`. -/
theorem Established_discards_error :
    (∀ (nl : Netlink) (other : List Byte → String) (localSet : List String)
        (recvs : List RecvResult) (conns : List ConnTCP) (conns2 : List Conn) (err : GoError),
      Established nl other none (fun _ => none) localSet recvs ≠
        DumpEnd.returned conns conns2 (some err)) ∧
    followNext sampleNetlink (establishedNext (fun _ => "") []) [RecvResult.errno EBADF]
        ([], []) = ReadEnd.returned (GoError.errno EBADF) zeroConn ([], []) ∧
    Established sampleNetlink (fun _ => "") none (fun _ => none) [] [RecvResult.errno EBADF] =
      DumpEnd.returned [] [] none ∧
    followNext sampleNetlink (establishedNext (fun _ => "") []) [RecvResult.data corruptRead]
        ([], []) = ReadEnd.returned (GoError.text "leftover attr bytes") zeroConn ([], []) ∧
    Established sampleNetlink (fun _ => "") none (fun _ => none) [] [RecvResult.data corruptRead] =
      DumpEnd.returned [] [] none := by
  refine ⟨?_, rfl, rfl, rfl, rfl⟩
  intro nl other localSet recvs conns conns2 err
  simp only [Established, establishedReq_toWireFormat]
  split <;> simp

/-! ## What `parsePayload` leaves untouched -/

theorem parsePayloadBody_frame (a : Attr) (c c1 : Conn) (e : Option String)
    (h : parsePayloadBody a c = Step.next c1 ∨ parsePayloadBody a c = Step.stop e c1) :
    c1.MsgType = c.MsgType ∧ c1.TCPState = c.TCPState ∧
      (a.Typ ≠ CtaTupleOrig → c1.Orig = c.Orig) ∧
      (a.Typ ≠ CtaTupleReply → c1.Reply = c.Reply) := by
  unfold parsePayloadBody at h
  split_ifs at h with h1 h2 h3 h4
  · have hne : a.Typ ≠ CtaTupleReply := by rw [h1]; decide
    split at h <;> simp at h
    · obtain rfl := h
      exact ⟨rfl, rfl, fun hn => absurd h1 hn, fun _ => rfl⟩
    · obtain ⟨_, rfl⟩ := h
      exact ⟨rfl, rfl, fun hn => absurd h1 hn, fun _ => rfl⟩
  · split at h <;> simp at h
    · obtain rfl := h
      exact ⟨rfl, rfl, fun _ => rfl, fun hn => absurd h2 hn⟩
    · obtain ⟨_, rfl⟩ := h
      exact ⟨rfl, rfl, fun _ => rfl, fun hn => absurd h2 hn⟩
  · simp at h
    obtain rfl := h
    exact ⟨rfl, rfl, fun _ => rfl, fun _ => rfl⟩
  · simp at h
    obtain rfl := h
    exact ⟨rfl, rfl, fun _ => rfl, fun _ => rfl⟩
  · simp at h
    obtain rfl := h
    exact ⟨rfl, rfl, fun _ => rfl, fun _ => rfl⟩

theorem forRange_parsePayloadBody_frame (idx : Nat) :
    ∀ (attrs : List Attr) (i : Nat) (c : Conn) (e : Option String) (c1 : Conn), i ≤ idx →
      forRange idx parsePayloadBody i attrs c = Run.ret e c1 →
        c1.MsgType = c.MsgType ∧ c1.TCPState = c.TCPState ∧
        ((∀ a ∈ attrs.take (idx - i), a.Typ ≠ CtaTupleOrig) → c1.Orig = c.Orig) ∧
        ((∀ a ∈ attrs.take (idx - i), a.Typ ≠ CtaTupleReply) → c1.Reply = c.Reply) := by
  intro attrs
  induction attrs with
  | nil =>
    intro i c e c1 _ h
    simp only [forRange, Run.ret.injEq] at h
    obtain ⟨_, rfl⟩ := h
    exact ⟨rfl, rfl, fun _ => rfl, fun _ => rfl⟩
  | cons a rest ih =>
    intro i c e c1 hi h
    simp only [forRange] at h
    split at h
    · simp only [Run.ret.injEq] at h
      obtain ⟨_, rfl⟩ := h
      exact ⟨rfl, rfl, fun _ => rfl, fun _ => rfl⟩
    · rename_i hne
      have hlt : i < idx := Nat.lt_of_le_of_ne hi hne
      have htake : (a :: rest).take (idx - i) = a :: rest.take (idx - (i + 1)) := by
        obtain ⟨d, hd⟩ : ∃ d, idx - i = d + 1 := ⟨idx - i - 1, by omega⟩
        have hd2 : idx - (i + 1) = d := by omega
        rw [hd, hd2, List.take_succ_cons]
      rw [htake]
      cases hb : parsePayloadBody a c with
      | next c2 =>
        rw [hb] at h
        obtain ⟨g1, g2, g3, g4⟩ := ih (i + 1) c2 e c1 hlt h
        obtain ⟨f1, f2, f3, f4⟩ := parsePayloadBody_frame a c c2 none (Or.inl hb)
        refine ⟨g1.trans f1, g2.trans f2, fun hall => ?_, fun hall => ?_⟩
        · exact (g3 (fun x hx => hall x (List.mem_cons_of_mem _ hx))).trans
            (f3 (hall a (List.mem_cons_self _ _)))
        · exact (g4 (fun x hx => hall x (List.mem_cons_of_mem _ hx))).trans
            (f4 (hall a (List.mem_cons_self _ _)))
      | stop err c2 =>
        rw [hb] at h
        simp only [Run.ret.injEq] at h
        obtain ⟨_, rfl⟩ := h
        obtain ⟨f1, f2, f3, f4⟩ := parsePayloadBody_frame a c c2 err (Or.inr hb)
        exact ⟨f1, f2, fun hall => f3 (hall a (List.mem_cons_self _ _)),
          fun hall => f4 (hall a (List.mem_cons_self _ _))⟩
      | panic => rw [hb] at h; simp at h
      | nofuel => rw [hb] at h; simp at h

theorem attrsOf_typ (post : List Byte) :
    ∀ (rs : List Rec) (a : Attr), a ∈ attrsOf rs post → ∃ r ∈ rs, a.Typ = r.code := by
  intro rs
  induction rs with
  | nil => intro a ha; simp [attrsOf] at ha
  | cons r rs ih =>
    intro a ha
    simp only [attrsOf, List.mem_cons] at ha
    rcases ha with rfl | ha
    · exact ⟨r, List.mem_cons_self _ _, rfl⟩
    · obtain ⟨r1, hr1, h1⟩ := ih a ha
      exact ⟨r1, List.mem_cons_of_mem _ hr1, h1⟩

theorem parsePayload_frame_attrs (b : Slice) (conn conn1 : Conn) (e : Option String)
    (h : parsePayload b conn = Run.ret e conn1) (idx : Nat) (err : Option String)
    (attrs : List Attr) (hp : parseAttrs b (makeAttrs 20) = Run.ret (idx, err) attrs) :
    conn1.MsgType = conn.MsgType ∧ conn1.TCPState = conn.TCPState ∧
      ((∀ a ∈ attrs.take idx, a.Typ ≠ CtaTupleOrig) → conn1.Orig = conn.Orig) ∧
      ((∀ a ∈ attrs.take idx, a.Typ ≠ CtaTupleReply) → conn1.Reply = conn.Reply) := by
  unfold parsePayload at h
  rw [hp] at h
  cases err with
  | some msg =>
    simp only [Run.ret.injEq] at h
    obtain ⟨_, rfl⟩ := h
    exact ⟨rfl, rfl, fun _ => rfl, fun _ => rfl⟩
  | none =>
    have := forRange_parsePayloadBody_frame idx attrs 0 conn e conn1 (Nat.zero_le _) h
    simpa using this

theorem parsePayload_returns_attrs (b : Slice) (conn conn1 : Conn) (e : Option String)
    (h : parsePayload b conn = Run.ret e conn1) :
    ∃ idx err attrs, parseAttrs b (makeAttrs 20) = Run.ret (idx, err) attrs := by
  unfold parsePayload at h
  cases hp : parseAttrs b (makeAttrs 20) with
  | ret r attrs => exact ⟨r.1, r.2, attrs, rfl⟩
  | panic => rw [hp] at h; simp at h
  | nofuel => rw [hp] at h; simp at h

/-- C20: a call of `parsePayload` that returns (with or without an error) leaves `MsgType`
and `TCPState` of the `Conn` as they were; it leaves `Orig` as it was when none of the
attributes that `parseAttrs` decoded from the payload has the original-tuple type, and
`Reply` when none has the reply-tuple type (in particular for a well-framed payload none of
whose records has that type). Hence `readMsgs`, which hands the same `Conn` to every call:
when it decodes a message without error and the `Conn` then has protocol TCP, it invokes the
callback on the result `conn1`, in which a tuple the message lacks is the one left over from
the messages before. -/
theorem parsePayload_frame (b : Slice) (conn conn1 : Conn) (e : Option String)
    (h : parsePayload b conn = Run.ret e conn1) :
    conn1.MsgType = conn.MsgType ∧ conn1.TCPState = conn.TCPState ∧
    (∀ (idx : Nat) (err : Option String) (attrs : List Attr),
      parseAttrs b (makeAttrs 20) = Run.ret (idx, err) attrs →
        ((∀ a ∈ attrs.take idx, a.Typ ≠ CtaTupleOrig) → conn1.Orig = conn.Orig) ∧
        ((∀ a ∈ attrs.take idx, a.Typ ≠ CtaTupleReply) → conn1.Reply = conn.Reply)) ∧
    (∀ top : List Rec, Framed b.elems top →
      ((∀ r ∈ top, r.code ≠ CtaTupleOrig) → conn1.Orig = conn.Orig) ∧
      ((∀ r ∈ top, r.code ≠ CtaTupleReply) → conn1.Reply = conn.Reply)) ∧
    (∀ (κ : Type) (nl : Netlink) (cb : Conn → κ → Conn × κ) (m : NetlinkMessage)
        (rest : List NetlinkMessage) (k : κ),
      nl.Accepts m b → e = none → conn1.Orig.Proto = IPPROTO_TCP →
        handleMsgs nl cb (m :: rest) conn k =
          handleMsgs nl cb rest (cb conn1 k).1 (cb conn1 k).2) := by
  obtain ⟨idx0, err0, attrs0, hp0⟩ := parsePayload_returns_attrs b conn conn1 e h
  have h0 := parsePayload_frame_attrs b conn conn1 e h idx0 err0 attrs0 hp0
  refine ⟨h0.1, h0.2.1, ?_, ?_, ?_⟩
  · intro idx err attrs hp
    exact (parsePayload_frame_attrs b conn conn1 e h idx err attrs hp).2.2
  · intro top hf
    obtain ⟨hwf, hk, hb⟩ := hf
    have hp := parseAttrs_encodeRecs top hwf 20 hk [] b.spare (by simp)
    simp only [List.append_nil, if_true, List.nil_append] at hp
    have hbs : b = ⟨encodeRecs top, b.spare⟩ := by
      cases b
      simp only at hb
      rw [hb]
    rw [← hbs] at hp
    have h1 := (parsePayload_frame_attrs b conn conn1 e h _ _ _ hp).2.2
    rw [take_attrsOf] at h1
    refine ⟨fun hall => h1.1 ?_, fun hall => h1.2 ?_⟩
    · intro a ha
      obtain ⟨r, hr, hc⟩ := attrsOf_typ _ top a ha
      rw [hc]
      exact hall r hr
    · intro a ha
      obtain ⟨r, hr, hc⟩ := attrsOf_typ _ top a ha
      rw [hc]
      exact hall r hr
  · intro κ nl cb m rest k ha he ht
    subst he
    exact handleMsgs_dispatch nl cb m rest b conn conn1 k ha h ht

theorem parseAttrs_terminates_witness :
    (parseAttrsLoop 100 ⟨encodeRecs sampleRecs, []⟩ (makeAttrs 20) 0 =
        parseAttrsLoop ((Slice.mk (encodeRecs sampleRecs) []).len / 4 + 1)
          ⟨encodeRecs sampleRecs, []⟩ (makeAttrs 20) 0 ∧
      parseAttrsLoop 100 ⟨encodeRecs sampleRecs, []⟩ (makeAttrs 20) 0 ≠ Run.nofuel) ∧
    parseAttr ⟨encodeRecs sampleRecs, []⟩ =
      some (true, ⟨[5, 0, 2, 64, 7, 0, 0, 0], []⟩,
        ⟨⟨[10, 0, 0, 5], [5, 0, 2, 64, 7, 0, 0, 0]⟩, 1, true, false⟩) ∧
    (4 < 65536 ∧ 4 ≤ rtaAlignOf (4 + 4) ∧ 8 + rtaAlignOf (4 + 4) = 16 ∧ 8 < 16) :=
  ⟨(parseAttrs_terminates ⟨encodeRecs sampleRecs, []⟩ (makeAttrs 20)).2.1 100 0 (by decide),
    by decide,
    (parseAttrs_terminates ⟨encodeRecs sampleRecs, []⟩ (makeAttrs 20)).2.2 true
      ⟨[5, 0, 2, 64, 7, 0, 0, 0], []⟩
      ⟨⟨[10, 0, 0, 5], [5, 0, 2, 64, 7, 0, 0, 0]⟩, 1, true, false⟩ (by decide)⟩

set_option maxRecDepth 20000 in
theorem parsePayload_frame_witness :
    parsePayload ⟨encodeRecs replyOnlyRecs, []⟩ ⟨0, sampleOrig, sampleReply, ""⟩ =
      Run.ret none ⟨0, sampleOrig, otherReply, ""⟩ ∧
    Framed (encodeRecs replyOnlyRecs) replyOnlyRecs ∧
    (∀ r ∈ replyOnlyRecs, r.code ≠ CtaTupleOrig) ∧
    (Conn.mk 0 sampleOrig otherReply "").Orig = (Conn.mk 0 sampleOrig sampleReply "").Orig ∧
    handleMsgs sampleNetlink recordConn [framedMsg (encodeRecs replyOnlyRecs) []]
        ⟨0, sampleOrig, sampleReply, ""⟩ [] =
      handleMsgs sampleNetlink recordConn []
        (recordConn ⟨0, sampleOrig, otherReply, ""⟩ []).1
        (recordConn ⟨0, sampleOrig, otherReply, ""⟩ []).2 ∧
    readMsgs sampleNetlink recordConn [RecvResult.data tcpThenReplyOnlyRead] [] =
      ReadEnd.blocked ⟨0, sampleOrig, otherReply, ""⟩
        [⟨0, sampleOrig, sampleReply, ""⟩, ⟨0, sampleOrig, otherReply, ""⟩] :=
  ⟨rfl, ⟨by decide, by decide, rfl⟩, by decide,
    ((parsePayload_frame ⟨encodeRecs replyOnlyRecs, []⟩ ⟨0, sampleOrig, sampleReply, ""⟩
      ⟨0, sampleOrig, otherReply, ""⟩ none rfl).2.2.2.1 replyOnlyRecs
      ⟨by decide, by decide, rfl⟩).1 (by decide),
    (parsePayload_frame ⟨encodeRecs replyOnlyRecs, []⟩ ⟨0, sampleOrig, sampleReply, ""⟩
      ⟨0, sampleOrig, otherReply, ""⟩ none rfl).2.2.2.2 (List Conn) sampleNetlink recordConn
      (framedMsg (encodeRecs replyOnlyRecs) []) [] [] (by decide) rfl (by decide),
    rfl⟩

end Conntrack
